import Mathlib

/-!
Process and sequence-evolution assembly in `PhylogeneticsApplicationTools.cpp`.

A shallow embedding of two functions of
`src/phydmslib/Bpp/bpp-phyl/src/Bpp/Phyl/App/PhylogeneticsApplicationTools.cpp`:

* `addSubstitutionProcessCollectionMember` (lines 1034-1235), which reads one process
  description and registers a substitution process in a collection;
* `getSequenceEvolutions` (lines 1382-1551), which reads the remaining descriptions and
  builds the sequence evolutions.

A description `Name(key=value,...)` is held in parsed form: the procedure name and, for
every key the two functions read, the value the configuration reader returns for it.
`std::map` objects are association lists, `size_t` values are natural numbers reduced
modulo `2 ^ 64` wherever the source computes with them, and a `throw` is a value of `Err`.
-/

namespace PhylogeneticsApplicationTools

/-! ## Machine integers and maps -/

/-- The cast `(size_t)z` of a signed integer on a 64-bit platform. -/
def toSizeT (z : Int) : Nat := (z % 2 ^ 64).toNat

/-- The value of a `size_t` expression whose mathematical value is `n`. -/
def wrapSizeT (n : Nat) : Nat := n % 2 ^ 64

/-- The call `m.find(k)` on a `std::map<size_t, V>`; `none` stands for `m.end()`. -/
def mapFind {α : Type} (k : Nat) : List (Nat × α) → Option α
  | [] => none
  | (k1, v) :: rest => if k = k1 then some v else mapFind k rest

/-- The assignment `m[k] = v` on a `std::map<size_t, V>`: the entry is replaced when the key
is present and inserted at its place in key order otherwise. -/
def mapSet {α : Type} (k : Nat) (v : α) : List (Nat × α) → List (Nat × α)
  | [] => [(k, v)]
  | (k1, v1) :: rest =>
    if k < k1 then (k, v) :: (k1, v1) :: rest
    else if k = k1 then (k, v) :: rest
    else (k1, v1) :: mapSet k v rest

/-! ## Parsed descriptions -/

/-- The text of a `rate` argument, `r` or `r.c`, as the source splits it at the first dot
(lines 1074-1081): `intPart` is `TextTools::toInt` of the text before the dot and `category`
is `TextTools::toInt` of the text after it, when there is a dot. -/
structure RateText where
  intPart : Int
  category : Option Int
deriving DecidableEq, Repr

/-- The arguments of one parsed procedure description, one field per key read by the two
functions; `none` or a missing index means the key is not in `args`. Numbered keys
(`model<i>`, `model<i>.nodes_id`, `process<i>`, `process<i>.sites`) are maps from the index
`i` to the value. `probas` is the value of the key `probas` read as a vector and
`probasMatrix` the value of the same key read as a matrix. -/
structure Args where
  tree : Option Int := none
  rate : Option RateText := none
  root_freq : Option Int := none
  model : Option Int := none
  modelN : List (Nat × Int) := []
  nodes_id : List (Nat × List Int) := []
  process : Option Int := none
  processN : List (Nat × Int) := []
  sites : List (Nat × List Nat) := []
  probas : Option (List ℚ) := none
  probasMatrix : Option (List (List ℚ)) := none
deriving DecidableEq, Repr

/-- The result of `KeyvalTools::parseProcedure` on the text of one `process<N>` entry. -/
structure Description where
  name : String
  args : Args
deriving DecidableEq, Repr

/-- Modelled from the spec: `ApplicationTools::getIntParameter` belongs to the configuration
reader, which is not in this source file. As at every call site of the file, its third
argument is the value returned when the key is absent. -/
def getIntParameter (value : Option Int) (defaultValue : Int) : Int :=
  value.getD defaultValue

/-- Modelled from the spec: `ApplicationTools::getVectorParameter`, of the configuration
reader, with the parsed default handed over when the key is absent. -/
def getVectorParameter {α : Type} (value : Option (List α)) (defaultValue : List α) : List α :=
  value.getD defaultValue

/-! ## Exceptions -/

/-- The exceptions thrown by the two functions and by the collection they call, one
constructor per `throw` site. -/
inductive Err where
  /-- Line 1056, `Exception`: a tree number is compulsory. -/
  | treeCompulsory
  /-- Line 1061, `BadIntegerException`: unknown tree number. -/
  | unknownTree (numTree : Nat)
  /-- Line 1068, `Exception`: a rate number is compulsory. -/
  | rateCompulsory
  /-- Line 1078, `BadIntegerException`: unknown rate number. -/
  | unknownRate (numRate : Nat)
  /-- Line 1100, `BadIntegerException`: unknown root frequencies number. -/
  | unknownRootFreq (numFreq : Nat)
  /-- Lines 1109 and 1182, `Exception`: a model number is compulsory. -/
  | modelCompulsory
  /-- Lines 1114 and 1187, `BadIntegerException`: unknown model number. -/
  | unknownModel (numModel : Nat)
  /-- Line 1154, `BadIntegerException`: model number seen twice. -/
  | modelSeenTwice (numModel : Nat)
  /-- Line 1190, `Exception`: the OnePerBranch option is not implemented yet. -/
  | onePerBranchNotImplemented
  /-- Lines 1426 and 1448, `BadIntegerException`: unknown process number. -/
  | unknownProcess (numProc : Nat)
  /-- Line 1444, `Exception`: a process number is compulsory. -/
  | processCompulsory
  /-- Line 1466, `BadIntegerException`: a process position is defined twice; the value
  reported is the index `j` in the list of sites. -/
  | positionDefinedTwice (j : Nat)
  /-- Line 1480, `Exception`: there are gaps in the process sites. -/
  | gapsInSites
  /-- Line 1496, `BadSizeException`: wrong size of probas description in Mixture. -/
  | wrongSizeOfProbas (size nbP : Nat)
  /-- Line 1544, `Exception`: unknown phylogeny description. -/
  | unknownDescription (evolName : String)
  /-- The registry refuses an id that is already present (spec 4.1, `DuplicateIdError`). -/
  | duplicateId (id : Nat)
  /-- The registry does not hold the id referred to (spec 4.1, `ReferenceError`). -/
  | reference (id : Nat)
  /-- The model assignment does not partition the branch ids of the tree (spec 4.4,
  `StructuralError`). -/
  | structural
deriving DecidableEq, Repr

/-! ## The process collection -/

/-- A tree of the collection: its branch identifiers (spec 3, tree reference). -/
structure ParametrizableTree where
  branchIds : List Int
deriving DecidableEq, Repr

/-- The call `getNumberOfBranches()` on a tree. -/
def ParametrizableTree.getNumberOfBranches (t : ParametrizableTree) : Nat :=
  t.branchIds.length

/-- A rate distribution of the collection, kept symbolically: a distribution declared by the
user (with its number of categories), or the `ConstantDistribution` built at line 1082 from
category `category` of the distribution `source`. -/
inductive DiscreteDistribution where
  | declared (numberOfCategories : Nat)
  | constantOfCategory (source : DiscreteDistribution) (category : Nat)
deriving DecidableEq, Repr

/-- A registered substitution process: the arguments of the `addSubstitutionProcess` call
that created it; `nFreq = none` is the call without root frequencies (stationarity). -/
structure SubstitutionProcessCollectionMember where
  mModBr : List (Nat × List Int)
  nTree : Nat
  nRate : Nat
  nFreq : Option Nat
deriving DecidableEq, Repr

/-- The numbered stores of a `SubstitutionProcessCollection`. Models and root-frequency sets
are kept by number only. -/
structure SubstitutionProcessCollection where
  treeColl : List (Nat × ParametrizableTree)
  distColl : List (Nat × DiscreteDistribution)
  modelColl : List Nat
  freqColl : List Nat
  mSubProcess : List (Nat × SubstitutionProcessCollectionMember)
deriving DecidableEq, Repr

namespace SubstitutionProcessCollection

/-- The call `hasTreeNumber(n)`. -/
def hasTreeNumber (c : SubstitutionProcessCollection) (n : Nat) : Bool :=
  (mapFind n c.treeColl).isSome

/-- The call `hasDistributionNumber(n)`. -/
def hasDistributionNumber (c : SubstitutionProcessCollection) (n : Nat) : Bool :=
  (mapFind n c.distColl).isSome

/-- The call `hasModelNumber(n)`. -/
def hasModelNumber (c : SubstitutionProcessCollection) (n : Nat) : Bool :=
  decide (n ∈ c.modelColl)

/-- The call `hasFrequenciesNumber(n)`. -/
def hasFrequenciesNumber (c : SubstitutionProcessCollection) (n : Nat) : Bool :=
  decide (n ∈ c.freqColl)

/-- The call `hasSubstitutionProcessNumber(n)`. -/
def hasSubstitutionProcessNumber (c : SubstitutionProcessCollection) (n : Nat) : Bool :=
  (mapFind n c.mSubProcess).isSome

end SubstitutionProcessCollection

/-- The first model number of an assignment `mModBr` that the collection does not hold. -/
def firstUnknownModel (c : SubstitutionProcessCollection) :
    List (Nat × List Int) → Option Nat
  | [] => none
  | (numModel, _) :: rest =>
    if c.hasModelNumber numModel then firstUnknownModel c rest else some numModel

/-- Modelled from the spec: `SubstitutionProcessCollection::addDistribution`, whose body is
not in this source file. Spec 4.1: `add(kind, id, object)` fails with `DuplicateIdError` if
the id is already present for that kind; otherwise the object is stored under the id. -/
def addDistribution (c : SubstitutionProcessCollection) (dist : DiscreteDistribution)
    (n : Nat) : Except Err SubstitutionProcessCollection :=
  if c.hasDistributionNumber n then .error (Err.duplicateId n)
  else .ok { c with distColl := mapSet n dist c.distColl }

/-- Modelled from the spec: `SubstitutionProcessCollection::addSubstitutionProcess` (both
overloads, `nFreq = none` being the one without root frequencies), whose body is not in this
source file. Spec 4.1 and 4.4: the process number must not be present already
(`DuplicateIdError`); the tree, rate, model and frequency numbers must exist
(`ReferenceError`); the branch lists of the model assignment must contain every branch id of
the tree exactly once (`StructuralError`). Then the process is stored under its number. -/
def addSubstitutionProcess (c : SubstitutionProcessCollection) (procNum : Nat)
    (mModBr : List (Nat × List Int)) (nTree nRate : Nat) (nFreq : Option Nat) :
    Except Err SubstitutionProcessCollection :=
  if c.hasSubstitutionProcessNumber procNum then .error (Err.duplicateId procNum)
  else
    match mapFind nTree c.treeColl with
    | none => .error (Err.reference nTree)
    | some tree =>
      if !c.hasDistributionNumber nRate then .error (Err.reference nRate)
      else
        match firstUnknownModel c mModBr with
        | some numModel => .error (Err.reference numModel)
        | none =>
          -- a frequency number that is given and absent
          match nFreq.filter (fun f => !c.hasFrequenciesNumber f) with
          | some f => .error (Err.reference f)
          | none =>
            let assigned := (mModBr.map Prod.snd).flatten
            if assigned.Nodup ∧ (∀ b ∈ assigned, b ∈ tree.branchIds) ∧
                (∀ b ∈ tree.branchIds, b ∈ assigned) then
              .ok { c with
                mSubProcess := mapSet procNum ⟨mModBr, nTree, nRate, nFreq⟩ c.mSubProcess }
            else .error Err.structural

/-! ## Process assembly (`addSubstitutionProcessCollectionMember`, lines 1034-1235) -/

/-- The state of the collection when a call returns or throws, and the exception thrown, if
any. A `throw` leaves in the collection what the call had stored before it. -/
structure Outcome where
  coll : SubstitutionProcessCollection
  thrown : Option Err
deriving DecidableEq, Repr

/-- The call was refused: it threw and the processes of the collection are those of `c`. -/
def Outcome.RefusedFrom (o : Outcome) (c : SubstitutionProcessCollection) : Prop :=
  o.thrown ≠ none ∧ o.coll.mSubProcess = c.mSubProcess

/-- Lines 1082 and 1084: the id `10000*(numRate+1)+numSRate`, computed on `size_t`. -/
def synthesizedRateId (numRate numSRate : Nat) : Nat :=
  wrapSizeT (10000 * (numRate + 1) + numSRate)

/-- Lines 1067-1085: the rate number. The result is the collection, to which the derived
distribution of a reference `r.c` has been added, and the rate number of the process. The
test `hasDistributionNumber(numRate)` of line 1077 and the call `getRateDistribution(numRate)`
of line 1082 are the same lookup. -/
def readRate (c : SubstitutionProcessCollection) (args : Args) :
    Except Err (SubstitutionProcessCollection × Nat) :=
  match args.rate with
  | none => .error Err.rateCompulsory
  | some sRate =>
    let numRate := toSizeT sRate.intPart
    match mapFind numRate c.distColl with
    | none => .error (Err.unknownRate numRate)
    | some dist =>
      match sRate.category with
      | none => .ok (c, numRate)
      | some cat =>
        let numSRate := toSizeT cat
        match addDistribution c (DiscreteDistribution.constantOfCategory dist numSRate)
            (synthesizedRateId numRate numSRate) with
        | .error e => .error e
        | .ok c1 => .ok (c1, synthesizedRateId numRate numSRate)

/-- Lines 1091-1101: the root frequencies number; `none` is stationarity. -/
def readRootFreq (c : SubstitutionProcessCollection) (args : Args) :
    Except Err (Option Nat) :=
  match args.root_freq with
  | none => .ok none
  | some value =>
    let numFreq := toSizeT (getIntParameter (some value) 1)
    if !c.hasFrequenciesNumber numFreq then .error (Err.unknownRootFreq numFreq)
    else .ok (some numFreq)

/-- Lines 1118-1120: the vector `vNodes` of the ids `0, ..., nNodes - 1`. The ids are C
`int`s, so the number of branches is taken to fit in an `int`. -/
def vNodes (nNodes : Nat) : List Int := (List.range nNodes).map Int.ofNat

/-- The call of `addSubstitutionProcess` that ends the Homogeneous and the Nonhomogeneous
branch (lines 1138-1141 and 1174-1177). -/
def registerProcess (c : SubstitutionProcessCollection) (procNum : Nat)
    (mModBr : List (Nat × List Int)) (numTree numRate : Nat) (nFreq : Option Nat) : Outcome :=
  match addSubstitutionProcess c procNum mModBr numTree numRate nFreq with
  | .error e => ⟨c, some e⟩
  | .ok c1 => ⟨c1, none⟩

/-- Lines 1106-1142: the `Homogeneous` branch. The tree is the one found by
`hasTreeNumber(numTree)` at line 1060. -/
def homogeneousProcess (c : SubstitutionProcessCollection) (procNum : Nat) (args : Args)
    (tree : ParametrizableTree) (numTree numRate : Nat) (nFreq : Option Nat) : Outcome :=
  match args.model with
  | none => ⟨c, some Err.modelCompulsory⟩
  | some value =>
    let numModel := toSizeT (getIntParameter (some value) 1)
    if !c.hasModelNumber numModel then ⟨c, some (Err.unknownModel numModel)⟩
    else
      let nNodes := tree.getNumberOfBranches
      let mModBr := mapSet numModel (vNodes nNodes) []
      registerProcess c procNum mModBr numTree numRate nFreq

/-- Lines 1149-1161: the loop reading `model1`, `model2`, ... with their `nodes_id` (default
text `0`) until the first index that is not a key of `args`. `fuel` bounds the number of
iterations. -/
def readModels (args : Args) :
    Nat → Nat → List (Nat × List Int) → Except Err (List (Nat × List Int))
  | 0, _, mModBr => .ok mModBr
  | fuel + 1, indModel, mModBr =>
    match mapFind indModel args.modelN with
    | none => .ok mModBr
    | some value =>
      let numModel := toSizeT (getIntParameter (some value) 1)
      if (mapFind numModel mModBr).isSome then .error (Err.modelSeenTwice numModel)
      else
        let nodesId := getVectorParameter (mapFind indModel args.nodes_id) [0]
        readModels args fuel (indModel + 1) (mapSet numModel nodesId mModBr)

/-- Lines 1144-1178: the `Nonhomogeneous` branch. The loop ends at the first missing index,
after at most `modelN.length` entries, so `modelN.length + 1` iterations are enough
(`readModels_fuel`). -/
def nonhomogeneousProcess (c : SubstitutionProcessCollection) (procNum : Nat) (args : Args)
    (numTree numRate : Nat) (nFreq : Option Nat) : Outcome :=
  match readModels args (args.modelN.length + 1) 1 [] with
  | .error e => ⟨c, some e⟩
  | .ok mModBr => registerProcess c procNum mModBr numTree numRate nFreq

/-- Lines 1179-1190: the `OnePerBranch` branch, which always throws. -/
def onePerBranchProcess (c : SubstitutionProcessCollection) (args : Args) : Outcome :=
  match args.model with
  | none => ⟨c, some Err.modelCompulsory⟩
  | some value =>
    let numModel := toSizeT (getIntParameter (some value) 1)
    if !c.hasModelNumber numModel then ⟨c, some (Err.unknownModel numModel)⟩
    else ⟨c, some Err.onePerBranchNotImplemented⟩

/-- Lines 1106-1234: the part of `addSubstitutionProcessCollectionMember` after the tree, the
rate and the root frequencies have been read. The name is one of the four of line 1048. -/
def assembleModels (c1 : SubstitutionProcessCollection) (procNum : Nat) (d : Description)
    (tree : ParametrizableTree) (numTree numRate : Nat) (nFreq : Option Nat) : Outcome :=
  if d.name = "Homogeneous" then
    homogeneousProcess c1 procNum d.args tree numTree numRate nFreq
  else if d.name = "Nonhomogeneous" ∨ d.name = "NonHomogeneous" then
    nonhomogeneousProcess c1 procNum d.args numTree numRate nFreq
  else onePerBranchProcess c1 d.args

/-- The procedure names that `addSubstitutionProcessCollectionMember` handles (line 1048). -/
def IsProcessName (name : String) : Prop :=
  name = "OnePerBranch" ∨ name = "Homogeneous" ∨ name = "Nonhomogeneous" ∨
    name = "NonHomogeneous"

/-- Lines 1034-1235: `addSubstitutionProcessCollectionMember`, on the parsed description `d`
of the entry `process<procNum>`. The test `hasTreeNumber(numTree)` of line 1060 and the call
`getTree(numTree)` of line 1116 are the same lookup. -/
def addSubstitutionProcessCollectionMember (SubProColl : SubstitutionProcessCollection)
    (procNum : Nat) (d : Description) : Outcome :=
  if d.name ≠ "OnePerBranch" ∧ d.name ≠ "Homogeneous" ∧ d.name ≠ "Nonhomogeneous" ∧
      d.name ≠ "NonHomogeneous" then ⟨SubProColl, none⟩
  else
    match d.args.tree with
    | none => ⟨SubProColl, some Err.treeCompulsory⟩
    | some value =>
      let numTree := toSizeT (getIntParameter (some value) 1)
      match mapFind numTree SubProColl.treeColl with
      | none => ⟨SubProColl, some (Err.unknownTree numTree)⟩
      | some tree =>
        match readRate SubProColl d.args with
        | .error e => ⟨SubProColl, some e⟩
        | .ok (c1, numRate) =>
          match readRootFreq c1 d.args with
          | .error e => ⟨c1, some e⟩
          | .ok nFreq => assembleModels c1 procNum d tree numTree numRate nFreq

/-! ## Sequence evolutions (`getSequenceEvolutions`, lines 1382-1551) -/

/-- The value of `probas` handed to an `HMM` or an `AutoCorr` evolution: the one given in the
description, or the one read back from the default text that the code builds from `nbP`
(lines 1509-1513 and 1530). That text holds the printed value of `1./nbP`, `nbP` times
between commas, and for `HMM` this row `nbP` times. The printing of a `double` and the
reading of the text belong to `VectorTools`, `TextTools` and the configuration reader, none
of which is in src, so the default is kept as it is and no number is given for it. -/
inductive Probas (α : Type) where
  | given (value : α)
  | byDefault (nbP : Nat)
deriving DecidableEq, Repr

/-- The object built for one description, kept symbolically: the constructor called and the
values handed to it. -/
inductive SequenceEvolution where
  /-- Line 1428, `OneProcessSequenceEvolution(SPC.getSubstitutionProcess(nproc), nproc)`. -/
  | oneProcess (nproc : Nat)
  /-- Line 1482, `PartitionSequenceEvolution(&SPC, vMap)`. -/
  | partition (vMap : List Nat)
  /-- Lines 1488-1499, `MixtureSequenceEvolution(&SPC, vproc)`; `subProcessProb` is `some
  vprob` when `setSubProcessProb(Simplex(vprob))` was called on it. -/
  | mixture (vproc : List Nat) (subProcessProb : Option (List ℚ))
  /-- Lines 1505-1520, `HmmSequenceEvolution(&SPC, vproc)` with the transition probabilities
  `mat` matched into its parameters. -/
  | hmm (vproc : List Nat) (mat : Probas (List (List ℚ)))
  /-- Lines 1526-1539, `AutoCorrelationSequenceEvolution(&SPC, vproc)` with the parameters
  `lambda1, lambda2, ...` set from `v`. -/
  | autoCorrelation (vproc : List Nat) (v : Probas (List ℚ))
deriving DecidableEq, Repr

/-- Modelled from the spec: `getNumberOfSubstitutionProcess()` of a multi-process evolution,
whose class is not in this source file: the evolution holds the N process ids it was built
from (spec 4.5). -/
def getNumberOfSubstitutionProcess (vproc : List Nat) : Nat := vproc.length

/-- Lines 1432-1441: the loop reading `process1`, `process2`, ... until the first index that
is not a key of `args`. `fuel` bounds the number of iterations. -/
def readProcessNumbers (processN : List (Nat × Int)) : Nat → Nat → List Nat → List Nat
  | 0, _, vproc => vproc
  | fuel + 1, indProc, vproc =>
    match mapFind indProc processN with
    | none => vproc
    | some value =>
      readProcessNumbers processN fuel (indProc + 1)
        (vproc ++ [toSizeT (getIntParameter (some value) 1)])

/-- Lines 1432-1441: the vector `vproc` read from `args`. The loop ends at the first missing
index, after at most `processN.length` entries, so `processN.length + 1` iterations are
enough (`readProcessNumbers_fuel`). -/
def processNumbers (args : Args) : List Nat :=
  readProcessNumbers args.processN (args.processN.length + 1) 1 []

/-- Lines 1446-1448: the first process number of `vproc` unknown to the collection. -/
def firstUnknownProcess (SPC : SubstitutionProcessCollection) : List Nat → Option Nat
  | [] => none
  | p :: rest =>
    if SPC.hasSubstitutionProcessNumber p then firstUnknownProcess SPC rest else some p

/-- Line 1462: the sites of the process of index `i` (counted from 0), read from the key
`process<i+1>.sites` with the default text `TextTools::toString(i)`. -/
def procPos (args : Args) (i : Nat) : List Nat :=
  getVectorParameter (mapFind (i + 1) args.sites) [i]

/-- Lines 1464-1468: the positions of one process are entered in `posProc`; `j` is the index
of the position in `procPos`. -/
def enterPositions (numProc : Nat) :
    List Nat → Nat → List (Nat × Nat) → Except Err (List (Nat × Nat))
  | [], _, posProc => .ok posProc
  | p :: rest, j, posProc =>
    if (mapFind p posProc).isSome then .error (Err.positionDefinedTwice j)
    else enterPositions numProc rest (j + 1) (mapSet p numProc posProc)

/-- Lines 1458-1469: the loop over the processes; the list is `vproc` from index `i` on. -/
def enterProcesses (args : Args) :
    List Nat → Nat → List (Nat × Nat) → Except Err (List (Nat × Nat))
  | [], _, posProc => .ok posProc
  | numProc :: rest, i, posProc =>
    match enterPositions numProc (procPos args i) 0 posProc with
    | .error e => .error e
    | .ok posProc1 => enterProcesses args rest (i + 1) posProc1

/-- Lines 1473-1477: the loop `while (posProc.find(pos) != posProc.end())`. `fuel` bounds
the number of iterations. -/
def collectSites (posProc : List (Nat × Nat)) : Nat → Nat → List Nat → List Nat
  | 0, _, vMap => vMap
  | fuel + 1, pos, vMap =>
    match mapFind pos posProc with
    | none => vMap
    | some numProc => collectSites posProc fuel (pos + 1) (vMap ++ [numProc])

/-- Lines 1450-1485: the `Partition` branch. The `while` loop leaves after at most
`posProc.size()` entries were found, so `posProc.length + 1` iterations are enough
(`collectSites_fuel`). -/
def partitionEvolution (args : Args) (vproc : List Nat) : Except Err SequenceEvolution :=
  match enterProcesses args vproc 0 [] with
  | .error e => .error e
  | .ok posProc =>
    let vMap := collectSites posProc (posProc.length + 1) 1 []
    if vMap.length ≠ posProc.length then .error Err.gapsInSites
    else .ok (SequenceEvolution.partition vMap)

/-- Modelled from the spec: `VectorTools::paste` and `ApplicationTools::getVectorParameter`
are not in src. Line 1492: the size of the vector read when `probas` is not given. The
default text is the bracketed `paste(std::vector<double>(nbP, 1./nbP))`; `paste` is called
without a delimiter here, unlike at lines 1509 and 1530, and separates the numbers by a
blank, while `getVectorParameter` splits the text at the separator `','`. The text holds no
`','`: it is read as one element, and as none when `nbP` is 0 and the text is `()`. -/
def mixtureDefaultSize (nbP : Nat) : Nat := if nbP = 0 then 0 else 1

/-- Line 1492: the size of the vector `vprob`. -/
def vprobSize (args : Args) (nbP : Nat) : Nat :=
  match args.probas with
  | some vprob => vprob.length
  | none => mixtureDefaultSize nbP

/-- Lines 1486-1502: the `Mixture` branch. The weights are handed to the mixture when their
number is not 1 and is `nbP`; when `probas` is not given this only happens for `nbP = 0`,
where the vector read is the empty one. -/
def mixtureEvolution (args : Args) (vproc : List Nat) : Except Err SequenceEvolution :=
  let nbP := getNumberOfSubstitutionProcess vproc
  if vprobSize args nbP ≠ 1 then
    if vprobSize args nbP ≠ nbP then .error (Err.wrongSizeOfProbas (vprobSize args nbP) nbP)
    else .ok (SequenceEvolution.mixture vproc (some (args.probas.getD [])))
  else .ok (SequenceEvolution.mixture vproc none)

/-- Lines 1509-1515 and 1530-1532: the value of `probas` that is read, the given one or the
default one. -/
def readProbas {α : Type} (value : Option α) (nbP : Nat) : Probas α :=
  match value with
  | some v => Probas.given v
  | none => Probas.byDefault nbP

/-- Lines 1503-1523: the `HMM` branch. -/
def hmmEvolution (args : Args) (vproc : List Nat) : Except Err SequenceEvolution :=
  let nbP := getNumberOfSubstitutionProcess vproc
  .ok (SequenceEvolution.hmm vproc (readProbas args.probasMatrix nbP))

/-- Lines 1524-1542: the `AutoCorr` branch. -/
def autoCorrEvolution (args : Args) (vproc : List Nat) : Except Err SequenceEvolution :=
  let nbP := getNumberOfSubstitutionProcess vproc
  .ok (SequenceEvolution.autoCorrelation vproc (readProbas args.probas nbP))

/-- Lines 1416-1545: the body of the loop of `getSequenceEvolutions` for one description that
is not skipped. At line 1424 the third argument of `getIntParameter`, its default value, is
the character `','`, that is the integer 44. -/
def getSequenceEvolution (SPC : SubstitutionProcessCollection) (d : Description) :
    Except Err SequenceEvolution :=
  if d.name = "Simple" then
    let nproc := toSizeT (getIntParameter d.args.process 44)
    if !SPC.hasSubstitutionProcessNumber nproc then .error (Err.unknownProcess nproc)
    else .ok (SequenceEvolution.oneProcess nproc)
  else
    let vproc := processNumbers d.args
    if vproc.length = 0 then .error Err.processCompulsory
    else
      match firstUnknownProcess SPC vproc with
      | some p => .error (Err.unknownProcess p)
      | none =>
        if d.name = "Partition" then partitionEvolution d.args vproc
        else if d.name = "Mixture" then mixtureEvolution d.args vproc
        else if d.name = "HMM" then hmmEvolution d.args vproc
        else if d.name = "AutoCorr" then autoCorrEvolution d.args vproc
        else .error (Err.unknownDescription d.name)

/-- Lines 1406-1548: the loop over the numbers of the `process<N>` entries; `mEvol` is the
map built so far. An entry whose number is a process of the collection is skipped
(line 1408). -/
def getSequenceEvolutionsLoop (SPC : SubstitutionProcessCollection) :
    List (Nat × Description) → List (Nat × SequenceEvolution) →
      Except Err (List (Nat × SequenceEvolution))
  | [], mEvol => .ok mEvol
  | (num, d) :: rest, mEvol =>
    if SPC.hasSubstitutionProcessNumber num then getSequenceEvolutionsLoop SPC rest mEvol
    else
      match getSequenceEvolution SPC d with
      | .error e => .error e
      | .ok nEvol => getSequenceEvolutionsLoop SPC rest (mapSet num nEvol mEvol)

/-- Equality of results is decidable. -/
instance instDecidableEqExcept {ε α : Type} [DecidableEq ε] [DecidableEq α] :
    DecidableEq (Except ε α)
  | .ok a, .ok b =>
    if h : a = b then isTrue (by rw [h]) else isFalse (by intro h1; injection h1; contradiction)
  | .error a, .error b =>
    if h : a = b then isTrue (by rw [h]) else isFalse (by intro h1; injection h1; contradiction)
  | .ok _, .error _ => isFalse (by intro h; cases h)
  | .error _, .ok _ => isFalse (by intro h; cases h)

/-- Lines 1382-1551: `getSequenceEvolutions`, on the `process<N>` entries of `params` in
parsed form (number `N`, description). -/
def getSequenceEvolutions (SPC : SubstitutionProcessCollection)
    (params : List (Nat × Description)) : Except Err (List (Nat × SequenceEvolution)) :=
  getSequenceEvolutionsLoop SPC params []

/-- The positions listed for the processes of index `i`, ..., `i + n - 1`. -/
def positionsFrom (args : Args) (i n : Nat) : List Nat :=
  ((List.range' i n).map (procPos args)).flatten

/-- The positions listed for the first `m` processes of a `Partition` description, in the
order of the lists `process1.sites`, ..., `process<m>.sites`. -/
def listedPositions (args : Args) (m : Nat) : List Nat :=
  positionsFrom args 0 m

/-- The condition under which a partition is accepted: no position is listed twice and the
listed positions are `1..N`, where `N` is their number. -/
def PartitionCovers (args : Args) (n : Nat) : Prop :=
  (listedPositions args n).Nodup ∧
    ∀ p, p ∈ listedPositions args n ↔ 1 ≤ p ∧ p ≤ (listedPositions args n).length

/-! ## Examples -/

/-- The collection of the examples: tree 1 with two branches, rate distribution 1 with four
categories, models 1 and 2, root frequencies 1, and the processes 1, 2 and 44. -/
def exampleCollection : SubstitutionProcessCollection :=
  ⟨[(1, ⟨[0, 1]⟩)], [(1, DiscreteDistribution.declared 4)], [1, 2], [1],
    [(1, ⟨[(1, [0, 1])], 1, 1, none⟩), (2, ⟨[(2, [0, 1])], 1, 1, none⟩),
      (44, ⟨[(1, [0, 1])], 1, 1, none⟩)]⟩

/-- The description `Partition(process1=1, process1.sites=(1,2), process2=2,
process2.sites=(3))`. -/
def partitionAB : Description :=
  ⟨"Partition", { processN := [(1, 1), (2, 2)], sites := [(1, [1, 2]), (2, [3])] }⟩

/-- The description `Partition(process1=1, process1.sites=(1,2), process2=2,
process2.sites=(4))`. -/
def partitionGap : Description :=
  ⟨"Partition", { processN := [(1, 1), (2, 2)], sites := [(1, [1, 2]), (2, [4])] }⟩

/-- The description `Mixture(process1=1, process2=2, probas=(1/4,3/4))`. -/
def mixtureAB : Description :=
  ⟨"Mixture", { processN := [(1, 1), (2, 2)], probas := some [1 / 4, 3 / 4] }⟩

/-- The description `Mixture(process1=1, process2=2)`, without `probas`. -/
def mixtureNoProbas : Description :=
  ⟨"Mixture", { processN := [(1, 1), (2, 2)] }⟩

/-- The description `Simple()`, which names no process. -/
def simpleNoProcess : Description := ⟨"Simple", { }⟩

/-- The description `Homogeneous(tree=1, rate=1.2, model=7)`: model 7 is not registered in
`exampleCollection`. -/
def homogeneousUnknownModel : Description :=
  ⟨"Homogeneous", { tree := some 1, rate := some ⟨1, some 2⟩, model := some 7 }⟩

/-- The description `Homogeneous(tree=1, rate=1, model=2)`. -/
def homogeneousValid : Description :=
  ⟨"Homogeneous", { tree := some 1, rate := some ⟨1, none⟩, model := some 2 }⟩

/-- The description `Nonhomogeneous(tree=1, rate=1, model1=1, model1.nodes_id=(0), model2=9,
model2.nodes_id=(1))`: model 9 is not registered in `exampleCollection`. -/
def nonhomogeneousUnknownModel : Description :=
  ⟨"Nonhomogeneous",
    { tree := some 1, rate := some ⟨1, none⟩, modelN := [(1, 1), (2, 9)],
      nodes_id := [(1, [0]), (2, [1])] }⟩

/-- A collection in which the user declared the rate distributions 1 and 20000. -/
def collectionRate20000 : SubstitutionProcessCollection :=
  ⟨[(1, ⟨[0, 1]⟩)],
    [(1, DiscreteDistribution.declared 4), (20000, DiscreteDistribution.declared 1)],
    [1, 2], [1], []⟩

/-- The description `Homogeneous(tree=1, rate=1.0, model=2)`. -/
def homogeneousRate1Cat0 : Description :=
  ⟨"Homogeneous", { tree := some 1, rate := some ⟨1, some 0⟩, model := some 2 }⟩

/-- The description `Homogeneous(tree=1, rate=1.2, model=2)`. -/
def homogeneousRate1Cat2 : Description :=
  ⟨"Homogeneous", { tree := some 1, rate := some ⟨1, some 2⟩, model := some 2 }⟩

/-- A collection in which rate distribution 0 has 10001 categories and rate distribution 1
has one. -/
def collectionManyCategories : SubstitutionProcessCollection :=
  ⟨[(1, ⟨[0, 1]⟩)],
    [(0, DiscreteDistribution.declared 10001), (1, DiscreteDistribution.declared 1)],
    [1, 2], [1], []⟩

/-! ## Branch partitions and further examples of process descriptions -/

/-- The description `Nonhomogeneous(tree=1, rate=1, model1=1, model1.nodes_id=(0,1), model2=2,
model2.nodes_id=(1))`: the two blocks both claim branch 1. -/
def nonhomogeneousOverlap : Description :=
  ⟨"Nonhomogeneous",
    { tree := some 1, rate := some ⟨1, none⟩, modelN := [(1, 1), (2, 2)],
      nodes_id := [(1, [0, 1]), (2, [1])] }⟩

/-- The description `Nonhomogeneous(tree=1, rate=1, model1=1, model1.nodes_id=(0))`: branch 1
is claimed by no block. -/
def nonhomogeneousUncovered : Description :=
  ⟨"Nonhomogeneous",
    { tree := some 1, rate := some ⟨1, none⟩, modelN := [(1, 1)], nodes_id := [(1, [0])] }⟩

/-- The description `OnePerBranch(tree=1, rate=1, model=1)`, whose references all exist in
`exampleCollection`. -/
def onePerBranchValid : Description :=
  ⟨"OnePerBranch", { tree := some 1, rate := some ⟨1, none⟩, model := some 1 }⟩

/-- The branch lists of a model assignment contain every branch id of the tree exactly
once. -/
def PartitionsBranches (mModBr : List (Nat × List Int)) (tree : ParametrizableTree) : Prop :=
  ((mModBr.map Prod.snd).flatten).Nodup ∧
    (∀ b ∈ (mModBr.map Prod.snd).flatten, b ∈ tree.branchIds) ∧
    (∀ b ∈ tree.branchIds, b ∈ (mModBr.map Prod.snd).flatten)

/-- The condition can be computed. -/
instance instDecidablePartitionsBranches (mModBr : List (Nat × List Int))
    (tree : ParametrizableTree) : Decidable (PartitionsBranches mModBr tree) := by
  unfold PartitionsBranches
  infer_instance

/-! ## The numbered loaders (`getTrees`, `getRateDistributions`, `getSubstitutionModels`) -/

/-- The exceptions thrown by the numbered loaders. -/
inductive LoadErr where
  /-- Line 246, `Exception`: unknown format for tree reading. -/
  | unknownFormat
  /-- Line 276, `Exception`: several trees for the description of one numbered entry. -/
  | severalTrees
  /-- Line 302, `Exception`: wrong number of data. -/
  | wrongNumberOfData
  /-- Lines 344, 380, 401 and 413, `Exception`: the branch lengths cannot be set. -/
  | branchLengths
  /-- Line 522, `Exception`: a genetic code is required for codon models. -/
  | geneticCodeRequired
deriving DecidableEq, Repr

/-- Lines 209-214 and 476-481: the number of an entry. `suffixNumber` is `some z` when the
suffix of the key is a decimal integer, `z` being `TextTools::toInt(suff)`; otherwise the
number is `defaultNumber` (1 for trees, 0 for rate distributions). -/
def entryNumber (suffixNumber : Option Int) (defaultNumber : Nat) : Nat :=
  match suffixNumber with
  | some z => toSizeT z
  | none => defaultNumber

/-- The description of one `tree*` entry, as far as lines 224-314 read it. The trees are
kept as objects of a type `T`. -/
inductive TreeSource (T : Type) where
  /-- The name `user`: whether the format is one of Newick, Nexus and NHX, and the trees the
  reader finds in the file. -/
  | user (formatKnown : Bool) (trees : List T)
  /-- The name `random`: whether the data number is a key of `mSeq`, and the tree drawn. -/
  | random (dataKnown : Bool) (tree : T)
  /-- Any other name: no tree is read. -/
  | other
deriving DecidableEq, Repr

/-- One `tree*` entry of `params`: the number in its key, its description, and whether
setting the branch lengths (lines 317-435) throws. -/
structure TreeEntry (T : Type) where
  suffixNumber : Option Int
  source : TreeSource T
  branchLengthsThrow : Bool
deriving DecidableEq, Repr

/-- Lines 262-271: the trees of a file are stored under `i2 + 1`, a tree already stored under
that number being replaced (line 266 warns "already assigned, replaced by new one"). -/
def assignFileTrees {T : Type} : List T → Nat → List (Nat × T) → List (Nat × T)
  | [], _, mTree => mTree
  | t :: rest, i2, mTree => assignFileTrees rest (i2 + 1) (mapSet (i2 + 1) t mTree)

/-- Lines 199-436: the body of the loop of `getTrees` for one entry. -/
def getTreesEntry {T : Type} (mTree : List (Nat × T)) (e : TreeEntry T) :
    Except LoadErr (List (Nat × T)) :=
  let flag := e.suffixNumber.isNone
  let num := entryNumber e.suffixNumber 1
  let assigned : Except LoadErr (List (Nat × T)) :=
    match e.source with
    | .user formatKnown trees =>
      if !formatKnown then .error LoadErr.unknownFormat
      else if flag then .ok (assignFileTrees trees 0 mTree)
      else if trees.length > 1 then .error LoadErr.severalTrees
      else
        match trees with
        | [t] => .ok (mapSet num t mTree)
        | _ => .ok mTree
    | .random dataKnown tree =>
      if !dataKnown then .error LoadErr.wrongNumberOfData
      else .ok (mapSet num tree mTree)
    | .other => .ok mTree
  match assigned with
  | .error err => .error err
  | .ok mTree1 => if e.branchLengthsThrow then .error LoadErr.branchLengths else .ok mTree1

/-- Lines 199-439: the loop of `getTrees` over the `tree*` entries; `mTree` is the map built
so far. -/
def getTreesLoop {T : Type} : List (TreeEntry T) → List (Nat × T) →
    Except LoadErr (List (Nat × T))
  | [], mTree => .ok mTree
  | e :: rest, mTree =>
    match getTreesEntry mTree e with
    | .error err => .error err
    | .ok mTree1 => getTreesLoop rest mTree1

/-- Lines 185-440: `getTrees`. -/
def getTrees {T : Type} (entries : List (TreeEntry T)) : Except LoadErr (List (Nat × T)) :=
  getTreesLoop entries []

/-- One `rate_distribution*` entry: the number in its key and the distribution read from its
description. -/
structure RateEntry (D : Type) where
  suffixNumber : Option Int
  dist : D
deriving DecidableEq, Repr

/-- Lines 468-494: the loop of `getRateDistributions`; line 493 is `mDist[num]=rDist.release()`. -/
def getRateDistributionsLoop {D : Type} : List (RateEntry D) → List (Nat × D) → List (Nat × D)
  | [], mDist => mDist
  | e :: rest, mDist =>
    getRateDistributionsLoop rest (mapSet (entryNumber e.suffixNumber 0) e.dist mDist)

/-- Lines 447-503: `getRateDistributions`; `defaultDist` is the distribution read from the key
`rate_distribution` (default text `Constant()`), used when no entry was found. -/
def getRateDistributions {D : Type} (entries : List (RateEntry D)) (defaultDist : D) :
    List (Nat × D) :=
  let mDist := getRateDistributionsLoop entries []
  if mDist.length = 0 then mapSet 0 defaultDist mDist else mDist

/-- Lines 548-576: the loop of `getSubstitutionModels` over `modelsNum`; `read n` is the model
read from the description of the key `model<n>`, and line 575 is
`mModel[modelsNum[i]]=model.release()`. -/
def getSubstitutionModelsLoop {M : Type} (read : Nat → M) :
    List Nat → List (Nat × M) → List (Nat × M)
  | [], mModel => mModel
  | n :: rest, mModel => getSubstitutionModelsLoop read rest (mapSet n (read n) mModel)

/-- Lines 510-579: `getSubstitutionModels`; `codonWithoutCode` is the test of line 521 and
`modelsNum` the numbers found in the `model*` keys (lines 535-541). -/
def getSubstitutionModels {M : Type} (codonWithoutCode : Bool) (modelsNum : List Nat)
    (read : Nat → M) : Except LoadErr (List (Nat × M)) :=
  if codonWithoutCode then .error LoadErr.geneticCodeRequired
  else .ok (getSubstitutionModelsLoop read modelsNum [])

/-! ## Alias directives (lines 1013-1027, 1358-1372 and 1871-1880) -/

/-- Whether the text `s` begins with `pat`. -/
def startsWith : List Char → List Char → Bool
  | [], _ => true
  | _ :: _, [] => false
  | p :: ps, c :: cs => decide (p = c) && startsWith ps cs

/-- The call `s.find(pat)` of `std::string`: the position of the first occurrence of `pat` in
`s`; `none` stands for `string::npos`. -/
def strFind (pat : List Char) : List Char → Option Nat
  | [] => if pat = [] then some 0 else none
  | c :: cs => if startsWith pat (c :: cs) then some 0 else (strFind pat cs).map (· + 1)

/-- The call `m.find(k)` on a `std::map<string, string>`; `none` stands for `m.end()`. -/
def smapFind (k : String) : List (String × String) → Option String
  | [] => none
  | (k1, v) :: rest => if k = k1 then some v else smapFind k rest

/-- The assignment `m[k] = v` on a `std::map<string, string>`. The entries are kept in the
order in which their keys were first assigned; the functions modelled here only look keys
up. -/
def smapSet (k v : String) : List (String × String) → List (String × String)
  | [] => [(k, v)]
  | (k1, v1) :: rest => if k = k1 then (k, v) :: rest else (k1, v1) :: smapSet k v rest

/-- The exception of the alias loops. -/
inductive AliasErr where
  /-- Lines 1021, 1366 and 1878, `Exception`: bad alias syntax, should contain the `->`
  symbol. -/
  | badAliasSyntax (aliasText : String)
deriving DecidableEq, Repr

/-- Lines 1019-1023: `index = alias.find("->")`, `p1 = alias.substr(0, index)` and
`p2 = alias.substr(index + 2)`, for the token `alias` of the source; `none` when `index` is
`string::npos`. -/
def splitAlias (aliasText : String) : Option (String × String) :=
  match strFind ['-', '>'] aliasText.data with
  | none => none
  | some index =>
    some (String.mk (aliasText.data.take index), String.mk (aliasText.data.drop (index + 2)))

/-- Lines 1016-1025 (the same loop at 1361-1370 and 1873-1880): the tokens that
`StringTokenizer(aliasDesc, ",")` delivers are read in turn into `unparsedParams`. -/
def readAliases : List String → List (String × String) →
    Except AliasErr (List (String × String))
  | [], unparsedParams => .ok unparsedParams
  | aliasText :: rest, unparsedParams =>
    match splitAlias aliasText with
    | none => .error (AliasErr.badAliasSyntax aliasText)
    | some (p1, p2) => readAliases rest (smapSet p1 p2 unparsedParams)

/-! ## Mixed substitution model sets (completeMixedSubstitutionModelSet, lines 1889-1973) -/

/-- The call `s.substr(pos, len)` of `std::string`; `none` stands for the `std::out_of_range`
that is thrown when `pos` is beyond the size of `s`. -/
def substr (s : List Char) (pos len : Nat) : Option (List Char) :=
  if s.length < pos then none else some ((s.drop pos).take len)

/-- The difference `a - b` of two `size_t` values. -/
def subSizeT (a b : Nat) : Nat := (a + 2 ^ 64 - b % 2 ^ 64) % 2 ^ 64

/-- Modelled from the spec: the class `MixedSubstitutionModelSet::HyperNode` is not in src. A
hypernode holds, for every model of the set, the submodel indices chosen for it, and a
probability. -/
structure HyperNode where
  vNumbers : List (List Int)
  proba : ℚ
deriving DecidableEq, Repr

/-- Modelled from the spec: the class `MixedSubstitutionModelSet` is not in src. For every
model of the set `models` holds `none` when the model is not a `MixedSubstitutionModel` (the
`dynamic_cast` of line 1943 yields `NULL`) and otherwise the stationary weights of its
submodels. -/
structure MixedSubstitutionModelSet where
  models : List (Option (List ℚ))
  hyperNodes : List HyperNode
deriving DecidableEq, Repr

/-- The exceptions of `completeMixedSubstitutionModelSet`. -/
inductive MixedErr where
  /-- Line 1939, `Exception`: bad path syntax, should contain the bracket symbols. -/
  | badPathSyntax (submodel : String)
  /-- Line 1945, `BadIntegerException` carrying `num - 1`: wrong model for number. -/
  | wrongModel (number : Int)
  /-- Line 1952, `Exception`: a path should own at least a submodel of each mixed model. -/
  | incompletePath (desc : String)
  /-- Line 1960, `Exception`: all paths must be disjoint. -/
  | pathsNotDisjoint
  /-- Line 1972, `Exception`: the remaining submodels can not create a complete path. -/
  | remainingIncomplete
  /-- The `std::out_of_range` of `submodel.substr(5, indexo - 5)` at line 1940. -/
  | outOfRange
  /-- Modelled from the spec: `getModel` is not in src; the index names no model of the set. -/
  | modelIndexOutOfBounds (index : Nat)
  /-- Modelled from the spec: `getSubmodelNumbers` is not in src; the model does not resolve
  the selector. -/
  | unresolvedSelector (p2 : String)
deriving DecidableEq, Repr

/-- Modelled from the spec: `addEmptyHyperNode` is not in src. A hypernode with no submodel
index for any model is appended. -/
def addEmptyHyperNode (set : MixedSubstitutionModelSet) : MixedSubstitutionModelSet :=
  { set with hyperNodes := set.hyperNodes ++ [⟨set.models.map (fun _ => []), 1⟩] }

/-- Modelled from the spec: `HyperNode::addToModel` is not in src. The submodel indices
`vnS` are added to the indices held for model `nM`. -/
def HyperNode.addToModel (node : HyperNode) (nM : Nat) (vnS : List Int) : HyperNode :=
  { node with vNumbers := node.vNumbers.modify (fun held => (held ++ vnS).dedup) nM }

/-- Modelled from the spec: `addToHyperNode` is not in src. The submodel indices `vnS` are
added, for model `nM`, to the last hypernode of the set. -/
def addToHyperNode (set : MixedSubstitutionModelSet) (nM : Nat) (vnS : List Int) :
    MixedSubstitutionModelSet :=
  { set with
      hyperNodes := set.hyperNodes.modify (fun node => node.addToModel nM vnS)
        (set.hyperNodes.length - 1) }

/-- Modelled from the spec: `HyperNode::isComplete` is not in src. A hypernode is complete
when it holds at least one submodel index for every mixed model of the set. -/
def isComplete (models : List (Option (List ℚ))) (node : HyperNode) : Bool :=
  (List.range models.length).all
    (fun k => (models.getD k none).isNone || !(node.vNumbers.getD k []).isEmpty)

/-- The test `getHyperNode(getNumberOfHyperNodes() - 1).isComplete()` of lines 1951 and
1971. -/
def lastIsComplete (set : MixedSubstitutionModelSet) : Bool :=
  match set.hyperNodes.getLast? with
  | none => false
  | some node => isComplete set.models node

/-- Modelled from the spec: part of `hasExclusivePaths`, which is not in src. Whether two
hypernodes share a submodel index of some model. -/
def HyperNode.intersects (a b : HyperNode) : Bool :=
  (List.zip a.vNumbers b.vNumbers).any (fun p => p.1.any (fun i => decide (i ∈ p.2)))

/-- Modelled from the spec: `hasExclusivePaths` is not in src. No submodel index of any
mixed model appears in two different hypernodes. -/
def hasExclusivePaths (set : MixedSubstitutionModelSet) : Bool :=
  (List.range set.hyperNodes.length).all (fun i =>
    (List.range i).all (fun j =>
      match set.hyperNodes[i]?, set.hyperNodes[j]? with
      | some a, some b => !a.intersects b
      | _, _ => true))

/-- Modelled from the spec: part of `complete`, which is not in src. The submodel indices of
model `k` that no hypernode of the set holds. -/
def residual (set : MixedSubstitutionModelSet) (k : Nat) : List Int :=
  match set.models.getD k none with
  | none => []
  | some weights =>
    ((List.range weights.length).map (fun i => (i : Int))).filter
      (fun i => set.hyperNodes.all (fun node => !decide (i ∈ node.vNumbers.getD k [])))

/-- Modelled from the spec: `complete` is not in src. The submodel indices not yet claimed by
any hypernode are put in one further hypernode; the answer tells whether that hypernode is
complete. -/
def complete (set : MixedSubstitutionModelSet) : MixedSubstitutionModelSet × Bool :=
  let node : HyperNode := ⟨(List.range set.models.length).map (residual set), 1⟩
  ({ set with hyperNodes := set.hyperNodes ++ [node] }, isComplete set.models node)

/-- Modelled from the spec: part of `computeHyperNodesProbabilities`, which is not in src.
The product of the stationary weights of the submodels that a hypernode holds. -/
def chosenWeight (models : List (Option (List ℚ))) (node : HyperNode) : ℚ :=
  ((List.zip models node.vNumbers).map (fun p =>
    match p.1 with
    | none => 1
    | some weights => (p.2.map (fun i => weights.getD i.toNat 0)).prod)).prod

/-- Modelled from the spec: `computeHyperNodesProbabilities` is not in src. The probability
of each hypernode is the product of the stationary weights of its chosen submodels, and the
probabilities are then renormalised to sum to 1. -/
def computeHyperNodesProbabilities (set : MixedSubstitutionModelSet) :
    MixedSubstitutionModelSet :=
  let total := (set.hyperNodes.map (chosenWeight set.models)).sum
  { set with
      hyperNodes := set.hyperNodes.map
        (fun node => { node with proba := chosenWeight set.models node / total }) }

/-- Lines 1911-1920: the descriptions `site.path<numd>`, `site.path<numd - 1>`, ... are
gathered while they are not empty. `sitePath k` is the text that `getStringParameter` gives
for `site.path<k>`, empty when the key is absent. -/
def vdesc (sitePath : Nat → String) : Nat → List String
  | 0 => []
  | numd + 1 =>
    if (sitePath (numd + 1)).data.length = 0 then []
    else sitePath (numd + 1) :: vdesc sitePath numd

/-- Lines 1936-1948, the body of the loop over the elements of one path. `toInt` stands for
`TextTools::toInt` and `getSubmodelNumbers nM p2` for the call `getSubmodelNumbers(p2)` on
model `nM`, `none` when it throws; neither is in src. -/
def addPathElement (toInt : String → Int)
    (getSubmodelNumbers : Nat → String → Option (List Int))
    (set : MixedSubstitutionModelSet) (submodel : String) :
    MixedSubstitutionModelSet × Option MixedErr :=
  match strFind ['['] submodel.data, strFind [']'] submodel.data with
  | some indexo, some indexf =>
    match substr submodel.data 5 (subSizeT indexo 5) with
    | none => (set, some MixedErr.outOfRange)
    | some numText =>
      let num := toInt (String.mk numText)
      match substr submodel.data (indexo + 1) (subSizeT (subSizeT indexf indexo) 1) with
      | none => (set, some MixedErr.outOfRange)
      | some p2 =>
        match set.models[toSizeT (num - 1)]? with
        | none => (set, some (MixedErr.modelIndexOutOfBounds (toSizeT (num - 1))))
        | some none => (set, some (MixedErr.wrongModel (num - 1)))
        | some (some _) =>
          match getSubmodelNumbers (toSizeT (num - 1)) (String.mk p2) with
          | none => (set, some (MixedErr.unresolvedSelector (String.mk p2)))
          | some submodnb => (addToHyperNode set (toSizeT (num - 1)) submodnb, none)
  | _, _ => (set, some (MixedErr.badPathSyntax submodel))

/-- The element `submodel` names a mixed model of the set: the number read at lines
1936-1940 is, less one, the index of a model that is a `MixedSubstitutionModel`. -/
def NamesMixedModel (toInt : String → Int) (models : List (Option (List ℚ)))
    (submodel : String) : Prop :=
  ∃ indexo numText weights, strFind ['['] submodel.data = some indexo ∧
    substr submodel.data 5 (subSizeT indexo 5) = some numText ∧
    models[toSizeT (toInt (String.mk numText) - 1)]? = some (some weights)

/-- Lines 1934-1949: the loop over the elements of one path. -/
def addPathElements (toInt : String → Int)
    (getSubmodelNumbers : Nat → String → Option (List Int)) :
    List String → MixedSubstitutionModelSet → MixedSubstitutionModelSet × Option MixedErr
  | [], set => (set, none)
  | submodel :: rest, set =>
    match addPathElement toInt getSubmodelNumbers set submodel with
    | (set1, some e) => (set1, some e)
    | (set1, none) => addPathElements toInt getSubmodelNumbers rest set1

/-- Lines 1930-1956: the loop over the path descriptions. `st desc` is the list of tokens
that `StringTokenizer(desc, "&")` delivers. -/
def addPaths (toInt : String → Int) (getSubmodelNumbers : Nat → String → Option (List Int))
    (st : String → List String) :
    List String → MixedSubstitutionModelSet → MixedSubstitutionModelSet × Option MixedErr
  | [], set => (set, none)
  | desc :: rest, set =>
    match addPathElements toInt getSubmodelNumbers (st desc) (addEmptyHyperNode set) with
    | (set1, some e) => (set1, some e)
    | (set1, none) =>
      if lastIsComplete set1 then addPaths toInt getSubmodelNumbers st rest set1
      else (set1, some (MixedErr.incompletePath desc))

/-- Lines 1889-1973. `numberOfPaths` is the value of `site.number_of_paths`, `none` when
the key does not exist. The result is the state of `mixedModelSet` when the call ends and the
exception thrown, if any. -/
def completeMixedSubstitutionModelSet (toInt : String → Int)
    (getSubmodelNumbers : Nat → String → Option (List Int)) (st : String → List String)
    (numberOfPaths : Option Nat) (sitePath : Nat → String)
    (mixedModelSet : MixedSubstitutionModelSet) :
    MixedSubstitutionModelSet × Option MixedErr :=
  let numd := numberOfPaths.getD 0
  let descs := vdesc sitePath numd
  if descs.length = 0 then
    (computeHyperNodesProbabilities (complete mixedModelSet).1, none)
  else
    match addPaths toInt getSubmodelNumbers st descs mixedModelSet with
    | (set1, some e) => (set1, some e)
    | (set1, none) =>
      if !hasExclusivePaths set1 then (set1, some MixedErr.pathsNotDisjoint)
      else
        let set2 := computeHyperNodesProbabilities (complete set1).1
        if !lastIsComplete set2 then (set2, some MixedErr.remainingIncomplete)
        else (set2, none)

/-! ## Examples of mixed model sets -/

/-- Two mixed models, of three and of two submodels. -/
def twoMixedModels : MixedSubstitutionModelSet :=
  ⟨[some [1/2, 1/4, 1/4], some [1/3, 2/3]], []⟩

/-- A mixed model of two submodels and a model that is not mixed. -/
def mixedAndPlain : MixedSubstitutionModelSet :=
  ⟨[some [1/2, 1/2], none], []⟩

/-- Reads a text of digits as a number, as `TextTools::toInt` does for such a text. -/
def digitsToInt (s : String) : Int :=
  s.data.foldl (fun acc c => 10 * acc + ((c.toNat : Int) - 48)) 0

/-- The tokens of a text between the characters `&`, empty tokens left out; `cur` holds the
characters of the token being read, last one first. -/
def splitAmpersandFrom : List Char → List Char → List String
  | cur, [] => if cur = [] then [] else [String.mk cur.reverse]
  | cur, c :: cs =>
    if c = '&' then
      if cur = [] then splitAmpersandFrom [] cs
      else String.mk cur.reverse :: splitAmpersandFrom [] cs
    else splitAmpersandFrom (c :: cur) cs

/-- Splits a text at the character `&`, leaving out empty tokens. -/
def splitAmpersand (s : String) : List String := splitAmpersandFrom [] s.data

/-- A resolver of selectors for the examples: `a` chooses submodel 0, `b` submodel 1 and
`ab` both; nothing else is resolved. -/
def exampleSubmodelNumbers (_ : Nat) (p2 : String) : Option (List Int) :=
  if p2 = "a" then some [0] else if p2 = "b" then some [1]
  else if p2 = "ab" then some [0, 1] else none

/-- The path descriptions of the examples: `site.path2` names the plain model, the other
two name the mixed one. -/
def examplePaths (k : Nat) : String :=
  if k = 3 then "model1[a]" else if k = 2 then "model2[a]" else if k = 1 then "model1[b]"
  else ""

/-! ## Parameter lists (the optimization session, lines 2061-3093) -/

/-- Modelled from the spec: the class `Parameter` is not in src. A named parameter holds a
value and an optional interval constraint. -/
structure Parameter (I V : Type) where
  name : String
  value : V
  constraint : Option I
deriving DecidableEq, Repr

/-- Modelled from the spec: the class `ParameterList` is not in src. -/
abbrev ParameterList (I V : Type) := List (Parameter I V)
/-- Modelled from the spec: `ParameterList::getParameterNames` is not in src. The names of
the parameters, in the order of the list. -/
def getParameterNames {I V : Type} (pl : ParameterList I V) : List String :=
  pl.map (fun p => p.name)

/-- Modelled from the spec: `ParameterList::getParameter` is not in src. The parameter of
that name; `none` stands for `ParameterNotFoundException`. -/
def getParameter {I V : Type} (name : String) (pl : ParameterList I V) :
    Option (Parameter I V) :=
  pl.find? (fun p => decide (p.name = name))

/-- Modelled from the spec: `ParameterList::deleteParameter` is not in src. The parameter of
that name is taken out of the list; `none` stands for `ParameterNotFoundException`. -/
def deleteParameter {I V : Type} (name : String) :
    ParameterList I V → Option (ParameterList I V)
  | [] => none
  | p :: rest =>
    if p.name = name then some rest
    else match deleteParameter name rest with
      | none => none
      | some rest1 => some (p :: rest1)

/-- Modelled from the spec: `ParameterList::deleteParameters` is not in src. The names are
deleted in turn; the first name that is not in the list throws
`ParameterNotFoundException`, the names before it being deleted. The result is the list as
the call leaves it and the name that was not found, if any. -/
def deleteParameters {I V : Type} :
    List String → ParameterList I V → ParameterList I V × Option String
  | [], pl => (pl, none)
  | name :: rest, pl =>
    match deleteParameter name pl with
    | none => (pl, some name)
    | some pl1 => deleteParameters rest pl1

/-- Modelled from the spec: `getParameter` returns a reference into the list, which is not
in src. The parameter named as `par` is replaced by `par` in the list. -/
def putParameter {I V : Type} (par : Parameter I V) (pl : ParameterList I V) :
    ParameterList I V :=
  pl.map (fun p => if p.name = par.name then par else p)

/-- Modelled from the spec: the classes `Constraint` and `IntervalConstraint` are not in
src. `read` is the constructor from a text, `none` when the text is no interval; `inter` is
the operator `&`; `isEmpty` and `isCorrect` are the methods of these names. -/
structure ConstraintOps (I V : Type) where
  read : String → Option I
  inter : I → I → I
  isEmpty : I → Bool
  isCorrect : I → V → Bool

/-- Modelled from the spec: `Parameter::setConstraint` is not in src. The constraint is
attached when the value of the parameter fits it; `none` stands for the
`ConstraintException` that the handler of lines 2266-2269 catches. -/
def setConstraint {I V : Type} (ops : ConstraintOps I V) (par : Parameter I V) (c : I) :
    Option (Parameter I V) :=
  if ops.isCorrect c par.value then some { par with constraint := some c } else none

/-- Whether the text `s` matches the pattern, in which `*` stands for any text. -/
def globMatch : List Char → List Char → Bool
  | [], s => s.isEmpty
  | p :: ps, s =>
    if p = '*' then s.tails.any (globMatch ps)
    else match s with
      | [] => false
      | c :: cs => decide (p = c) && globMatch ps cs

/-- Modelled from the spec: `ApplicationTools::matchingParameters` is not in src. The names
of the list that match the pattern, in the order of the list. -/
def matchingParameters (pattern : String) (names : List String) : List String :=
  names.filter (fun name => globMatch pattern.data name.data)

/-- Modelled from the spec: `VectorTools::diff` is not in src. The elements of `v1` that are
not in `v2`. -/
def diff (v1 v2 : List String) : List String :=
  v1.filter (fun x => decide (x ∉ v2))

/-- The parameter names that the directives look up from the live likelihood:
`getBranchLengthsParameters`, `getRootFrequenciesParameters` and
`getSubstitutionModelParameters`; `nonHomogeneous` tells whether the `dynamic_cast` to
`NonHomogeneousTreeLikelihood` succeeds. -/
structure LikelihoodNames where
  branchLengths : List String
  nonHomogeneous : Bool
  rootFrequencies : List String
  substitutionModel : List String
deriving DecidableEq, Repr

/-- The three functions `optimizeParameters`: for a `TreeLikelihood` (line 2061), for a
`PhyloLikelihood` (line 2479) and for a `DiscreteRatesAcrossSitesClockTreeLikelihood`
(line 2874). -/
inductive Variant where
  | treeLikelihood
  | phyloLikelihood
  | clockTreeLikelihood
deriving DecidableEq, Repr

/-- The loop of lines 2173-2178 (2581-2586): `deleteParameter` on each name in turn, up to
the first name that is not in the list. -/
def deleteEach {I V : Type} :
    List String → ParameterList I V → ParameterList I V × Option String
  | [], pl => (pl, none)
  | name :: rest, pl =>
    match deleteParameter name pl with
    | none => (pl, some name)
    | some pl1 => deleteEach rest pl1

/-- The body of the `try` block of the ignore loop (lines 2130-2186, 2553-2594 and
2920-2949) for one token `param`. `parNames` holds the names of the list handed to
`optimizeParameters`. The result is `parametersToEstimate` as the block leaves it and the
name carried by the `ParameterNotFoundException` thrown, if any. -/
def ignoreDirective {I V : Type} (variant : Variant) (lik : LikelihoodNames)
    (parNames : List String) (param : String) (parametersToEstimate : ParameterList I V) :
    ParameterList I V × Option String :=
  if param = "BrLen" then deleteParameters lik.branchLengths parametersToEstimate
  else if param = "Ancient" then
    match variant with
    | Variant.phyloLikelihood => deleteParameters lik.rootFrequencies parametersToEstimate
    | _ =>
      if lik.nonHomogeneous then deleteParameters lik.rootFrequencies parametersToEstimate
      else (parametersToEstimate, none)
  else
    match variant with
    | Variant.clockTreeLikelihood =>
      match deleteParameter param parametersToEstimate with
      | none => (parametersToEstimate, some param)
      | some pl1 => (pl1, none)
    | _ =>
      if param = "Model" then
        match variant with
        | Variant.treeLikelihood =>
          if lik.nonHomogeneous then
            deleteParameters (diff lik.substitutionModel lik.rootFrequencies)
              parametersToEstimate
          else deleteParameters lik.substitutionModel parametersToEstimate
        | _ => deleteParameters lik.substitutionModel parametersToEstimate
      else if (strFind ['*'] param.data).isSome then
        deleteEach (matchingParameters param parNames) parametersToEstimate
      else
        match deleteParameter param parametersToEstimate with
        | none => (parametersToEstimate, some param)
        | some pl1 => (pl1, none)

/-- The ignore loop: each token is handled in turn, a `ParameterNotFoundException` being
caught with a message (lines 2187-2190, 2595-2598 and 2950-2953) that is kept in the second
component of the result. -/
def ignoreLoop {I V : Type} (variant : Variant) (lik : LikelihoodNames)
    (parNames : List String) :
    List String → ParameterList I V → ParameterList I V × List String
  | [], parametersToEstimate => (parametersToEstimate, [])
  | param :: rest, parametersToEstimate =>
    match ignoreDirective variant lik parNames param parametersToEstimate with
    | (pl1, none) => ignoreLoop variant lik parNames rest pl1
    | (pl1, some notFound) =>
      ((ignoreLoop variant lik parNames rest pl1).1,
        notFound :: (ignoreLoop variant lik parNames rest pl1).2)

/-- The exceptions that leave `optimizeParameters`, and the call of `exit`. -/
inductive OptErr where
  /-- Lines 2211 and 2619, `Exception`: bad constrain syntax, should contain the `=`
  symbol. -/
  | badConstrainSyntax (pc : String)
  /-- Modelled from the spec: the constructor `IntervalConstraint(constraint)` of lines 2214
  and 2622 is not in src; the text is no interval. -/
  | badInterval (constraint : String)
  /-- Lines 2253 and 2646, `Exception`: empty interval for parameter `parNames[i]`; `none`
  when `i` is no index of `parNames`. -/
  | emptyInterval (name : Option String)
  /-- Lines 2268 and 2661, `Exception`: the parameter does not fit the constraint. -/
  | doesNotFit (param constraint : String)
  /-- Lines 2548 and 2915, `Exception`: `optimization.ignore_parameter` is deprecated. -/
  | deprecatedIgnoreKey
  /-- Line 2605, `Exception`: `optimization.constrain_parameter` is deprecated. -/
  | deprecatedConstrainKey
  /-- Line 2520: `exit(-1)` after the message that `optimization.scale_first` is not
  implemented for processes. -/
  | scaleFirstExit
  /-- Line 2318 (2707), `Exception`: incorrect likelihood value after restoring. -/
  | restoreFailed (message : String)
  /-- Line 2342, `Exception`: unknown NNI algorithm. -/
  | unknownNNI (nniMethod : String)
  /-- Lines 2360 and 2752, `Exception`: unknown derivatives algorithm. -/
  | unknownDerivatives (order : String)
  /-- Lines 2374 and 2766, `Exception`: molecular clock option not recognized. -/
  | clockNotRecognized (clock : String)
  /-- Lines 2377 and 2769, `Exception`: cannot optimize topology with a molecular clock. -/
  | topologyWithClock
  /-- Line 2715, `Exception`: topology optimization not implemented yet for processes. -/
  | topologyNotImplemented
  /-- Lines 2434 and 2829, `Exception`: unknown optimization method. -/
  | unknownMethod (optName : String)
  /-- Lines 2449 and 2844, `Exception`: unknown final optimization method. -/
  | unknownFinal (finalMethod : String)
  /-- An exception thrown by one of the optimizers, none of which is in src. -/
  | optimizer (message : String)
deriving DecidableEq, Repr

/-- What ends the body of the `try` block of the constrain loop before its end. -/
inductive Thrown where
  /-- The `ParameterNotFoundException` of `getParameter`, with the name looked for. -/
  | parameterNotFound (name : String)
  /-- The `ConstraintException` of `setConstraint`. -/
  | constraintException
  /-- An `Exception` that no handler of the loop catches. -/
  | exception (e : OptErr)
deriving DecidableEq, Repr

/-- Lines 2247-2260 (2640-2653): the loop over `parNames2`, from index `i` on. `parNames`
holds the names of the list handed to `optimizeParameters`. -/
def constrainEach {I V : Type} (ops : ConstraintOps I V) (parNames : List String) (ic : I) :
    List String → Nat → ParameterList I V → ParameterList I V × Option Thrown
  | [], _, parametersToEstimate => (parametersToEstimate, none)
  | name :: rest, i, parametersToEstimate =>
    match getParameter name parametersToEstimate with
    | none => (parametersToEstimate, some (Thrown.parameterNotFound name))
    | some par =>
      match par.constraint with
      | some c =>
        match setConstraint ops par (ops.inter ic c) with
        | none => (parametersToEstimate, some Thrown.constraintException)
        | some par1 =>
          if ops.isEmpty (ops.inter ic c) then
            (putParameter par1 parametersToEstimate,
              some (Thrown.exception (OptErr.emptyInterval parNames[i]?)))
          else constrainEach ops parNames ic rest (i + 1) (putParameter par1 parametersToEstimate)
      | none =>
        match setConstraint ops par ic with
        | none => (parametersToEstimate, some Thrown.constraintException)
        | some par1 =>
          constrainEach ops parNames ic rest (i + 1) (putParameter par1 parametersToEstimate)

/-- Lines 2216-2244 (2624-2637): the names `parNames2` that the directive on `param`
stands for. `parToEstNames` holds the names of `parametersToEstimate` as the ignore loop left
it. -/
def parNames2 (variant : Variant) (lik : LikelihoodNames) (parToEstNames : List String)
    (param : String) : List String :=
  if param = "BrLen" then lik.branchLengths
  else if param = "Ancient" then
    match variant with
    | Variant.phyloLikelihood => lik.rootFrequencies
    | _ => if lik.nonHomogeneous then lik.rootFrequencies else []
  else if param = "Model" then
    match variant with
    | Variant.phyloLikelihood => []
    | _ =>
      if lik.nonHomogeneous then diff lik.substitutionModel lik.rootFrequencies
      else lik.substitutionModel
  else if (strFind ['*'] param.data).isSome then matchingParameters param parToEstNames
  else [param]

/-- The body of the `try` block of the constrain loop (lines 2206-2261 and 2614-2654) for
one token `pc`. -/
def constrainDirective {I V : Type} (ops : ConstraintOps I V) (variant : Variant)
    (lik : LikelihoodNames) (parNames parToEstNames : List String) (pc : String)
    (parametersToEstimate : ParameterList I V) : ParameterList I V × Option Thrown :=
  match strFind ['='] pc.data with
  | none => (parametersToEstimate, some (Thrown.exception (OptErr.badConstrainSyntax pc)))
  | some index =>
    let param := String.mk (pc.data.take index)
    let constraint := String.mk (pc.data.drop (index + 1))
    match ops.read constraint with
    | none => (parametersToEstimate, some (Thrown.exception (OptErr.badInterval constraint)))
    | some ic =>
      constrainEach ops parNames ic (parNames2 variant lik parToEstNames param) 0
        parametersToEstimate

/-- The `param` and `constraint` that the handler of lines 2266-2269 reads. -/
def directiveParam (pc : String) : String × String :=
  match strFind ['='] pc.data with
  | none => ("", "")
  | some index => (String.mk (pc.data.take index), String.mk (pc.data.drop (index + 1)))

/-- The constrain loop (lines 2203-2270 and 2609-2663): each token is handled in turn. A
`ParameterNotFoundException` is caught with a message, kept in the second component of the
result; a `ConstraintException` is thrown again as an `Exception`, which ends the loop as
any other `Exception` does. -/
def constrainLoop {I V : Type} (ops : ConstraintOps I V) (variant : Variant)
    (lik : LikelihoodNames) (parNames parToEstNames : List String) :
    List String → ParameterList I V → ParameterList I V × List String × Option OptErr
  | [], parametersToEstimate => (parametersToEstimate, [], none)
  | pc :: rest, parametersToEstimate =>
    match constrainDirective ops variant lik parNames parToEstNames pc parametersToEstimate with
    | (pl1, none) => constrainLoop ops variant lik parNames parToEstNames rest pl1
    | (pl1, some (Thrown.parameterNotFound notFound)) =>
      ((constrainLoop ops variant lik parNames parToEstNames rest pl1).1,
        notFound :: (constrainLoop ops variant lik parNames parToEstNames rest pl1).2.1,
        (constrainLoop ops variant lik parNames parToEstNames rest pl1).2.2)
    | (pl1, some Thrown.constraintException) =>
      (pl1, [], some (OptErr.doesNotFit (directiveParam pc).1 (directiveParam pc).2))
    | (pl1, some (Thrown.exception e)) => (pl1, [], some e)

/-- The constraint that a directive of interval `ic` asks for on the parameter `par`: `ic`
when `par` has no constraint, and the intersection of `ic` with the constraint of `par`
otherwise. -/
def newConstraint {I V : Type} (ops : ConstraintOps I V) (ic : I) (par : Parameter I V) : I :=
  match par.constraint with
  | none => ic
  | some c => ops.inter ic c

/-- Whether the parameter `par` can take the constraint asked for: its value fits, and the
constraint is not an empty intersection. -/
def accepts {I V : Type} (ops : ConstraintOps I V) (ic : I) (par : Parameter I V) : Bool :=
  ops.isCorrect (newConstraint ops ic par) par.value &&
    !(par.constraint.isSome && ops.isEmpty (newConstraint ops ic par))

/-- The list in which every parameter named in `names` has the constraint asked for by a
directive of interval `ic`, the other parameters being as they were. -/
def constrained {I V : Type} (ops : ConstraintOps I V) (ic : I) (names : List String)
    (pl : ParameterList I V) : ParameterList I V :=
  pl.map (fun p =>
    if p.name ∈ names then { p with constraint := some (newConstraint ops ic p) } else p)

/-! ## Examples of parameter lists -/

/-- The intervals of the examples: the integers from `lo` to `hi`. -/
structure IntInterval where
  lo : Int
  hi : Int
deriving DecidableEq, Repr

/-- The operations on the intervals of the examples; three texts are read. -/
def intIntervals : ConstraintOps IntInterval Int where
  read := fun s =>
    if s = "[0;10]" then some ⟨0, 10⟩ else if s = "[5;20]" then some ⟨5, 20⟩
    else if s = "[30;40]" then some ⟨30, 40⟩ else none
  inter := fun a b => ⟨max a.lo b.lo, min a.hi b.hi⟩
  isEmpty := fun a => decide (a.hi < a.lo)
  isCorrect := fun a v => decide (a.lo ≤ v ∧ v ≤ a.hi)

/-- Four parameters without constraint. -/
def fourParameters : ParameterList IntInterval Int :=
  [⟨"a1", 7, none⟩, ⟨"a2", 7, none⟩, ⟨"a3", 7, none⟩, ⟨"b", 7, none⟩]

/-- A likelihood of one branch length `b` and three model parameters. -/
def fourParametersLikelihood : LikelihoodNames :=
  ⟨["b"], false, [], ["a1", "a2", "a3"]⟩

/-- Two parameters, the second one constrained to the interval from 0 to 10. -/
def twoParameters : ParameterList IntInterval Int :=
  [⟨"kappa", 7, none⟩, ⟨"alpha", 7, some ⟨0, 10⟩⟩]

/-! ## The optimization session -/

/-- The stages of a session that are carried out by optimizers outside of this file:
`optimizeTreeScale`, `optimizeTreeNNI` or `optimizeTreeNNI2`, `optimizeNumericalParameters`
or `optimizeNumericalParameters2`, and the final optimizer. -/
inductive Stage where
  | branchPrescale
  | topologySearch
  | numericRefinement
  | finalPolish
deriving DecidableEq, Repr

/-- The options that `optimizeParameters` reads from `params` and from the arguments of the
`optimization` procedure, with the defaults of the source. `optName` and `order` are what
`KeyvalTools::parseProcedure` delivers for the text `optimization`; `ignoreList` and
`constrainList` hold the tokens of the two lists; the two flags tell whether `params` holds
the deprecated keys `optimization.ignore_parameter` and `optimization.constrain_parameter`. -/
structure OptimizationOptions where
  optimization : String := "FullD(derivatives=Newton)"
  optName : String := "FullD"
  order : String := "Newton"
  scaleFirst : Bool := false
  ignoreDeprecated : Bool := false
  ignoreList : List String := []
  constrainDeprecated : Bool := false
  constrainList : List String := []
  backupFile : String := "none"
  optimizeTopo : Bool := false
  nniMethod : String := "phyml"
  clock : String := "None"
  finalMethod : String := "none"
deriving DecidableEq, Repr

/-- The services that `optimizeParameters` calls and that are not in src; an exception that
one of them throws is an `error`. `names` looks the parameter names up from the live
likelihood. `restore` stands for the restoring from the backup file of lines 2291-2321
(2680-2710), of which only the likelihood left and the exception thrown matter here. -/
structure Optimizers (L I V : Type) where
  names : L → LikelihoodNames
  optimizeTreeScale : L → Except String L
  restore : String → L → Except String L
  matchParametersValues : ParameterList I V → L → ParameterList I V
  optimizeTreeNNI : L → ParameterList I V → Except String L
  optimizeTreeNNI2 : L → ParameterList I V → Except String L
  optimizeNumericalParameters : L → ParameterList I V → Except String L
  optimizeNumericalParameters2 : L → ParameterList I V → Bool → Except String L
  finalOptimizer : String → L → ParameterList I V → Except String L

/-- How a call of `optimizeParameters` ends: the likelihood, the stages invoked in the order
of their invocation, and the exception thrown, if any. -/
structure Session (L : Type) where
  tl : L
  stages : List Stage
  thrown : Option OptErr

/-- The invocation of a stage: it is recorded, and its exception, if any, ends the call. -/
def invoke {L : Type} (stage : Stage) (result : Except String L) (tl : L)
    (stages : List Stage) : Session L :=
  match result with
  | .ok tl1 => ⟨tl1, stages ++ [stage], none⟩
  | .error message => ⟨tl, stages ++ [stage], some (OptErr.optimizer message)⟩

/-- The rest of a call after a step: nothing when the step has thrown. -/
def Session.andThen {L : Type} (s : Session L) (f : L → List Stage → Session L) :
    Session L :=
  match s.thrown with
  | some _ => s
  | none => f s.tl s.stages

/-- Lines 2381-2475 (2773-2868): the numerical optimization, after the topology search when
`searchTopology` is set, and the final optimization. -/
def refineAndPolish {L I V : Type} (svc : Optimizers L I V) (opts : OptimizationOptions)
    (searchTopology useClock : Bool) (tl : L) (parametersToEstimate : ParameterList I V)
    (stages : List Stage) : Session L :=
  let refined : Session L :=
    if opts.optName = "D-Brent" ∨ opts.optName = "D-BFGS" then
      (if searchTopology then
          invoke Stage.topologySearch (svc.optimizeTreeNNI tl parametersToEstimate) tl stages
        else ⟨tl, stages, none⟩).andThen
        (fun tl1 stages1 =>
          invoke Stage.numericRefinement
            (svc.optimizeNumericalParameters tl1
              (svc.matchParametersValues parametersToEstimate tl1)) tl1 stages1)
    else if opts.optName = "FullD" then
      (if searchTopology then
          invoke Stage.topologySearch (svc.optimizeTreeNNI2 tl parametersToEstimate) tl stages
        else ⟨tl, stages, none⟩).andThen
        (fun tl1 stages1 =>
          invoke Stage.numericRefinement
            (svc.optimizeNumericalParameters2 tl1
              (svc.matchParametersValues parametersToEstimate tl1) useClock) tl1 stages1)
    else ⟨tl, stages, some (OptErr.unknownMethod opts.optName)⟩
  refined.andThen (fun tl2 stages2 =>
    if opts.finalMethod = "none" then ⟨tl2, stages2, none⟩
    else if opts.finalMethod = "simplex" ∨ opts.finalMethod = "powell" then
      invoke Stage.finalPolish
        (svc.finalOptimizer opts.finalMethod tl2
          (svc.matchParametersValues parametersToEstimate tl2)) tl2 stages2
    else ⟨tl2, stages2, some (OptErr.unknownFinal opts.finalMethod)⟩)

/-- Lines 2284-2322 (2673-2711): the restoring, when a backup file is named. -/
def restoreStep {L I V : Type} (svc : Optimizers L I V) (opts : OptimizationOptions) (tl : L)
    (stages : List Stage) : Session L :=
  if opts.backupFile = "none" then ⟨tl, stages, none⟩
  else match svc.restore opts.backupFile tl with
    | .ok tl1 => ⟨tl1, stages, none⟩
    | .error message => ⟨tl, stages, some (OptErr.restoreFailed message)⟩

/-- Lines 2120-2270 (2543-2663): the list of parameters to estimate that the ignore loop and
then the constrain loop leave, and the exception that the constrain loop throws, if any. -/
def selectParameters {I V : Type} (ops : ConstraintOps I V) (variant : Variant)
    (lik : LikelihoodNames) (opts : OptimizationOptions) (parameters : ParameterList I V) :
    ParameterList I V × Option OptErr :=
  let parNames := getParameterNames parameters
  let ignored := (ignoreLoop variant lik parNames opts.ignoreList parameters).1
  let constrainedList := constrainLoop ops variant lik parNames (getParameterNames ignored)
    opts.constrainList ignored
  (constrainedList.1, constrainedList.2.2)

/-- Lines 2324-2475: the reading of the options of the search and the stages that follow,
for a `TreeLikelihood`. -/
def optimizeFrom {L I V : Type} (svc : Optimizers L I V) (opts : OptimizationOptions)
    (parametersToEstimate : ParameterList I V) (tl : L) (stages : List Stage) : Session L :=
  if ¬ (opts.nniMethod = "fast" ∨ opts.nniMethod = "better" ∨ opts.nniMethod = "phyml") then
    ⟨tl, stages, some (OptErr.unknownNNI opts.nniMethod)⟩
  else if ¬ (opts.order = "Gradient" ∨ opts.order = "Newton" ∨ opts.order = "BFGS") then
    ⟨tl, stages, some (OptErr.unknownDerivatives opts.order)⟩
  else if opts.clock ≠ "None" ∧ opts.clock ≠ "Global" then
    ⟨tl, stages, some (OptErr.clockNotRecognized opts.clock)⟩
  else if opts.clock = "Global" ∧ opts.optimizeTopo = true then
    ⟨tl, stages, some OptErr.topologyWithClock⟩
  else
    refineAndPolish svc opts opts.optimizeTopo (decide (opts.clock = "Global")) tl
      parametersToEstimate stages

/-- Lines 2713-2868: the reading of the options of the search and the stages that follow,
for a `PhyloLikelihood`. -/
def optimizeFromPhylo {L I V : Type} (svc : Optimizers L I V) (opts : OptimizationOptions)
    (parametersToEstimate : ParameterList I V) (lik : L) (stages : List Stage) : Session L :=
  if opts.optimizeTopo then ⟨lik, stages, some OptErr.topologyNotImplemented⟩
  else if ¬ (opts.order = "Gradient" ∨ opts.order = "Newton" ∨ opts.order = "BFGS") then
    ⟨lik, stages, some (OptErr.unknownDerivatives opts.order)⟩
  else if opts.clock ≠ "None" ∧ opts.clock ≠ "Global" then
    ⟨lik, stages, some (OptErr.clockNotRecognized opts.clock)⟩
  else if opts.clock = "Global" ∧ opts.optimizeTopo = true then
    ⟨lik, stages, some OptErr.topologyWithClock⟩
  else
    refineAndPolish svc opts false (decide (opts.clock = "Global")) lik parametersToEstimate
      stages

/-- Lines 2061-2475: `optimizeParameters` for a `TreeLikelihood`. -/
def optimizeParameters {L I V : Type} (svc : Optimizers L I V) (ops : ConstraintOps I V)
    (opts : OptimizationOptions) (tl : L) (parameters : ParameterList I V) : Session L :=
  if opts.optimization = "None" then ⟨tl, [], none⟩
  else
    (if opts.scaleFirst then invoke Stage.branchPrescale (svc.optimizeTreeScale tl) tl []
      else ⟨tl, [], none⟩).andThen
    (fun tl1 stages1 =>
      match selectParameters ops Variant.treeLikelihood (svc.names tl1) opts parameters with
      | (_, some e) => ⟨tl1, stages1, some e⟩
      | (parametersToEstimate, none) =>
        (restoreStep svc opts tl1 stages1).andThen (optimizeFrom svc opts parametersToEstimate))

/-- Lines 2479-2870: `optimizeParameters` for a `PhyloLikelihood`. The deprecated key of the
constrain list is looked for after the ignore loop, which throws nothing. -/
def optimizeParametersPhylo {L I V : Type} (svc : Optimizers L I V) (ops : ConstraintOps I V)
    (opts : OptimizationOptions) (lik : L) (parameters : ParameterList I V) : Session L :=
  if opts.optimization = "None" then ⟨lik, [], none⟩
  else if opts.scaleFirst then ⟨lik, [], some OptErr.scaleFirstExit⟩
  else if opts.ignoreDeprecated then ⟨lik, [], some OptErr.deprecatedIgnoreKey⟩
  else if opts.constrainDeprecated then ⟨lik, [], some OptErr.deprecatedConstrainKey⟩
  else
    match selectParameters ops Variant.phyloLikelihood (svc.names lik) opts parameters with
    | (_, some e) => ⟨lik, [], some e⟩
    | (parametersToEstimate, none) =>
      (restoreStep svc opts lik []).andThen (optimizeFromPhylo svc opts parametersToEstimate)

/-! ## Examples of sessions -/

/-- Optimizers over a likelihood that counts the calls made on it. -/
def countingOptimizers : Optimizers Nat IntInterval Int where
  names := fun _ => fourParametersLikelihood
  optimizeTreeScale := fun tl => .ok (tl + 1)
  restore := fun _ tl => .ok tl
  matchParametersValues := fun pl _ => pl
  optimizeTreeNNI := fun tl _ => .ok (tl + 1)
  optimizeTreeNNI2 := fun tl _ => .ok (tl + 1)
  optimizeNumericalParameters := fun tl _ => .ok (tl + 1)
  optimizeNumericalParameters2 := fun tl _ _ => .ok (tl + 1)
  finalOptimizer := fun _ tl _ => .ok (tl + 1)

/-- The option `optimization=None` with a topology search under a global clock. -/
def noneWithTopologyAndClock : OptimizationOptions :=
  { optimization := "None", optimizeTopo := true, clock := "Global" }

/-- A topology search under a global clock, with a branch prescale, a constrain list and a
backup file. -/
def topologyAndClockScaled : OptimizationOptions :=
  { optimizeTopo := true, clock := "Global", scaleFirst := true, constrainList := ["b=[0;10]"],
    backupFile := "backup.txt", nniMethod := "fast", optName := "D-BFGS", order := "BFGS",
    optimization := "D-BFGS(derivatives=BFGS)" }

/-! ## The restoring from a backup file (lines 2291-2321, 2680-2710 and 2988-3018) -/

/-- What ends the restoring before its end. -/
inductive RestoreErr where
  /-- The read of `lines[0]` when the file holds no line, which the source does not guard. -/
  | noLine
  /-- The `std::out_of_range` of `lines[0].substr(5)` on a first line of fewer than five
  characters. -/
  | outOfRange
  /-- Modelled from the spec: `StringTokenizer::nextToken` is not in src; the exception that
  it throws when no token is left, at line `l`. -/
  | noMoreToken (l : Nat)
  /-- Modelled from the spec: `ParameterList::whichParameterHasName` is not in src; the
  `ParameterNotFoundException` for the name `pname`. -/
  | parameterNotFound (pname : String)
  /-- Line 2318 (2707, 3015), `Exception`: incorrect likelihood value after restoring. -/
  | incorrectLikelihood
deriving DecidableEq, Repr

/-- How the restoring ends: the parameters of the likelihood, the numbers of the lines
reported on `cerr` as corrupted (lines 2305-2306), and the exception thrown, if any. `D` is
the type `double`. -/
structure Restored (I D : Type) where
  pl : ParameterList I D
  corrupted : List Nat
  thrown : Option RestoreErr

/-- The arithmetic of the type `double` in the test `abs(tl->getValue() - fval) > 0.000001`
of line 2317 (2706, 3014), a parameter of the model: `sub x y` is `x - y`, `abs` is the
absolute value, `gt x y` is the comparison `x > y`, and `tolerance` is the `double` that the
literal `0.000001` denotes. -/
structure DoubleOps (D : Type) where
  sub : D → D → D
  abs : D → D
  gt : D → D → Bool
  tolerance : D

/-- Modelled from the spec: `TextTools::isEmpty` is not in src. A text is empty when it
holds nothing but blanks, tabulations and line ends. -/
def isEmptyText (s : String) : Bool :=
  s.data.all (fun c => decide (c = ' ') || decide (c = '\t') || decide (c = '\n'))

/-- Modelled from the spec: `ParameterList::whichParameterHasName` is not in src. The index
of the first parameter of that name; `none` stands for `ParameterNotFoundException`. -/
def whichParameterHasName {I V : Type} (pname : String) : ParameterList I V → Option Nat
  | [] => none
  | par :: rest =>
    if par.name = pname then some 0
    else match whichParameterHasName pname rest with
      | none => none
      | some p => some (p + 1)

/-- Modelled from the spec: `AutoParameter::setValue` is not in src. Lines 2311-2312: the
parameter at index `p` takes the value `v`. -/
def setValueAt {I V : Type} (p : Nat) (v : V) (pl : ParameterList I V) : ParameterList I V :=
  pl.modify (fun par => { par with value := v }) p

/-- Lines 2298-2314: the loop over the lines after the first, from line `l` on. `st line` is
the list of tokens that `StringTokenizer(line, "=")` delivers and `toDouble` stands for
`TextTools::toDouble`, neither of which is in src. `pl` is the copy of the parameters of the
likelihood that the loop works on. -/
def restoreLines {I D : Type} (st : String → List String) (toDouble : String → D) :
    List String → Nat → ParameterList I D → List Nat → Restored I D
  | [], _, pl, corrupted => ⟨pl, corrupted, none⟩
  | line :: rest, l, pl, corrupted =>
    if isEmptyText line then restoreLines st toDouble rest (l + 1) pl corrupted
    else
      let corrupted1 := if (st line).length ≠ 2 then corrupted ++ [l] else corrupted
      match st line with
      | pname :: pvalue :: _ =>
        match whichParameterHasName pname pl with
        | none => ⟨pl, corrupted1, some (RestoreErr.parameterNotFound pname)⟩
        | some p =>
          restoreLines st toDouble rest (l + 1) (setValueAt p (toDouble pvalue) pl) corrupted1
      | _ => ⟨pl, corrupted1, some (RestoreErr.noMoreToken l)⟩

/-- Lines 2291-2321 (2680-2710, 2988-3018): the restoring from the backup file. `file` holds
the lines of the file, `none` when `FileTools::fileExists` answers no; `getValue` gives the
value of the likelihood for a list of parameters; `tlParameters` is `tl->getParameters()`.
The likelihood takes the restored parameters at line 2316, after the loop and before the
value is compared; the comparison of line 2317 is made in the arithmetic `dbl` of the type
`double`. -/
def restoreFromBackup {I D : Type} (st : String → List String) (toDouble : String → D)
    (getValue : ParameterList I D → D) (dbl : DoubleOps D) (file : Option (List String))
    (tlParameters : ParameterList I D) : Restored I D :=
  match file with
  | none => ⟨tlParameters, [], none⟩
  | some [] => ⟨tlParameters, [], some RestoreErr.noLine⟩
  | some (first :: rest) =>
    match substr first.data 5 (2 ^ 64 - 1) with
    | none => ⟨tlParameters, [], some RestoreErr.outOfRange⟩
    | some text =>
      match restoreLines st toDouble rest 1 tlParameters [] with
      | ⟨_, corrupted, some e⟩ => ⟨tlParameters, corrupted, some e⟩
      | ⟨pl, corrupted, none⟩ =>
        if dbl.gt (dbl.abs (dbl.sub (getValue pl) (toDouble (String.mk text)))) dbl.tolerance
        then ⟨pl, corrupted, some RestoreErr.incorrectLikelihood⟩
        else ⟨pl, corrupted, none⟩

/-- The value that the lines of a backup file hold for the parameter `name`: the value on
the last line that is not empty and whose first token is `name`. -/
def lastValueFor {D : Type} (st : String → List String) (toDouble : String → D)
    (name : String) (lines : List String) : Option D :=
  match lines.reverse.find?
      (fun line => !isEmptyText line && decide ((st line).head? = some name)) with
  | none => none
  | some line => some (toDouble ((st line).getD 1 ""))

/-- The list in which every parameter has the value that the lines hold for it, and the
value it had when the lines hold none. -/
def restoredParameters {I D : Type} (st : String → List String) (toDouble : String → D)
    (lines : List String) (pl : ParameterList I D) : ParameterList I D :=
  pl.map (fun par =>
    match lastValueFor st toDouble par.name lines with
    | none => par
    | some v => { par with value := v })

/-! ## Examples of backup files -/

/-- The tokens of a text between the characters `=`, empty tokens left out; `cur` holds the
characters of the token being read, last one first. -/
def splitEqualsFrom : List Char → List Char → List String
  | cur, [] => if cur = [] then [] else [String.mk cur.reverse]
  | cur, c :: cs =>
    if c = '=' then
      if cur = [] then splitEqualsFrom [] cs
      else String.mk cur.reverse :: splitEqualsFrom [] cs
    else splitEqualsFrom (c :: cur) cs

/-- Splits a text at the character `=`, leaving out empty tokens. -/
def splitEquals (s : String) : List String := splitEqualsFrom [] s.data

/-- The doubles of the examples are the integers of one or two digits, written as rational
numbers: reads a text of digits as such a number. -/
def digitsToRat (s : String) : ℚ := (digitsToInt s : ℚ)

/-- The arithmetic of the examples. On integers of one or two digits the subtraction and
the absolute value of doubles are exact, so that they are those of the rational numbers;
`tolerance` is the double nearest to 0.000001, which is `4722366482869645 / 2^72`. -/
def smallDoubles : DoubleOps ℚ where
  sub := fun x y => x - y
  abs := fun x => |x|
  gt := fun x y => decide (x > y)
  tolerance := 4722366482869645 / 2 ^ 72

/-- A likelihood whose value is the sum of the values of its parameters. -/
def sumOfValues (pl : ParameterList IntInterval ℚ) : ℚ := (pl.map (fun par => par.value)).sum

/-- The parameters `kappa` and `alpha`, both of value 7. -/
def kappaAlpha : ParameterList IntInterval ℚ := [⟨"kappa", 7, none⟩, ⟨"alpha", 7, none⟩]

/-! ## Phylo-likelihoods (`getPhyloLikelihoods`, lines 1557-1702) -/

/-- The exceptions of `getPhyloLikelihoods`. The `Exception` of line 1689, for a sequence
evolution of none of the five classes, has no counterpart here: `SequenceEvolution` holds
these five classes only. -/
inductive PhyloErr where
  /-- Line 1605, `BadIntegerException`: data number is wrong. -/
  | dataNumberWrong (nData : Nat)
  /-- Line 1610, `Exception`: the data does not match with aligned sequences. -/
  | dataNotAligned (nData : Nat)
  /-- Line 1625, `Exception`: process used twice. -/
  | processUsedTwice
  /-- Line 1651, `Exception`: unknown process number. -/
  | unknownProcessNumber
deriving DecidableEq, Repr

/-- The class of the likelihood built at lines 1645-1686. -/
inductive PhyloKind where
  | singleProcess
  | oneProcessSequence
  | mixture
  | hmm
  | autoCorrelation
  | partition
deriving DecidableEq, Repr

/-- The object built for one `phylo<N>` entry, kept symbolically: the class, the number
`nProcess` of the process or of the sequence evolution, the number `nData` of the data, and
whether the compression is recursive. -/
structure PhyloLikelihood where
  kind : PhyloKind
  nProcess : Nat
  nData : Nat
  recursive : Bool
deriving DecidableEq, Repr

/-- A `phylo<N>` entry of `params` in parsed form: the number `N` and the arguments `data`,
`process` and `compression` of its description, `none` for an argument that is not given. -/
structure PhyloEntry where
  number : Nat
  data : Option Int := none
  process : Option Int := none
  compression : Option String := none
deriving DecidableEq, Repr

/-- Lines 1597-1602: `nData`, which is 1 when the argument `data` is not given. -/
def PhyloEntry.nData (e : PhyloEntry) : Nat :=
  match e.data with
  | none => 1
  | some d => toSizeT d

/-- Lines 1614-1619: `nProcess`, which is 1 when the argument `process` is not given. -/
def PhyloEntry.nProcess (e : PhyloEntry) : Nat :=
  match e.process with
  | none => 1
  | some p => toSizeT p

/-- Lines 1654-1689: the class of the likelihood built from a sequence evolution. -/
def phyloKindOf : SequenceEvolution → PhyloKind
  | SequenceEvolution.oneProcess _ => PhyloKind.oneProcessSequence
  | SequenceEvolution.mixture _ _ => PhyloKind.mixture
  | SequenceEvolution.hmm _ _ => PhyloKind.hmm
  | SequenceEvolution.autoCorrelation _ _ => PhyloKind.autoCorrelation
  | SequenceEvolution.partition _ => PhyloKind.partition

/-- Lines 1586-1698: the body of the loop of `getPhyloLikelihoods` for one entry. `mData`
tells for each data number whether the container is a `VectorSiteContainer`; `usedProc`
holds the numbers used by the entries before. The result is the likelihood built and
`usedProc` with the number of this entry. -/
def getPhyloLikelihood (SPC : SubstitutionProcessCollection)
    (mSeqEvol : List (Nat × SequenceEvolution)) (mData : List (Nat × Bool))
    (usedProc : List Nat) (e : PhyloEntry) : Except PhyloErr (PhyloLikelihood × List Nat) :=
  match mapFind e.nData mData with
  | none => .error (PhyloErr.dataNumberWrong e.nData)
  | some false => .error (PhyloErr.dataNotAligned e.nData)
  | some true =>
    if e.nProcess ∈ usedProc then .error PhyloErr.processUsedTwice
    else
      let recursive := decide (e.compression = some "recursive")
      if SPC.hasSubstitutionProcessNumber e.nProcess then
        .ok (⟨PhyloKind.singleProcess, e.nProcess, e.nData, recursive⟩,
          usedProc ++ [e.nProcess])
      else
        match mapFind e.nProcess mSeqEvol with
        | none => .error PhyloErr.unknownProcessNumber
        | some evol =>
          .ok (⟨phyloKindOf evol, e.nProcess, e.nData, recursive⟩, usedProc ++ [e.nProcess])

/-- Lines 1584-1699: the loop over the `phylo<N>` entries; `mPhylo` is the map built so
far. -/
def getPhyloLikelihoodsLoop (SPC : SubstitutionProcessCollection)
    (mSeqEvol : List (Nat × SequenceEvolution)) (mData : List (Nat × Bool)) :
    List PhyloEntry → List (Nat × PhyloLikelihood) → List Nat →
      Except PhyloErr (List (Nat × PhyloLikelihood))
  | [], mPhylo, _ => .ok mPhylo
  | e :: rest, mPhylo, usedProc =>
    match getPhyloLikelihood SPC mSeqEvol mData usedProc e with
    | .error err => .error err
    | .ok (nPL, usedProc1) =>
      getPhyloLikelihoodsLoop SPC mSeqEvol mData rest (mapSet e.number nPL mPhylo) usedProc1

/-- Lines 1557-1702: `getPhyloLikelihoods`, on the `phylo<N>` entries of `params` in parsed
form. -/
def getPhyloLikelihoods (SPC : SubstitutionProcessCollection)
    (mSeqEvol : List (Nat × SequenceEvolution)) (mData : List (Nat × Bool))
    (params : List PhyloEntry) : Except PhyloErr (List (Nat × PhyloLikelihood)) :=
  getPhyloLikelihoodsLoop SPC mSeqEvol mData params [] []

/-- Path descriptions with a gap at the top: `site.path1` and `site.path2` are given,
`site.path3` is not. -/
def gapPaths (k : Nat) : String :=
  if k = 2 then "model1[a]" else if k = 1 then "model1[b]" else ""

/-! ## The printing of a process collection (`printParameters`, lines 3350-3492) -/

/-- Lines 1076-1084: the rate number that the text of a `rate` argument stands for, the
lookups in the collection left aside. -/
def rateNumber (sRate : RateText) : Nat :=
  match sRate.category with
  | none => toSizeT sRate.intPart
  | some cat => synthesizedRateId (toSizeT sRate.intPart) (toSizeT cat)

/-- A collection whose only rate distribution has the number -1, which is `2^64 - 1` on
`size_t`. -/
def collectionNegativeRate : SubstitutionProcessCollection :=
  ⟨[(1, ⟨[0, 1]⟩)], [(2 ^ 64 - 1, DiscreteDistribution.declared 4)], [1, 2], [1], []⟩

/-- Lines 3480-3486 (the same at lines 1129-1132): what is written after `rate=` for the
rate distribution number `dN`: the number itself below 10000, and otherwise the numbers
`dN/10000-1` and `dN%10000` on either side of a dot. The result is the text as lines
1074-1081 read it back; `TextTools::toInt`, which is not in src, is taken to read the decimal
text of a number as that number. -/
def printRate (dN : Nat) : RateText :=
  if dN < 10000 then ⟨(dN : Int), none⟩
  else ⟨((subSizeT (dN / 10000) 1 : Nat) : Int), some ((dN % 10000 : Nat) : Int)⟩

/-- Lines 3412-3440: the loop over the rate distribution numbers `distN`, from index `i` on.
For each number below 10000 the result holds the number of the distribution written and the
number written after `rate_distribution`, which is read at `modN[i]`; `none` stands for a
read beyond the end of `modN`. -/
def printRateDistributions (modN : List Nat) : List Nat → Nat → List (Nat × Option Nat)
  | [], _ => []
  | d :: rest, i =>
    if d < 10000 then (d, modN[i]?) :: printRateDistributions modN rest (i + 1)
    else printRateDistributions modN rest (i + 1)

/-! ## Lemmas and theorems -/

/-! ### Maps -/

theorem mapFind_mapSet {α : Type} (k k1 : Nat) (v : α) (m : List (Nat × α)) :
    mapFind k (mapSet k1 v m) = if k = k1 then some v else mapFind k m := by
  induction m with
  | nil => simp [mapSet, mapFind]
  | cons hd tl ih =>
    obtain ⟨k2, v2⟩ := hd
    by_cases h1 : k1 < k2
    · simp [mapSet, mapFind, h1]
    · by_cases h2 : k1 = k2
      · subst h2
        by_cases h3 : k = k1 <;> simp [mapSet, mapFind, h3]
      · by_cases h3 : k = k1
        · subst h3
          simp [mapSet, mapFind, h1, h2, ih]
        · simp [mapSet, mapFind, h1, h2, h3, ih]

theorem length_mapSet {α : Type} (k : Nat) (v : α) (m : List (Nat × α))
    (h : mapFind k m = none) : (mapSet k v m).length = m.length + 1 := by
  induction m with
  | nil => simp [mapSet]
  | cons hd tl ih =>
    obtain ⟨k2, v2⟩ := hd
    by_cases h1 : k < k2
    · simp [mapSet, h1]
    · by_cases h2 : k = k2
      · simp [mapFind, h2] at h
      · simp [mapFind, h2] at h
        simp [mapSet, h1, h2, ih h]

theorem mapFind_isSome_iff {α : Type} (k : Nat) (m : List (Nat × α)) :
    (mapFind k m).isSome = true ↔ k ∈ m.map Prod.fst := by
  induction m with
  | nil => simp [mapFind]
  | cons hd tl ih =>
    obtain ⟨k2, v2⟩ := hd
    by_cases h : k = k2
    · simp [mapFind, h]
    · simp [mapFind, h, ih]

/-! ### The `Partition` branch -/

theorem enterPositions_ok (q : Nat) (ps : List Nat) (j : Nat) (m m1 : List (Nat × Nat))
    (h : enterPositions q ps j m = .ok m1) :
    ps.Nodup ∧ (∀ p ∈ ps, mapFind p m = none) ∧ m1.length = m.length + ps.length ∧
      ∀ k, mapFind k m1 = if k ∈ ps then some q else mapFind k m := by
  induction ps generalizing j m with
  | nil =>
    simp only [enterPositions, Except.ok.injEq] at h
    subst h
    simp
  | cons p rest ih =>
    unfold enterPositions at h
    split at h
    · cases h
    · rename_i hp
      have hp1 : mapFind p m = none := by simpa using hp
      obtain ⟨h1, h2, h3, h4⟩ := ih _ _ h
      have hnot : p ∉ rest := by
        intro hmem
        have := h2 p hmem
        rw [mapFind_mapSet] at this
        simp at this
      refine ⟨List.nodup_cons.mpr ⟨hnot, h1⟩, ?_, ?_, ?_⟩
      · intro x hx
        rcases List.mem_cons.mp hx with hx | hx
        · rw [hx]; exact hp1
        · have := h2 x hx
          rw [mapFind_mapSet] at this
          by_cases hxp : x = p
          · rw [hxp]; exact hp1
          · simpa [hxp] using this
      · rw [h3, length_mapSet _ _ _ hp1]
        simp
        omega
      · intro k
        rw [h4 k, mapFind_mapSet]
        by_cases hk : k ∈ rest
        · simp [hk]
        · by_cases hkp : k = p
          · simp [hkp]
          · simp [hk, hkp]

theorem enterPositions_error (q : Nat) (ps : List Nat) (j : Nat) (m : List (Nat × Nat))
    (e : Err) (h : enterPositions q ps j m = .error e) :
    (∃ j1, e = Err.positionDefinedTwice j1) ∧ ¬ (ps.Nodup ∧ ∀ p ∈ ps, mapFind p m = none) := by
  induction ps generalizing j m with
  | nil => simp [enterPositions] at h
  | cons p rest ih =>
    unfold enterPositions at h
    split at h
    · rename_i hp
      refine ⟨⟨j, by cases h; rfl⟩, ?_⟩
      rintro ⟨-, h2⟩
      have := h2 p (List.mem_cons_self _ _)
      simp [this] at hp
    · rename_i hp
      obtain ⟨h1, h2⟩ := ih _ _ h
      refine ⟨h1, ?_⟩
      rintro ⟨h3, h4⟩
      apply h2
      have hnd := List.nodup_cons.mp h3
      refine ⟨hnd.2, ?_⟩
      intro x hx
      rw [mapFind_mapSet]
      have hxp : x ≠ p := by
        rintro rfl
        exact hnd.1 hx
      simp [hxp, h4 x (List.mem_cons_of_mem _ hx)]

theorem positionsFrom_succ (args : Args) (i n : Nat) :
    positionsFrom args i (n + 1) = procPos args i ++ positionsFrom args (i + 1) n := by
  simp [positionsFrom, List.range'_succ]

theorem enterProcesses_ok (args : Args) (vs : List Nat) (i : Nat) (m m1 : List (Nat × Nat))
    (h : enterProcesses args vs i m = .ok m1) :
    (positionsFrom args i vs.length).Nodup ∧
      (∀ p ∈ positionsFrom args i vs.length, mapFind p m = none) ∧
      m1.length = m.length + (positionsFrom args i vs.length).length ∧
      (∀ k, k ∉ positionsFrom args i vs.length → mapFind k m1 = mapFind k m) ∧
      (∀ idx k, k ∈ procPos args (i + idx) → ∀ v, vs[idx]? = some v → mapFind k m1 = some v) := by
  induction vs generalizing i m with
  | nil =>
    simp only [enterProcesses, Except.ok.injEq] at h
    subst h
    simp [positionsFrom]
  | cons v rest ih =>
    unfold enterProcesses at h
    split at h
    · cases h
    · rename_i m2 hm2
      obtain ⟨a1, a2, a3, a4⟩ := enterPositions_ok _ _ _ _ _ hm2
      obtain ⟨b1, b2, b3, b4, b5⟩ := ih _ _ h
      have hdis : ∀ p, p ∈ procPos args i → p ∈ positionsFrom args (i + 1) rest.length → False := by
        intro p hp1 hp2
        have := b2 p hp2
        rw [a4 p] at this
        simp [hp1] at this
      rw [List.length_cons, positionsFrom_succ]
      refine ⟨List.nodup_append.mpr ⟨a1, b1, hdis⟩, ?_, ?_, ?_, ?_⟩
      · intro p hp
        rcases List.mem_append.mp hp with hp | hp
        · exact a2 p hp
        · have := b2 p hp
          rw [a4 p] at this
          by_cases hpi : p ∈ procPos args i
          · exact absurd hp (fun hh => hdis p hpi hh)
          · simpa [hpi] using this
      · rw [b3, a3, List.length_append]
        omega
      · intro k hk
        have hk1 : k ∉ procPos args i := fun hh => hk (List.mem_append_left _ hh)
        have hk2 : k ∉ positionsFrom args (i + 1) rest.length :=
          fun hh => hk (List.mem_append_right _ hh)
        rw [b4 k hk2, a4 k]
        simp [hk1]
      · intro idx k hk w hw
        cases idx with
        | zero =>
          simp at hw
          subst hw
          have hk2 : k ∉ positionsFrom args (i + 1) rest.length := fun hh => hdis k hk hh
          rw [b4 k hk2, a4 k]
          simp at hk
          simp [hk]
        | succ idx =>
          simp at hw
          apply b5 idx k _ w hw
          have : i + 1 + idx = i + (idx + 1) := by omega
          rw [this]
          exact hk

theorem enterProcesses_error (args : Args) (vs : List Nat) (i : Nat) (m : List (Nat × Nat))
    (e : Err) (h : enterProcesses args vs i m = .error e) :
    (∃ j, e = Err.positionDefinedTwice j) ∧
      ¬ ((positionsFrom args i vs.length).Nodup ∧
        ∀ p ∈ positionsFrom args i vs.length, mapFind p m = none) := by
  induction vs generalizing i m with
  | nil => simp [enterProcesses] at h
  | cons v rest ih =>
    unfold enterProcesses at h
    rw [List.length_cons, positionsFrom_succ]
    split at h
    · rename_i e1 he1
      cases h
      obtain ⟨a1, a2⟩ := enterPositions_error _ _ _ _ _ he1
      refine ⟨a1, ?_⟩
      rintro ⟨c1, c2⟩
      exact a2 ⟨(List.nodup_append.mp c1).1, fun p hp => c2 p (List.mem_append_left _ hp)⟩
    · rename_i m2 hm2
      obtain ⟨a1, a2, a3, a4⟩ := enterPositions_ok _ _ _ _ _ hm2
      obtain ⟨b1, b2⟩ := ih _ _ h
      refine ⟨b1, ?_⟩
      rintro ⟨c1, c2⟩
      apply b2
      obtain ⟨d1, d2, d3⟩ := List.nodup_append.mp c1
      refine ⟨d2, ?_⟩
      intro p hp
      rw [a4 p]
      have hpi : p ∉ procPos args i := fun hh => d3 hh hp
      simp [hpi, c2 p (List.mem_append_right _ hp)]

theorem collectSites_eq (m : List (Nat × Nat)) (d : Nat) :
    ∀ (fuel pos : Nat) (acc : List Nat),
      (∀ p, pos ≤ p → p < pos + d → ∃ q, mapFind p m = some q) →
      mapFind (pos + d) m = none → d < fuel →
      collectSites m fuel pos acc
        = acc ++ (List.range' pos d).map (fun p => (mapFind p m).getD 0) := by
  induction d with
  | zero =>
    intro fuel pos acc _ hnone hfuel
    obtain ⟨f, rfl⟩ : ∃ f, fuel = f + 1 := ⟨fuel - 1, by omega⟩
    simp only [Nat.add_zero] at hnone
    simp [collectSites, hnone]
  | succ d ih =>
    intro fuel pos acc hsome hnone hfuel
    obtain ⟨f, rfl⟩ : ∃ f, fuel = f + 1 := ⟨fuel - 1, by omega⟩
    obtain ⟨q, hq⟩ := hsome pos (Nat.le_refl _) (by omega)
    have hnone1 : mapFind (pos + 1 + d) m = none := by
      have : pos + 1 + d = pos + (d + 1) := by omega
      rw [this]; exact hnone
    have hsome1 : ∀ p, pos + 1 ≤ p → p < pos + 1 + d → ∃ q, mapFind p m = some q :=
      fun p hp1 hp2 => hsome p (by omega) (by omega)
    simp only [collectSites, hq]
    rw [ih f (pos + 1) (acc ++ [q]) hsome1 hnone1 (by omega), List.range'_succ]
    simp [hq]

theorem present_le_length {α : Type} (m : List (Nat × α)) (pos d : Nat)
    (h : ∀ p, pos ≤ p → p < pos + d → ∃ q, mapFind p m = some q) : d ≤ m.length := by
  have hsub : List.range' pos d ⊆ m.map Prod.fst := by
    intro p hp
    rw [List.mem_range'_1] at hp
    obtain ⟨q, hq⟩ := h p hp.1 hp.2
    rw [← mapFind_isSome_iff, hq]
    rfl
  have := ((List.nodup_range' pos d).subperm hsub).length_le
  simpa using this

theorem exists_first_absent {α : Type} (m : List (Nat × α)) (pos : Nat) :
    ∃ d, d ≤ m.length ∧ mapFind (pos + d) m = none ∧
      ∀ p, pos ≤ p → p < pos + d → ∃ q, mapFind p m = some q := by
  have hex : ∃ d, mapFind (pos + d) m = none := by
    by_contra hcon
    have hall : ∀ d, ∃ q, mapFind (pos + d) m = some q := by
      intro d
      cases hd : mapFind (pos + d) m with
      | none => exact absurd ⟨d, hd⟩ hcon
      | some q => exact ⟨q, rfl⟩
    have := present_le_length m pos (m.length + 1) (fun p hp1 _ => by
      have := hall (p - pos)
      rwa [Nat.add_sub_cancel' hp1] at this)
    omega
  classical
  have hbelow : ∀ p, pos ≤ p → p < pos + Nat.find hex → ∃ q, mapFind p m = some q := by
    intro p hp1 hp2
    have hlt : p - pos < Nat.find hex := by omega
    have := Nat.find_min hex hlt
    rw [Nat.add_sub_cancel' hp1] at this
    cases hd : mapFind p m with
    | none => exact absurd hd this
    | some q => exact ⟨q, rfl⟩
  exact ⟨Nat.find hex, present_le_length m pos _ hbelow, Nat.find_spec hex, hbelow⟩

/-- The `while` loop of lines 1473-1477 leaves by itself: every number of iterations above
`posProc.size()` gives the same vector. -/
theorem collectSites_fuel (m : List (Nat × Nat)) (fuel pos : Nat) (acc : List Nat)
    (h : m.length < fuel) :
    collectSites m fuel pos acc = collectSites m (m.length + 1) pos acc := by
  obtain ⟨d, hd1, hd2, hd3⟩ := exists_first_absent m pos
  rw [collectSites_eq m d fuel pos acc hd3 hd2 (by omega),
    collectSites_eq m d (m.length + 1) pos acc hd3 hd2 (by omega)]

theorem mem_positionsFrom (args : Args) (i n k : Nat) :
    k ∈ positionsFrom args i n ↔ ∃ idx, idx < n ∧ k ∈ procPos args (i + idx) := by
  simp only [positionsFrom, List.mem_flatten, List.mem_map, List.mem_range'_1]
  constructor
  · rintro ⟨l, ⟨a, ⟨ha1, ha2⟩, rfl⟩, hk⟩
    refine ⟨a - i, by omega, ?_⟩
    rwa [Nat.add_sub_cancel' ha1]
  · rintro ⟨idx, h1, h2⟩
    exact ⟨_, ⟨i + idx, ⟨by omega, by omega⟩, rfl⟩, h2⟩

theorem listedPositions_eq (args : Args) (n : Nat) :
    listedPositions args n = positionsFrom args 0 n := rfl

theorem partitionEvolution_accepts (args : Args) (vproc : List Nat)
    (hc : PartitionCovers args vproc.length) :
    ∃ vMap, partitionEvolution args vproc = .ok (SequenceEvolution.partition vMap) ∧
      vMap.length = (listedPositions args vproc.length).length ∧
      ∀ k, 1 ≤ k → k ≤ (listedPositions args vproc.length).length →
        ∀ idx v, k ∈ procPos args idx → vproc[idx]? = some v → vMap[k - 1]? = some v := by
  obtain ⟨hc1, hc2⟩ := hc
  rw [listedPositions_eq] at hc1 hc2 ⊢
  cases hm : enterProcesses args vproc 0 [] with
  | error e =>
    exact absurd ⟨hc1, fun _ _ => rfl⟩ (enterProcesses_error _ _ _ _ _ hm).2
  | ok m =>
    obtain ⟨b1, -, b3, b4, b5⟩ := enterProcesses_ok _ _ _ _ _ hm
    simp only [List.length_nil, Nat.zero_add] at b3 b5
    have hfound : ∀ p, 1 ≤ p → p < 1 + m.length → ∃ q, mapFind p m = some q := by
      intro p hp1 hp2
      have hmem : p ∈ positionsFrom args 0 vproc.length := (hc2 p).mpr ⟨hp1, by omega⟩
      obtain ⟨idx, hidx, hk⟩ := (mem_positionsFrom _ _ _ _).mp hmem
      rw [Nat.zero_add] at hk
      exact ⟨vproc[idx], b5 idx p hk _ (List.getElem?_eq_getElem hidx)⟩
    have hnone : mapFind (1 + m.length) m = none := by
      have hnot : (1 + m.length) ∉ positionsFrom args 0 vproc.length := by
        intro hmem
        have := ((hc2 _).mp hmem).2
        omega
      rw [b4 _ hnot]
      rfl
    have hvm := collectSites_eq m m.length (m.length + 1) 1 [] hfound hnone (by omega)
    refine ⟨(List.range' 1 m.length).map (fun p => (mapFind p m).getD 0), ?_, ?_, ?_⟩
    · simp only [partitionEvolution, hm]
      rw [hvm]
      simp
    · simp [b3]
    · intro k hk1 hk2 idx v hmem hv
      have hfk := b5 idx k hmem v hv
      rw [List.getElem?_map, List.getElem?_range' _ _ (by omega)]
      have hk : 1 + (k - 1) = k := by omega
      simp [hk, hfk]

theorem partitionEvolution_rejects (args : Args) (vproc : List Nat)
    (hc : ¬ PartitionCovers args vproc.length) :
    partitionEvolution args vproc = .error Err.gapsInSites ∨
      ∃ j, partitionEvolution args vproc = .error (Err.positionDefinedTwice j) := by
  cases hm : enterProcesses args vproc 0 [] with
  | error e =>
    obtain ⟨j, rfl⟩ := (enterProcesses_error _ _ _ _ _ hm).1
    exact Or.inr ⟨j, by simp [partitionEvolution, hm]⟩
  | ok m =>
    left
    obtain ⟨b1, -, b3, b4, -⟩ := enterProcesses_ok _ _ _ _ _ hm
    simp only [List.length_nil, Nat.zero_add] at b3
    obtain ⟨d, hd1, hd2, hd3⟩ := exists_first_absent m 1
    have hvm := collectSites_eq m d (m.length + 1) 1 [] hd3 hd2 (by omega)
    have hne : d ≠ m.length := by
      intro hd
      apply hc
      refine ⟨b1, ?_⟩
      have hsub : List.range' 1 d ⊆ positionsFrom args 0 vproc.length := by
        intro p hp
        rw [List.mem_range'_1] at hp
        by_contra hnot
        obtain ⟨q, hq⟩ := hd3 p hp.1 hp.2
        rw [b4 p hnot] at hq
        cases hq
      have hperm := ((List.nodup_range' 1 d).subperm hsub).perm_of_length_le
        (by simp [← b3, hd])
      intro p
      rw [listedPositions_eq, ← hperm.mem_iff, List.mem_range'_1, ← b3, ← hd]
      omega
    simp only [partitionEvolution, hm]
    rw [hvm]
    simp [hne]

theorem readProcessNumbers_eq (m : List (Nat × Int)) (d : Nat) :
    ∀ (fuel ind : Nat) (acc : List Nat),
      (∀ p, ind ≤ p → p < ind + d → ∃ q, mapFind p m = some q) →
      mapFind (ind + d) m = none → d < fuel →
      readProcessNumbers m fuel ind acc
        = acc ++ (List.range' ind d).map (fun p => toSizeT ((mapFind p m).getD 1)) := by
  induction d with
  | zero =>
    intro fuel ind acc _ hnone hfuel
    obtain ⟨f, rfl⟩ : ∃ f, fuel = f + 1 := ⟨fuel - 1, by omega⟩
    simp only [Nat.add_zero] at hnone
    simp [readProcessNumbers, hnone]
  | succ d ih =>
    intro fuel ind acc hsome hnone hfuel
    obtain ⟨f, rfl⟩ : ∃ f, fuel = f + 1 := ⟨fuel - 1, by omega⟩
    obtain ⟨q, hq⟩ := hsome ind (Nat.le_refl _) (by omega)
    have hnone1 : mapFind (ind + 1 + d) m = none := by
      have : ind + 1 + d = ind + (d + 1) := by omega
      rw [this]; exact hnone
    have hsome1 : ∀ p, ind + 1 ≤ p → p < ind + 1 + d → ∃ q, mapFind p m = some q :=
      fun p hp1 hp2 => hsome p (by omega) (by omega)
    simp only [readProcessNumbers, hq]
    rw [ih f (ind + 1) _ hsome1 hnone1 (by omega), List.range'_succ]
    simp [hq, getIntParameter]

/-- The loop of lines 1435-1441 leaves by itself: every number of iterations above the number
of `process<i>` keys gives the same vector. -/
theorem readProcessNumbers_fuel (m : List (Nat × Int)) (fuel ind : Nat) (acc : List Nat)
    (h : m.length < fuel) :
    readProcessNumbers m fuel ind acc = readProcessNumbers m (m.length + 1) ind acc := by
  obtain ⟨d, hd1, hd2, hd3⟩ := exists_first_absent m ind
  rw [readProcessNumbers_eq m d fuel ind acc hd3 hd2 (by omega),
    readProcessNumbers_eq m d (m.length + 1) ind acc hd3 hd2 (by omega)]

theorem firstUnknownProcess_eq_none (SPC : SubstitutionProcessCollection) (vproc : List Nat) :
    firstUnknownProcess SPC vproc = none ↔
      ∀ p ∈ vproc, SPC.hasSubstitutionProcessNumber p = true := by
  induction vproc with
  | nil => simp [firstUnknownProcess]
  | cons p rest ih =>
    by_cases hp : SPC.hasSubstitutionProcessNumber p = true
    · simp [firstUnknownProcess, hp, ih]
    · simp [firstUnknownProcess, hp]

theorem firstUnknownProcess_some (SPC : SubstitutionProcessCollection) (vproc : List Nat)
    (p : Nat) (h : firstUnknownProcess SPC vproc = some p) :
    p ∈ vproc ∧ SPC.hasSubstitutionProcessNumber p = false := by
  induction vproc with
  | nil => simp [firstUnknownProcess] at h
  | cons q rest ih =>
    by_cases hq : SPC.hasSubstitutionProcessNumber q = true
    · simp only [firstUnknownProcess, hq, if_true] at h
      exact ⟨List.mem_cons_of_mem _ (ih h).1, (ih h).2⟩
    · simp only [firstUnknownProcess, hq] at h
      simp at h
      subst h
      exact ⟨List.mem_cons_self _ _, by simpa using hq⟩

theorem positionsFrom_unique (args : Args) (n : Nat) :
    ∀ (i a b k : Nat), (positionsFrom args i n).Nodup → a < n → b < n →
      k ∈ procPos args (i + a) → k ∈ procPos args (i + b) → a = b := by
  induction n with
  | zero => intro i a b k _ ha; omega
  | succ n ih =>
    intro i a b k hnd ha hb hka hkb
    rw [positionsFrom_succ] at hnd
    obtain ⟨-, h2, h3⟩ := List.nodup_append.mp hnd
    have hrest : ∀ c, c < n → k ∈ procPos args (i + (c + 1)) →
        k ∈ positionsFrom args (i + 1) n := by
      intro c hc hk
      refine (mem_positionsFrom _ _ _ _).mpr ⟨c, hc, ?_⟩
      have : i + 1 + c = i + (c + 1) := by omega
      rwa [this]
    cases a with
    | zero =>
      cases b with
      | zero => rfl
      | succ b => exact absurd (hrest b (by omega) hkb) (fun hh => h3 hka hh)
    | succ a =>
      cases b with
      | zero => exact absurd (hrest a (by omega) hka) (fun hh => h3 hkb hh)
      | succ b =>
        have := ih (i + 1) a b k h2 (by omega) (by omega)
          (by have e : i + 1 + a = i + (a + 1) := by omega
              rwa [e])
          (by have e : i + 1 + b = i + (b + 1) := by omega
              rwa [e])
        omega

theorem getSequenceEvolution_partition (SPC : SubstitutionProcessCollection) (d : Description)
    (hname : d.name = "Partition") (hne : processNumbers d.args ≠ [])
    (hknown : ∀ p ∈ processNumbers d.args, SPC.hasSubstitutionProcessNumber p = true) :
    getSequenceEvolution SPC d = partitionEvolution d.args (processNumbers d.args) := by
  have h1 : (processNumbers d.args).length ≠ 0 := by
    simpa [List.length_eq_zero] using hne
  have h2 := (firstUnknownProcess_eq_none SPC _).mpr hknown
  simp [getSequenceEvolution, hname, h1, h2]

theorem getSequenceEvolution_composite_ok (SPC : SubstitutionProcessCollection)
    (d : Description) (hname : d.name ≠ "Simple") (e : SequenceEvolution)
    (h : getSequenceEvolution SPC d = .ok e) :
    processNumbers d.args ≠ [] ∧
      ∀ p ∈ processNumbers d.args, SPC.hasSubstitutionProcessNumber p = true := by
  simp only [getSequenceEvolution, hname, if_false] at h
  by_cases h1 : (processNumbers d.args).length = 0
  · simp [h1] at h
  · simp only [h1, if_false] at h
    cases h2 : firstUnknownProcess SPC (processNumbers d.args) with
    | some p => simp [h2] at h
    | none =>
      refine ⟨?_, (firstUnknownProcess_eq_none SPC _).mp h2⟩
      intro hnil
      exact h1 (by simp [hnil])

/-- C1: for a `Partition` description naming at least one process, all of them known, with
site lists `L_1..L_m`, `getSequenceEvolutions` builds the evolution if and only if no position
occurs twice in the lists and the listed positions are exactly `1..N`, `N` being the number
of listed positions; otherwise it throws, either "a process position is defined twice" or
"there are gaps in the process sites". -/
theorem partition_accepted_iff_positions_cover (SPC : SubstitutionProcessCollection)
    (d : Description) (hname : d.name = "Partition") (hne : processNumbers d.args ≠ [])
    (hknown : ∀ p ∈ processNumbers d.args, SPC.hasSubstitutionProcessNumber p = true) :
    ((∃ e, getSequenceEvolution SPC d = .ok e) ↔
      ((listedPositions d.args (processNumbers d.args).length).Nodup ∧
        ∀ p, p ∈ listedPositions d.args (processNumbers d.args).length ↔
          1 ≤ p ∧ p ≤ (listedPositions d.args (processNumbers d.args).length).length)) ∧
    ((∀ e, getSequenceEvolution SPC d ≠ .ok e) →
      (getSequenceEvolution SPC d = .error Err.gapsInSites ∨
        ∃ j, getSequenceEvolution SPC d = .error (Err.positionDefinedTwice j))) := by
  rw [getSequenceEvolution_partition SPC d hname hne hknown]
  constructor
  · constructor
    · rintro ⟨e, he⟩
      by_contra hc
      rcases partitionEvolution_rejects d.args _ hc with h | ⟨j, h⟩ <;>
        · rw [h] at he
          cases he
    · intro hc
      obtain ⟨vMap, h, -⟩ := partitionEvolution_accepts d.args _ hc
      exact ⟨_, h⟩
  · intro hno
    apply partitionEvolution_rejects
    intro hc
    obtain ⟨vMap, h, -⟩ := partitionEvolution_accepts d.args _ hc
    exact hno _ h

/-- C1, on the partition `A -> (1,2)`, `B -> (3)` of the spec: it is accepted. -/
theorem partition_accepted_iff_positions_cover_witness :
    partitionAB.name = "Partition" ∧ processNumbers partitionAB.args ≠ [] ∧
      (∀ p ∈ processNumbers partitionAB.args,
        exampleCollection.hasSubstitutionProcessNumber p = true) ∧
      ((∃ e, getSequenceEvolution exampleCollection partitionAB = .ok e) ↔
        ((listedPositions partitionAB.args (processNumbers partitionAB.args).length).Nodup ∧
          ∀ p, p ∈ listedPositions partitionAB.args (processNumbers partitionAB.args).length ↔
            1 ≤ p ∧
              p ≤ (listedPositions partitionAB.args
                (processNumbers partitionAB.args).length).length)) :=
  ⟨rfl, by decide, by decide,
    (partition_accepted_iff_positions_cover exampleCollection partitionAB rfl (by decide)
      (by decide)).1⟩

/-- The partition `A -> (1,2)`, `B -> (3)` is built, with site map `[1, 1, 2]`. -/
theorem partitionAB_built :
    getSequenceEvolution exampleCollection partitionAB
      = .ok (SequenceEvolution.partition [1, 1, 2]) := by decide

/-- The positions `(1,2)` and `(4)` are refused: there are gaps in the process sites. -/
theorem partitionGap_refused :
    getSequenceEvolution exampleCollection partitionGap = .error Err.gapsInSites := by decide

/-- C2: when a `Partition` description is accepted, the site map `vMap` handed to the
partition evolution has one entry per listed position, and for every `k` in `1..N` exactly
one of the listed processes has `k` in its sites, and entry `k - 1` of `vMap` is the number
of that process. -/
theorem partition_site_map (SPC : SubstitutionProcessCollection) (d : Description)
    (hname : d.name = "Partition") (e : SequenceEvolution)
    (h : getSequenceEvolution SPC d = .ok e) :
    ∃ vMap, e = SequenceEvolution.partition vMap ∧
      vMap.length = (listedPositions d.args (processNumbers d.args).length).length ∧
      ∀ k, 1 ≤ k → k ≤ (listedPositions d.args (processNumbers d.args).length).length →
        ∃ i numProc, (processNumbers d.args)[i]? = some numProc ∧ k ∈ procPos d.args i ∧
          (∀ i1, i1 < (processNumbers d.args).length → k ∈ procPos d.args i1 → i1 = i) ∧
          vMap[k - 1]? = some numProc := by
  have hsimple : d.name ≠ "Simple" := by rw [hname]; decide
  obtain ⟨hne, hknown⟩ := getSequenceEvolution_composite_ok SPC d hsimple e h
  rw [getSequenceEvolution_partition SPC d hname hne hknown] at h
  have hc : PartitionCovers d.args (processNumbers d.args).length := by
    by_contra hc
    rcases partitionEvolution_rejects d.args _ hc with h1 | ⟨j, h1⟩ <;>
      · rw [h1] at h
        cases h
  obtain ⟨vMap, h1, h2, h3⟩ := partitionEvolution_accepts d.args _ hc
  rw [h1] at h
  cases h
  refine ⟨vMap, rfl, h2, ?_⟩
  intro k hk1 hk2
  have hmem : k ∈ positionsFrom d.args 0 (processNumbers d.args).length :=
    (hc.2 k).mpr ⟨hk1, hk2⟩
  obtain ⟨i, hi, hki⟩ := (mem_positionsFrom _ _ _ _).mp hmem
  rw [Nat.zero_add] at hki
  refine ⟨i, (processNumbers d.args)[i], List.getElem?_eq_getElem hi, hki, ?_,
    h3 k hk1 hk2 i _ hki (List.getElem?_eq_getElem hi)⟩
  intro i1 hi1 hki1
  exact positionsFrom_unique d.args _ 0 i1 i k hc.1 hi1 hi
    (by rwa [Nat.zero_add]) (by rwa [Nat.zero_add])

/-- C2, on the partition `A -> (1,2)`, `B -> (3)`. -/
theorem partition_site_map_witness :
    ∃ vMap, SequenceEvolution.partition [1, 1, 2] = SequenceEvolution.partition vMap ∧
      vMap.length
        = (listedPositions partitionAB.args (processNumbers partitionAB.args).length).length ∧
      ∀ k, 1 ≤ k →
        k ≤ (listedPositions partitionAB.args (processNumbers partitionAB.args).length).length →
        ∃ i numProc, (processNumbers partitionAB.args)[i]? = some numProc ∧
          k ∈ procPos partitionAB.args i ∧
          (∀ i1, i1 < (processNumbers partitionAB.args).length →
            k ∈ procPos partitionAB.args i1 → i1 = i) ∧
          vMap[k - 1]? = some numProc :=
  partition_site_map exampleCollection partitionAB rfl _ (by decide)

/-! ### The `Mixture` and `Simple` branches -/

theorem getSequenceEvolution_mixture (SPC : SubstitutionProcessCollection) (d : Description)
    (hname : d.name = "Mixture") (hne : processNumbers d.args ≠ [])
    (hknown : ∀ p ∈ processNumbers d.args, SPC.hasSubstitutionProcessNumber p = true) :
    getSequenceEvolution SPC d = mixtureEvolution d.args (processNumbers d.args) := by
  have h1 : (processNumbers d.args).length ≠ 0 := by
    simpa [List.length_eq_zero] using hne
  have h2 := (firstUnknownProcess_eq_none SPC _).mpr hknown
  simp [getSequenceEvolution, hname, h1, h2]

/-- C3, counterexample: the description `Mixture(process1=1, process2=2)` gives no weight
at all, a number that is neither 1 nor 2, and is not refused: the mixture is built, no
weight being set on it. -/
theorem mixture_without_probas_built :
    mixtureNoProbas.args.probas = none ∧
      processNumbers mixtureNoProbas.args = [1, 2] ∧
      getSequenceEvolution exampleCollection mixtureNoProbas
        = .ok (SequenceEvolution.mixture [1, 2] none) := by
  decide

/-- C3 (amended): for a `Mixture` description over `N` known processes (`N ≥ 1`),
`getSequenceEvolutions` throws the size exception of line 1496 if and only if `probas` is
given and the number of its weights is neither 1 nor `N`, and the exception carries that
number and `N`. When exactly `N` weights are given with `N ≠ 1` they are the ones set on the
mixture; with one weight given, and when `probas` is not given, the mixture is built and no
weight is set on it. -/
theorem mixture_wrong_size_iff (SPC : SubstitutionProcessCollection) (d : Description)
    (hname : d.name = "Mixture") (hne : processNumbers d.args ≠ [])
    (hknown : ∀ p ∈ processNumbers d.args, SPC.hasSubstitutionProcessNumber p = true) :
    ((∃ size nbP, getSequenceEvolution SPC d = .error (Err.wrongSizeOfProbas size nbP)) ↔
      ∃ vprob, d.args.probas = some vprob ∧ vprob.length ≠ 1 ∧
        vprob.length ≠ (processNumbers d.args).length) ∧
    (∀ vprob, d.args.probas = some vprob → vprob.length ≠ 1 →
      vprob.length ≠ (processNumbers d.args).length →
      getSequenceEvolution SPC d
        = .error (Err.wrongSizeOfProbas vprob.length (processNumbers d.args).length)) ∧
    (∀ vprob, d.args.probas = some vprob →
      vprob.length = (processNumbers d.args).length → (processNumbers d.args).length ≠ 1 →
      getSequenceEvolution SPC d
        = .ok (SequenceEvolution.mixture (processNumbers d.args) (some vprob))) ∧
    (∀ vprob, d.args.probas = some vprob → vprob.length = 1 →
      getSequenceEvolution SPC d
        = .ok (SequenceEvolution.mixture (processNumbers d.args) none)) ∧
    (d.args.probas = none →
      getSequenceEvolution SPC d
        = .ok (SequenceEvolution.mixture (processNumbers d.args) none)) := by
  rw [getSequenceEvolution_mixture SPC d hname hne hknown]
  have hlen : (processNumbers d.args).length ≠ 0 := by
    simpa [List.length_eq_zero] using hne
  cases hprobas : d.args.probas with
  | none =>
    simp [mixtureEvolution, vprobSize, mixtureDefaultSize, hprobas,
      getNumberOfSubstitutionProcess, hlen]
  | some vprob =>
    simp only [mixtureEvolution, vprobSize, hprobas, Option.getD_some,
      getNumberOfSubstitutionProcess]
    by_cases h1 : vprob.length = 1
    · simp [h1]
      intro h2
      exact h2.symm
    · by_cases h2 : vprob.length = (processNumbers d.args).length
      · have h3 : ¬ (processNumbers d.args).length = 1 := by rwa [← h2]
        simp [h1, h2, h3]
      · simp [h1, h2]

/-- C3 (amended), on a mixture of the processes 1 and 2 with two weights. -/
theorem mixture_wrong_size_iff_witness :
    getSequenceEvolution exampleCollection mixtureAB
      = .ok (SequenceEvolution.mixture (processNumbers mixtureAB.args) (some [1 / 4, 3 / 4])) :=
  (mixture_wrong_size_iff exampleCollection mixtureAB rfl (by decide)
    (by decide)).2.2.1 [1 / 4, 3 / 4] rfl (by decide) (by decide)

/-- C5, the failing input: in a collection that holds a process 44, the description
`Simple()`, which names no process, is not refused: the evolution is built over process 44,
the value of the character `','` handed to `getIntParameter` as its default at line 1424. -/
theorem simple_without_process_uses_44 :
    getSequenceEvolution exampleCollection simpleNoProcess
      = .ok (SequenceEvolution.oneProcess 44) := by decide

/-- A composite description that names no process is refused (line 1444). -/
theorem composite_without_process_fails (SPC : SubstitutionProcessCollection)
    (d : Description) (hname : d.name ≠ "Simple") (hnone : processNumbers d.args = []) :
    getSequenceEvolution SPC d = .error Err.processCompulsory := by
  simp [getSequenceEvolution, hname, hnone]

/-- A description that names a process unknown to the collection is refused (lines 1426 and
1448). -/
theorem unknown_process_fails (SPC : SubstitutionProcessCollection) (d : Description) :
    (d.name = "Simple" → ∀ value, d.args.process = some value →
      SPC.hasSubstitutionProcessNumber (toSizeT value) = false →
      getSequenceEvolution SPC d = .error (Err.unknownProcess (toSizeT value))) ∧
    (d.name ≠ "Simple" → ∀ p ∈ processNumbers d.args,
      SPC.hasSubstitutionProcessNumber p = false →
      ∃ q, getSequenceEvolution SPC d = .error (Err.unknownProcess q)) := by
  constructor
  · intro hname value hv hunknown
    simp [getSequenceEvolution, hname, hv, getIntParameter, hunknown]
  · intro hname p hp hunknown
    have h1 : (processNumbers d.args).length ≠ 0 := by
      intro h0
      rw [List.length_eq_zero] at h0
      rw [h0] at hp
      cases hp
    cases h2 : firstUnknownProcess SPC (processNumbers d.args) with
    | none =>
      have := (firstUnknownProcess_eq_none SPC _).mp h2 p hp
      rw [hunknown] at this
      cases this
    | some q =>
      exact ⟨q, by simp [getSequenceEvolution, hname, h1, h2]⟩

/-! ### The loop of `getSequenceEvolutions` -/

/-- One entry `process<num>` that is not a process of the collection: `getSequenceEvolutions`
fails as the body of its loop does, and otherwise returns the evolution under `num`. -/
theorem getSequenceEvolutions_single (SPC : SubstitutionProcessCollection) (num : Nat)
    (d : Description) (h : SPC.hasSubstitutionProcessNumber num = false) :
    getSequenceEvolutions SPC [(num, d)]
      = match getSequenceEvolution SPC d with
        | .error e => .error e
        | .ok nEvol => .ok [(num, nEvol)] := by
  simp only [getSequenceEvolutions, getSequenceEvolutionsLoop, h, Bool.false_eq_true, if_false]
  cases getSequenceEvolution SPC d <;> rfl

/-- An entry whose number is a process of the collection is skipped (line 1408). -/
theorem getSequenceEvolutions_skip (SPC : SubstitutionProcessCollection) (num : Nat)
    (d : Description) (rest : List (Nat × Description))
    (h : SPC.hasSubstitutionProcessNumber num = true) :
    getSequenceEvolutions SPC ((num, d) :: rest) = getSequenceEvolutions SPC rest := by
  simp [getSequenceEvolutions, getSequenceEvolutionsLoop, h]

/-! ### Process assembly -/

theorem addSubstitutionProcess_ok (c c1 : SubstitutionProcessCollection) (procNum : Nat)
    (mModBr : List (Nat × List Int)) (nTree nRate : Nat) (nFreq : Option Nat)
    (h : addSubstitutionProcess c procNum mModBr nTree nRate nFreq = .ok c1) :
    c1 = { c with mSubProcess := mapSet procNum ⟨mModBr, nTree, nRate, nFreq⟩ c.mSubProcess }
      ∧ firstUnknownModel c mModBr = none := by
  unfold addSubstitutionProcess at h
  by_cases h1 : c.hasSubstitutionProcessNumber procNum = true
  · simp [h1] at h
  · cases h2 : mapFind nTree c.treeColl with
    | none => simp [h1, h2] at h
    | some tree =>
      by_cases h3 : c.hasDistributionNumber nRate = true
      · cases h4 : firstUnknownModel c mModBr with
        | some n => simp [h1, h2, h3, h4] at h
        | none =>
          cases h5 : nFreq.filter (fun f => !c.hasFrequenciesNumber f) with
          | some f => simp [h1, h2, h3, h4, h5] at h
          | none =>
            simp only [h1, h2, h3, h4, h5] at h
            refine ⟨?_, rfl⟩
            simp only [Bool.not_true, Bool.false_eq_true, if_false] at h
            split at h
            · cases h
              rfl
            · cases h
      · simp [h1, h2, h3] at h

theorem registerProcess_thrown (c : SubstitutionProcessCollection) (procNum : Nat)
    (mModBr : List (Nat × List Int)) (numTree numRate : Nat) (nFreq : Option Nat)
    (h : (registerProcess c procNum mModBr numTree numRate nFreq).thrown ≠ none) :
    (registerProcess c procNum mModBr numTree numRate nFreq).coll = c := by
  unfold registerProcess at h ⊢
  cases hc : addSubstitutionProcess c procNum mModBr numTree numRate nFreq with
  | error e => rfl
  | ok c1 => simp [hc] at h

theorem registerProcess_returns (c : SubstitutionProcessCollection) (procNum : Nat)
    (mModBr : List (Nat × List Int)) (numTree numRate : Nat) (nFreq : Option Nat)
    (h : (registerProcess c procNum mModBr numTree numRate nFreq).thrown = none) :
    (registerProcess c procNum mModBr numTree numRate nFreq).coll
      = { c with
          mSubProcess := mapSet procNum ⟨mModBr, numTree, numRate, nFreq⟩ c.mSubProcess } ∧
      firstUnknownModel c mModBr = none := by
  unfold registerProcess at h ⊢
  cases hc : addSubstitutionProcess c procNum mModBr numTree numRate nFreq with
  | error e => simp [hc] at h
  | ok c1 => exact addSubstitutionProcess_ok _ _ _ _ _ _ _ hc

theorem homogeneousProcess_thrown (c : SubstitutionProcessCollection) (procNum : Nat)
    (args : Args) (tree : ParametrizableTree) (numTree numRate : Nat) (nFreq : Option Nat)
    (h : (homogeneousProcess c procNum args tree numTree numRate nFreq).thrown ≠ none) :
    (homogeneousProcess c procNum args tree numTree numRate nFreq).coll = c := by
  unfold homogeneousProcess at h ⊢
  cases hv : args.model with
  | none => rfl
  | some value =>
    by_cases hm : c.hasModelNumber (toSizeT (getIntParameter (some value) 1)) = true
    · simp only [hv, hm, Bool.not_true, Bool.false_eq_true, if_false] at h ⊢
      exact registerProcess_thrown _ _ _ _ _ _ h
    · simp [hm]

theorem nonhomogeneousProcess_thrown (c : SubstitutionProcessCollection) (procNum : Nat)
    (args : Args) (numTree numRate : Nat) (nFreq : Option Nat)
    (h : (nonhomogeneousProcess c procNum args numTree numRate nFreq).thrown ≠ none) :
    (nonhomogeneousProcess c procNum args numTree numRate nFreq).coll = c := by
  unfold nonhomogeneousProcess at h ⊢
  cases hm : readModels args (args.modelN.length + 1) 1 [] with
  | error e => rfl
  | ok mModBr =>
    simp only [hm] at h ⊢
    exact registerProcess_thrown _ _ _ _ _ _ h

theorem onePerBranchProcess_coll (c : SubstitutionProcessCollection) (args : Args) :
    (onePerBranchProcess c args).coll = c ∧ (onePerBranchProcess c args).thrown ≠ none := by
  unfold onePerBranchProcess
  cases hv : args.model with
  | none => simp
  | some value =>
    by_cases hm : c.hasModelNumber (toSizeT (getIntParameter (some value) 1)) = true <;>
      simp [hm]

theorem readRate_ok (c c1 : SubstitutionProcessCollection) (args : Args) (numRate : Nat)
    (h : readRate c args = .ok (c1, numRate)) :
    ∃ sRate dist, args.rate = some sRate ∧
      mapFind (toSizeT sRate.intPart) c.distColl = some dist ∧
      ((sRate.category = none ∧ c1 = c ∧ numRate = toSizeT sRate.intPart) ∨
        ∃ cat, sRate.category = some cat ∧
          c.hasDistributionNumber (synthesizedRateId (toSizeT sRate.intPart) (toSizeT cat))
            = false ∧
          numRate = synthesizedRateId (toSizeT sRate.intPart) (toSizeT cat) ∧
          c1 = { c with
            distColl := mapSet numRate
              (DiscreteDistribution.constantOfCategory dist (toSizeT cat)) c.distColl }) := by
  unfold readRate at h
  cases hs : args.rate with
  | none => simp [hs] at h
  | some sRate =>
    cases hd : mapFind (toSizeT sRate.intPart) c.distColl with
    | none => simp [hs, hd] at h
    | some dist =>
      refine ⟨sRate, dist, rfl, hd, ?_⟩
      cases hcat : sRate.category with
      | none =>
        simp only [hs, hd, hcat, Except.ok.injEq, Prod.mk.injEq] at h
        exact Or.inl ⟨rfl, h.1.symm, h.2.symm⟩
      | some cat =>
        right
        simp only [hs, hd, hcat, addDistribution] at h
        by_cases hhas : c.hasDistributionNumber
            (synthesizedRateId (toSizeT sRate.intPart) (toSizeT cat)) = true
        · simp [hhas] at h
        · simp only [hhas, Bool.false_eq_true, if_false, Except.ok.injEq,
            Prod.mk.injEq] at h
          refine ⟨cat, rfl, by simpa using hhas, h.2.symm, ?_⟩
          rw [← h.2, ← h.1]

theorem readRate_error_rate (c : SubstitutionProcessCollection) (args : Args) :
    (args.rate = none → readRate c args = .error Err.rateCompulsory) ∧
    (∀ sRate, args.rate = some sRate →
      c.hasDistributionNumber (toSizeT sRate.intPart) = false →
      readRate c args = .error (Err.unknownRate (toSizeT sRate.intPart))) := by
  constructor
  · intro h
    simp [readRate, h]
  · intro sRate h hno
    have : mapFind (toSizeT sRate.intPart) c.distColl = none := by
      simpa [SubstitutionProcessCollection.hasDistributionNumber] using hno
    simp [readRate, h, this]

theorem member_other_name (c : SubstitutionProcessCollection) (procNum : Nat)
    (d : Description) (hname : ¬ IsProcessName d.name) :
    addSubstitutionProcessCollectionMember c procNum d = ⟨c, none⟩ := by
  unfold IsProcessName at hname
  simp only [not_or] at hname
  simp [addSubstitutionProcessCollectionMember, hname]

theorem member_inv (c : SubstitutionProcessCollection) (procNum : Nat) (d : Description)
    (hname : IsProcessName d.name) :
    (d.args.tree = none ∧
      addSubstitutionProcessCollectionMember c procNum d = ⟨c, some Err.treeCompulsory⟩) ∨
    (∃ t, d.args.tree = some t ∧ mapFind (toSizeT t) c.treeColl = none ∧
      addSubstitutionProcessCollectionMember c procNum d
        = ⟨c, some (Err.unknownTree (toSizeT t))⟩) ∨
    (∃ t tree, d.args.tree = some t ∧ mapFind (toSizeT t) c.treeColl = some tree ∧
      ((∃ e, readRate c d.args = .error e ∧
          addSubstitutionProcessCollectionMember c procNum d = ⟨c, some e⟩) ∨
        (∃ c1 numRate, readRate c d.args = .ok (c1, numRate) ∧
          ((∃ e, readRootFreq c1 d.args = .error e ∧
              addSubstitutionProcessCollectionMember c procNum d = ⟨c1, some e⟩) ∨
            (∃ nFreq, readRootFreq c1 d.args = .ok nFreq ∧
              addSubstitutionProcessCollectionMember c procNum d
                = assembleModels c1 procNum d tree (toSizeT t) numRate nFreq))))) := by
  have hrec : ¬ (d.name ≠ "OnePerBranch" ∧ d.name ≠ "Homogeneous" ∧
      d.name ≠ "Nonhomogeneous" ∧ d.name ≠ "NonHomogeneous") := by
    unfold IsProcessName at hname
    tauto
  unfold addSubstitutionProcessCollectionMember
  simp only [hrec, if_false]
  cases ht : d.args.tree with
  | none => exact Or.inl ⟨rfl, rfl⟩
  | some t =>
    right
    simp only [getIntParameter, Option.getD_some]
    cases htree : mapFind (toSizeT t) c.treeColl with
    | none => exact Or.inl ⟨t, rfl, htree, rfl⟩
    | some tree =>
      refine Or.inr ⟨t, tree, rfl, htree, ?_⟩
      cases hr : readRate c d.args with
      | error e => exact Or.inl ⟨e, rfl, rfl⟩
      | ok p =>
        obtain ⟨c1, numRate⟩ := p
        refine Or.inr ⟨c1, numRate, rfl, ?_⟩
        cases hf : readRootFreq c1 d.args with
        | error e => exact Or.inl ⟨e, rfl, by simp only [hf]⟩
        | ok nFreq => exact Or.inr ⟨nFreq, rfl, by simp only [hf]⟩

theorem assembleModels_thrown (c1 : SubstitutionProcessCollection) (procNum : Nat)
    (d : Description) (tree : ParametrizableTree) (numTree numRate : Nat) (nFreq : Option Nat)
    (h : (assembleModels c1 procNum d tree numTree numRate nFreq).thrown ≠ none) :
    (assembleModels c1 procNum d tree numTree numRate nFreq).coll = c1 := by
  unfold assembleModels at h ⊢
  by_cases h1 : d.name = "Homogeneous"
  · simp only [h1, if_true] at h ⊢
    exact homogeneousProcess_thrown _ _ _ _ _ _ _ h
  · by_cases h2 : d.name = "Nonhomogeneous" ∨ d.name = "NonHomogeneous"
    · simp only [h1, h2, if_true, if_false] at h ⊢
      exact nonhomogeneousProcess_thrown _ _ _ _ _ _ h
    · simp only [h1, h2, if_false]
      exact (onePerBranchProcess_coll _ _).1

/-- What a failed call leaves in the collection: everything but the rate distributions is as
before, and the rate distributions are as before or hold in addition the derived distribution
of the reference `r.c`. -/
theorem member_thrown_frame (c : SubstitutionProcessCollection) (procNum : Nat)
    (d : Description)
    (h : (addSubstitutionProcessCollectionMember c procNum d).thrown ≠ none) :
    (addSubstitutionProcessCollectionMember c procNum d).coll = c ∨
      ∃ r cat dist, d.args.rate = some ⟨r, some cat⟩ ∧
        mapFind (toSizeT r) c.distColl = some dist ∧
        c.hasDistributionNumber (synthesizedRateId (toSizeT r) (toSizeT cat)) = false ∧
        (addSubstitutionProcessCollectionMember c procNum d).coll
          = { c with
              distColl := mapSet (synthesizedRateId (toSizeT r) (toSizeT cat))
                (DiscreteDistribution.constantOfCategory dist (toSizeT cat)) c.distColl } := by
  by_cases hname : IsProcessName d.name
  · have hcoll : ∀ c1 numRate, readRate c d.args = .ok (c1, numRate) →
        (addSubstitutionProcessCollectionMember c procNum d).coll = c1 →
        (addSubstitutionProcessCollectionMember c procNum d).coll = c ∨
        ∃ r cat dist, d.args.rate = some ⟨r, some cat⟩ ∧
          mapFind (toSizeT r) c.distColl = some dist ∧
          c.hasDistributionNumber (synthesizedRateId (toSizeT r) (toSizeT cat)) = false ∧
          (addSubstitutionProcessCollectionMember c procNum d).coll
            = { c with
                distColl := mapSet (synthesizedRateId (toSizeT r) (toSizeT cat))
                  (DiscreteDistribution.constantOfCategory dist (toSizeT cat)) c.distColl } := by
      intro c1 numRate hr hc
      obtain ⟨sRate, dist, hs, hd, hcase⟩ := readRate_ok _ _ _ _ hr
      rcases hcase with ⟨-, h1, -⟩ | ⟨cat, hcat, hfresh, hnum, h1⟩
      · left
        rw [hc, h1]
      · right
        refine ⟨sRate.intPart, cat, dist, ?_, hd, hfresh, ?_⟩
        · rw [hs, ← hcat]
        · rw [hc, h1, hnum]
    rcases member_inv c procNum d hname with
      ⟨-, ho⟩ | ⟨t, -, -, ho⟩ | ⟨t, tree, -, -, ⟨e, -, ho⟩ | ⟨c1, numRate, hr, hrest⟩⟩
    · left; rw [ho]
    · left; rw [ho]
    · left; rw [ho]
    · rcases hrest with ⟨e, -, ho⟩ | ⟨nFreq, -, ho⟩
      · exact hcoll c1 numRate hr (by rw [ho])
      · refine hcoll c1 numRate hr ?_
        rw [ho] at h ⊢
        exact assembleModels_thrown _ _ _ _ _ _ _ h
  · left
    rw [member_other_name c procNum d hname]

/-- C8, counterexample: the call for `Homogeneous(tree=1, rate=1.2, model=7)` throws
"unknown model number" after the derived distribution 20002 was added, so the collection is
not what it was before the call. -/
theorem member_failure_changes_collection :
    (addSubstitutionProcessCollectionMember exampleCollection 5 homogeneousUnknownModel).thrown
        = some (Err.unknownModel 7) ∧
      (addSubstitutionProcessCollectionMember exampleCollection 5 homogeneousUnknownModel).coll
        ≠ exampleCollection ∧
      exampleCollection.hasDistributionNumber 20002 = false ∧
      (addSubstitutionProcessCollectionMember exampleCollection 5
        homogeneousUnknownModel).coll.hasDistributionNumber 20002 = true := by
  decide

/-- C8 (amended): when `addSubstitutionProcessCollectionMember` throws, the trees, models,
root-frequency sets and processes of the collection are what they were before the call; the
rate distributions are what they were, or, for a rate reference `r.c`, what they were plus
the derived distribution under `10000*(r+1)+c`; with a rate reference without category the
whole collection is unchanged. -/
theorem member_failure_leaves_collection (c : SubstitutionProcessCollection) (procNum : Nat)
    (d : Description)
    (h : (addSubstitutionProcessCollectionMember c procNum d).thrown ≠ none) :
    (addSubstitutionProcessCollectionMember c procNum d).coll.treeColl = c.treeColl ∧
    (addSubstitutionProcessCollectionMember c procNum d).coll.modelColl = c.modelColl ∧
    (addSubstitutionProcessCollectionMember c procNum d).coll.freqColl = c.freqColl ∧
    (addSubstitutionProcessCollectionMember c procNum d).coll.mSubProcess = c.mSubProcess ∧
    ((addSubstitutionProcessCollectionMember c procNum d).coll.distColl = c.distColl ∨
      ∃ r cat dist, d.args.rate = some ⟨r, some cat⟩ ∧
        mapFind (toSizeT r) c.distColl = some dist ∧
        c.hasDistributionNumber (synthesizedRateId (toSizeT r) (toSizeT cat)) = false ∧
        (addSubstitutionProcessCollectionMember c procNum d).coll.distColl
          = mapSet (synthesizedRateId (toSizeT r) (toSizeT cat))
              (DiscreteDistribution.constantOfCategory dist (toSizeT cat)) c.distColl) ∧
    ((∀ sRate, d.args.rate = some sRate → sRate.category = none) →
      (addSubstitutionProcessCollectionMember c procNum d).coll = c) := by
  rcases member_thrown_frame c procNum d h with h1 | ⟨r, cat, dist, h1, h2, h3, h4⟩
  · rw [h1]
    exact ⟨rfl, rfl, rfl, rfl, Or.inl rfl, fun _ => rfl⟩
  · rw [h4]
    refine ⟨rfl, rfl, rfl, rfl, Or.inr ⟨r, cat, dist, h1, h2, h3, rfl⟩, ?_⟩
    intro hno
    have := hno _ h1
    cases this

/-- C8 (amended), on `Homogeneous(tree=1, rate=1.2, model=7)`. -/
theorem member_failure_leaves_collection_witness :
    (addSubstitutionProcessCollectionMember exampleCollection 5
        homogeneousUnknownModel).coll.mSubProcess = exampleCollection.mSubProcess :=
  (member_failure_leaves_collection exampleCollection 5 homogeneousUnknownModel
    (by decide)).2.2.2.1

theorem readRootFreq_frame (c c1 : SubstitutionProcessCollection) (args : Args)
    (hfreq : c1.freqColl = c.freqColl) :
    (args.root_freq = none → readRootFreq c1 args = .ok none) ∧
    (∀ f, args.root_freq = some f → c.hasFrequenciesNumber (toSizeT f) = false →
      readRootFreq c1 args = .error (Err.unknownRootFreq (toSizeT f))) ∧
    (∀ f, args.root_freq = some f → c.hasFrequenciesNumber (toSizeT f) = true →
      readRootFreq c1 args = .ok (some (toSizeT f))) := by
  refine ⟨?_, ?_, ?_⟩
  · intro h
    simp [readRootFreq, h]
  · intro f h hno
    have : c1.hasFrequenciesNumber (toSizeT f) = false := by
      simpa [SubstitutionProcessCollection.hasFrequenciesNumber, hfreq] using hno
    simp [readRootFreq, h, getIntParameter, this]
  · intro f h hyes
    have : c1.hasFrequenciesNumber (toSizeT f) = true := by
      simpa [SubstitutionProcessCollection.hasFrequenciesNumber, hfreq] using hyes
    simp [readRootFreq, h, getIntParameter, this]

theorem readRate_frame (c c1 : SubstitutionProcessCollection) (args : Args) (numRate : Nat)
    (h : readRate c args = .ok (c1, numRate)) :
    c1.treeColl = c.treeColl ∧ c1.modelColl = c.modelColl ∧ c1.freqColl = c.freqColl ∧
      c1.mSubProcess = c.mSubProcess := by
  obtain ⟨sRate, dist, -, -, hcase⟩ := readRate_ok _ _ _ _ h
  rcases hcase with ⟨-, h1, -⟩ | ⟨cat, -, -, -, h1⟩ <;>
    · rw [h1]
      exact ⟨rfl, rfl, rfl, rfl⟩

theorem refusedFrom_of_thrown (c : SubstitutionProcessCollection) (procNum : Nat)
    (d : Description)
    (h : (addSubstitutionProcessCollectionMember c procNum d).thrown ≠ none) :
    (addSubstitutionProcessCollectionMember c procNum d).RefusedFrom c := by
  refine ⟨h, ?_⟩
  rcases member_thrown_frame c procNum d h with h1 | ⟨r, cat, dist, -, -, -, h4⟩
  · rw [h1]
  · rw [h4]

theorem assembleModels_returns (c1 : SubstitutionProcessCollection) (procNum : Nat)
    (d : Description) (tree : ParametrizableTree) (numTree numRate : Nat) (nFreq : Option Nat)
    (h : (assembleModels c1 procNum d tree numTree numRate nFreq).thrown = none) :
    ∃ mModBr,
      (assembleModels c1 procNum d tree numTree numRate nFreq).coll
        = { c1 with
            mSubProcess :=
              mapSet procNum ⟨mModBr, numTree, numRate, nFreq⟩ c1.mSubProcess } ∧
      firstUnknownModel c1 mModBr = none ∧
      (d.name = "Homogeneous" → ∃ m, d.args.model = some m ∧
        c1.hasModelNumber (toSizeT m) = true ∧
        mModBr = [(toSizeT m, vNodes tree.getNumberOfBranches)]) ∧
      (d.name ≠ "Homogeneous" →
        readModels d.args (d.args.modelN.length + 1) 1 [] = .ok mModBr) := by
  unfold assembleModels at h ⊢
  by_cases h1 : d.name = "Homogeneous"
  · simp only [h1, if_true] at h ⊢
    unfold homogeneousProcess at h ⊢
    cases hv : d.args.model with
    | none => simp [hv] at h
    | some m =>
      by_cases hm : c1.hasModelNumber (toSizeT m) = true
      · simp only [hv, getIntParameter, Option.getD_some, hm, Bool.not_true,
          Bool.false_eq_true, if_false] at h ⊢
        obtain ⟨a1, a2⟩ := registerProcess_returns _ _ _ _ _ _ h
        refine ⟨_, a1, a2, fun _ => ⟨m, rfl, hm, rfl⟩, fun hne => absurd rfl hne⟩
      · simp [hv, getIntParameter, hm] at h
  · by_cases h2 : d.name = "Nonhomogeneous" ∨ d.name = "NonHomogeneous"
    · simp only [h1, h2, if_true, if_false] at h ⊢
      unfold nonhomogeneousProcess at h ⊢
      cases hm : readModels d.args (d.args.modelN.length + 1) 1 [] with
      | error e => simp [hm] at h
      | ok mModBr =>
        simp only [hm] at h ⊢
        obtain ⟨a1, a2⟩ := registerProcess_returns _ _ _ _ _ _ h
        exact ⟨_, a1, a2, fun hh => absurd hh (by simp), fun _ => rfl⟩
    · simp only [h1, h2, if_false] at h
      exact absurd h (onePerBranchProcess_coll _ _).2

theorem member_returns_inv (c : SubstitutionProcessCollection) (procNum : Nat)
    (d : Description) (hname : IsProcessName d.name)
    (h : (addSubstitutionProcessCollectionMember c procNum d).thrown = none) :
    ∃ t tree c1 numRate nFreq, d.args.tree = some t ∧
      mapFind (toSizeT t) c.treeColl = some tree ∧
      readRate c d.args = .ok (c1, numRate) ∧ readRootFreq c1 d.args = .ok nFreq ∧
      addSubstitutionProcessCollectionMember c procNum d
        = assembleModels c1 procNum d tree (toSizeT t) numRate nFreq ∧
      (assembleModels c1 procNum d tree (toSizeT t) numRate nFreq).thrown = none := by
  rcases member_inv c procNum d hname with ⟨-, ho⟩ | ⟨t, -, -, ho⟩ |
    ⟨t, tree, a1, a2, ⟨e, -, ho⟩ | ⟨c1, numRate, hr, ⟨e, -, ho⟩ | ⟨nFreq, a, ho⟩⟩⟩
  · rw [ho] at h; cases h
  · rw [ho] at h; cases h
  · rw [ho] at h; cases h
  · rw [ho] at h; cases h
  · exact ⟨t, tree, c1, numRate, nFreq, a1, a2, hr, a, ho, by rw [← ho]; exact h⟩

/-- C6: for a Homogeneous or Nonhomogeneous description, the call throws and registers no
process when `tree` is missing or names an absent tree, when `rate` is missing or its integer
part names an absent rate distribution, when `root_freq` is given and names an absent
frequencies set, and, for Homogeneous, when `model` is missing or names an absent model; when
`root_freq` is absent, the process that a returning call registers has no root frequencies. -/
theorem process_references_checked (c : SubstitutionProcessCollection) (procNum : Nat)
    (d : Description) (o : Outcome)
    (hname : d.name = "Homogeneous" ∨ d.name = "Nonhomogeneous" ∨ d.name = "NonHomogeneous")
    (ho : addSubstitutionProcessCollectionMember c procNum d = o) :
    (d.args.tree = none → o.RefusedFrom c) ∧
    (∀ t, d.args.tree = some t → c.hasTreeNumber (toSizeT t) = false → o.RefusedFrom c) ∧
    (d.args.rate = none → o.RefusedFrom c) ∧
    (∀ sRate, d.args.rate = some sRate →
      c.hasDistributionNumber (toSizeT sRate.intPart) = false → o.RefusedFrom c) ∧
    (∀ f, d.args.root_freq = some f → c.hasFrequenciesNumber (toSizeT f) = false →
      o.RefusedFrom c) ∧
    (d.name = "Homogeneous" → d.args.model = none → o.RefusedFrom c) ∧
    (d.name = "Homogeneous" → ∀ m, d.args.model = some m →
      c.hasModelNumber (toSizeT m) = false → o.RefusedFrom c) ∧
    (d.args.root_freq = none → o.thrown = none →
      ∃ member, mapFind procNum o.coll.mSubProcess = some member ∧ member.nFreq = none) := by
  subst ho
  have hproc : IsProcessName d.name := by
    unfold IsProcessName
    tauto
  have refuse : ((addSubstitutionProcessCollectionMember c procNum d).thrown = none → False) →
      (addSubstitutionProcessCollectionMember c procNum d).RefusedFrom c :=
    fun hh => refusedFrom_of_thrown c procNum d hh
  refine ⟨?_, ?_, ?_, ?_, ?_, ?_, ?_, ?_⟩
  · intro h
    apply refuse
    intro hret
    obtain ⟨t, tree, c1, numRate, nFreq, a1, -⟩ := member_returns_inv c procNum d hproc hret
    rw [h] at a1
    cases a1
  · intro t h hno
    apply refuse
    intro hret
    obtain ⟨t1, tree, c1, numRate, nFreq, a1, a2, -⟩ :=
      member_returns_inv c procNum d hproc hret
    rw [h] at a1
    cases a1
    simp [SubstitutionProcessCollection.hasTreeNumber, a2] at hno
  · intro h
    apply refuse
    intro hret
    obtain ⟨t, tree, c1, numRate, nFreq, -, -, a3, -⟩ :=
      member_returns_inv c procNum d hproc hret
    rw [(readRate_error_rate c d.args).1 h] at a3
    cases a3
  · intro sRate h hno
    apply refuse
    intro hret
    obtain ⟨t, tree, c1, numRate, nFreq, -, -, a3, -⟩ :=
      member_returns_inv c procNum d hproc hret
    rw [(readRate_error_rate c d.args).2 sRate h hno] at a3
    cases a3
  · intro f h hno
    apply refuse
    intro hret
    obtain ⟨t, tree, c1, numRate, nFreq, -, -, a3, a4, -⟩ :=
      member_returns_inv c procNum d hproc hret
    rw [(readRootFreq_frame c c1 d.args (readRate_frame _ _ _ _ a3).2.2.1).2.1 f h hno] at a4
    cases a4
  · intro hH h
    apply refuse
    intro hret
    obtain ⟨t, tree, c1, numRate, nFreq, -, -, -, -, -, a6⟩ :=
      member_returns_inv c procNum d hproc hret
    obtain ⟨mModBr, -, -, b3, -⟩ := assembleModels_returns _ _ _ _ _ _ _ a6
    obtain ⟨m, hm, -⟩ := b3 hH
    rw [h] at hm
    cases hm
  · intro hH m h hno
    apply refuse
    intro hret
    obtain ⟨t, tree, c1, numRate, nFreq, -, -, a3, -, -, a6⟩ :=
      member_returns_inv c procNum d hproc hret
    obtain ⟨mModBr, -, -, b3, -⟩ := assembleModels_returns _ _ _ _ _ _ _ a6
    obtain ⟨m1, hm1, hm2, -⟩ := b3 hH
    rw [h] at hm1
    cases hm1
    have hmodels := (readRate_frame _ _ _ _ a3).2.1
    simp [SubstitutionProcessCollection.hasModelNumber, hmodels] at hm2 hno
    exact hno hm2
  · intro h hret
    obtain ⟨t, tree, c1, numRate, nFreq, -, -, a3, a4, a5, a6⟩ :=
      member_returns_inv c procNum d hproc hret
    rw [(readRootFreq_frame c c1 d.args (readRate_frame _ _ _ _ a3).2.2.1).1 h] at a4
    cases a4
    obtain ⟨mModBr, b1, -⟩ := assembleModels_returns _ _ _ _ _ _ _ a6
    rw [a5, b1]
    exact ⟨⟨mModBr, toSizeT t, numRate, none⟩, by simp [mapFind_mapSet], rfl⟩

/-- C6, on `Homogeneous(tree=1, rate=1.2, model=7)`, whose model 7 is absent: the call is
refused. -/
theorem process_references_checked_witness :
    (addSubstitutionProcessCollectionMember exampleCollection 5
      homogeneousUnknownModel).RefusedFrom exampleCollection :=
  (process_references_checked exampleCollection 5 homogeneousUnknownModel _ (Or.inl rfl)
    rfl).2.2.2.2.2.2.1 rfl 7 rfl (by decide)

theorem readModels_keys (args : Args) (fuel : Nat) :
    ∀ (ind : Nat) (m m1 : List (Nat × List Int)), readModels args fuel ind m = .ok m1 →
      (∀ k, (mapFind k m).isSome = true → (mapFind k m1).isSome = true) ∧
      (∀ i v, ind ≤ i → i < ind + fuel →
        (∀ j, ind ≤ j → j ≤ i → (mapFind j args.modelN).isSome = true) →
        mapFind i args.modelN = some v → (mapFind (toSizeT v) m1).isSome = true) := by
  induction fuel with
  | zero =>
    intro ind m m1 h
    simp only [readModels, Except.ok.injEq] at h
    subst h
    exact ⟨fun _ hk => hk, fun i v h1 h2 => by omega⟩
  | succ fuel ih =>
    intro ind m m1 h
    unfold readModels at h
    cases hv : mapFind ind args.modelN with
    | none =>
      simp only [hv, Except.ok.injEq] at h
      subst h
      refine ⟨fun _ hk => hk, ?_⟩
      intro i v h1 _ hrun _
      have := hrun ind (Nat.le_refl _) h1
      simp [hv] at this
    | some value =>
      simp only [hv, getIntParameter, Option.getD_some] at h
      by_cases hseen : (mapFind (toSizeT value) m).isSome = true
      · simp [hseen] at h
      · simp only [hseen, Bool.false_eq_true, if_false] at h
        obtain ⟨a1, a2⟩ := ih _ _ _ h
        constructor
        · intro k hk
          apply a1
          rw [mapFind_mapSet]
          by_cases hkv : k = toSizeT value
          · simp [hkv]
          · simpa [hkv] using hk
        · intro i v h1 h2 hrun hiv
          by_cases hi : i = ind
          · subst hi
            rw [hv] at hiv
            cases hiv
            apply a1
            simp [mapFind_mapSet]
          · exact a2 i v (by omega) (by omega) (fun j hj1 hj2 => hrun j (by omega) hj2) hiv

theorem firstUnknownModel_none (c : SubstitutionProcessCollection)
    (m : List (Nat × List Int)) (h : firstUnknownModel c m = none) :
    ∀ k, (mapFind k m).isSome = true → c.hasModelNumber k = true := by
  induction m with
  | nil => intro k hk; simp [mapFind] at hk
  | cons hd tl ih =>
    obtain ⟨k1, v1⟩ := hd
    by_cases hk1 : c.hasModelNumber k1 = true
    · simp only [firstUnknownModel, hk1, if_true] at h
      intro k hk
      by_cases hkk : k = k1
      · rw [hkk]; exact hk1
      · exact ih h k (by simpa [mapFind, hkk] using hk)
    · simp [firstUnknownModel, hk1] at h

theorem firstUnknownModel_some (c : SubstitutionProcessCollection)
    (m : List (Nat × List Int)) (n : Nat) (h : firstUnknownModel c m = some n) :
    c.hasModelNumber n = false := by
  induction m with
  | nil => simp [firstUnknownModel] at h
  | cons hd tl ih =>
    obtain ⟨k1, v1⟩ := hd
    by_cases hk1 : c.hasModelNumber k1 = true
    · simp only [firstUnknownModel, hk1, if_true] at h
      exact ih h
    · simp only [firstUnknownModel, hk1, Bool.false_eq_true, if_false, Option.some.injEq] at h
      subst h
      simpa using hk1

theorem modelRun_lt_fuel (args : Args) (i ind : Nat) (h1 : ind ≤ i)
    (hrun : ∀ j, ind ≤ j → j ≤ i → (mapFind j args.modelN).isSome = true) :
    i < ind + (args.modelN.length + 1) := by
  have := present_le_length args.modelN ind (i + 1 - ind) (fun p hp1 hp2 => by
    have := hrun p hp1 (by omega)
    cases hq : mapFind p args.modelN with
    | none => simp [hq] at this
    | some q => exact ⟨q, rfl⟩)
  omega

theorem readModels_fuel_indep (args : Args) (d : Nat) :
    ∀ (fuel1 fuel2 ind : Nat) (m : List (Nat × List Int)),
      (∀ p, ind ≤ p → p < ind + d → ∃ q, mapFind p args.modelN = some q) →
      mapFind (ind + d) args.modelN = none → d < fuel1 → d < fuel2 →
      readModels args fuel1 ind m = readModels args fuel2 ind m := by
  induction d with
  | zero =>
    intro fuel1 fuel2 ind m _ hnone h1 h2
    obtain ⟨f1, rfl⟩ : ∃ f, fuel1 = f + 1 := ⟨fuel1 - 1, by omega⟩
    obtain ⟨f2, rfl⟩ : ∃ f, fuel2 = f + 1 := ⟨fuel2 - 1, by omega⟩
    simp only [Nat.add_zero] at hnone
    simp [readModels, hnone]
  | succ d ih =>
    intro fuel1 fuel2 ind m hsome hnone h1 h2
    obtain ⟨f1, rfl⟩ : ∃ f, fuel1 = f + 1 := ⟨fuel1 - 1, by omega⟩
    obtain ⟨f2, rfl⟩ : ∃ f, fuel2 = f + 1 := ⟨fuel2 - 1, by omega⟩
    obtain ⟨q, hq⟩ := hsome ind (Nat.le_refl _) (by omega)
    have hnone1 : mapFind (ind + 1 + d) args.modelN = none := by
      have : ind + 1 + d = ind + (d + 1) := by omega
      rw [this]; exact hnone
    have hsome1 : ∀ p, ind + 1 ≤ p → p < ind + 1 + d → ∃ q, mapFind p args.modelN = some q :=
      fun p hp1 hp2 => hsome p (by omega) (by omega)
    simp only [readModels, hq]
    rw [ih f1 f2 (ind + 1) _ hsome1 hnone1 (by omega) (by omega)]

/-- The loop of lines 1149-1161 leaves by itself: every number of iterations above the number
of `model<i>` keys gives the same result. -/
theorem readModels_fuel (args : Args) (fuel ind : Nat) (m : List (Nat × List Int))
    (h : args.modelN.length < fuel) :
    readModels args fuel ind m = readModels args (args.modelN.length + 1) ind m := by
  obtain ⟨d, hd1, hd2, hd3⟩ := exists_first_absent args.modelN ind
  exact readModels_fuel_indep args d _ _ ind m hd3 hd2 (by omega) (by omega)

/-- C7: for a Nonhomogeneous description in which `model<i>` belongs to the run `model1`,
`model2`, ... read by the loop and names a model number that is not registered, the call
throws and registers no process; when nothing else is wrong with the description (tree, rate
and root frequencies are read, no model number is seen twice, the process number is new),
what is thrown is the reference error of the collection, for a model number that is not
registered. -/
theorem nonhomogeneous_models_checked (c : SubstitutionProcessCollection) (procNum : Nat)
    (d : Description) (hname : d.name = "Nonhomogeneous" ∨ d.name = "NonHomogeneous")
    (i : Nat) (v : Int) (hi : 1 ≤ i)
    (hrun : ∀ j, 1 ≤ j → j ≤ i → (mapFind j d.args.modelN).isSome = true)
    (hv : mapFind i d.args.modelN = some v)
    (hunknown : c.hasModelNumber (toSizeT v) = false) :
    (addSubstitutionProcessCollectionMember c procNum d).RefusedFrom c ∧
    (∀ t tree c1 numRate nFreq mModBr, d.args.tree = some t →
      mapFind (toSizeT t) c.treeColl = some tree → readRate c d.args = .ok (c1, numRate) →
      readRootFreq c1 d.args = .ok nFreq →
      readModels d.args (d.args.modelN.length + 1) 1 [] = .ok mModBr →
      c.hasSubstitutionProcessNumber procNum = false →
      ∃ n, c.hasModelNumber n = false ∧
        addSubstitutionProcessCollectionMember c procNum d
          = ⟨c1, some (Err.reference n)⟩) := by
  have hproc : IsProcessName d.name := by
    unfold IsProcessName
    tauto
  have hnh : d.name ≠ "Homogeneous" := by
    rcases hname with h | h <;> rw [h] <;> decide
  have hkey : ∀ c1 numRate mModBr, readRate c d.args = .ok (c1, numRate) →
      readModels d.args (d.args.modelN.length + 1) 1 [] = .ok mModBr →
      ∃ n, firstUnknownModel c1 mModBr = some n ∧ c.hasModelNumber n = false := by
    intro c1 numRate mModBr hr hm
    have hmodels := (readRate_frame _ _ _ _ hr).2.1
    have hin := (readModels_keys d.args _ 1 [] mModBr hm).2 i v hi
      (modelRun_lt_fuel d.args i 1 hi hrun) hrun hv
    cases hfu : firstUnknownModel c1 mModBr with
    | none =>
      have := firstUnknownModel_none c1 mModBr hfu _ hin
      simp [SubstitutionProcessCollection.hasModelNumber, hmodels] at this hunknown
      exact absurd this hunknown
    | some n =>
      refine ⟨n, rfl, ?_⟩
      have := firstUnknownModel_some c1 mModBr n hfu
      simpa [SubstitutionProcessCollection.hasModelNumber, hmodels] using this
  constructor
  · apply refusedFrom_of_thrown
    intro hret
    obtain ⟨t, tree, c1, numRate, nFreq, -, -, a3, -, -, a6⟩ :=
      member_returns_inv c procNum d hproc hret
    obtain ⟨mModBr, -, b2, -, b4⟩ := assembleModels_returns _ _ _ _ _ _ _ a6
    obtain ⟨n, hn, -⟩ := hkey c1 numRate mModBr a3 (b4 hnh)
    rw [hn] at b2
    cases b2
  · intro t tree c1 numRate nFreq mModBr ht htree hr hf hm hnew
    obtain ⟨n, hn, hn2⟩ := hkey c1 numRate mModBr hr hm
    refine ⟨n, hn2, ?_⟩
    obtain ⟨f1, -, f3, f4⟩ := readRate_frame _ _ _ _ hr
    have hnew1 : c1.hasSubstitutionProcessNumber procNum = false := by
      simpa [SubstitutionProcessCollection.hasSubstitutionProcessNumber, f4] using hnew
    have htree1 : mapFind (toSizeT t) c1.treeColl = some tree := by rw [f1]; exact htree
    have hdist : c1.hasDistributionNumber numRate = true := by
      obtain ⟨sRate, dist, -, hd, hcase⟩ := readRate_ok _ _ _ _ hr
      rcases hcase with ⟨-, h1, h2⟩ | ⟨cat, -, -, -, h1⟩
      · rw [h1, h2]
        simp [SubstitutionProcessCollection.hasDistributionNumber, hd]
      · rw [h1]
        simp [SubstitutionProcessCollection.hasDistributionNumber, mapFind_mapSet]
    have hrec : ¬ (d.name ≠ "OnePerBranch" ∧ d.name ≠ "Homogeneous" ∧
        d.name ≠ "Nonhomogeneous" ∧ d.name ≠ "NonHomogeneous") := by
      unfold IsProcessName at hproc
      tauto
    simp only [addSubstitutionProcessCollectionMember, hrec, if_false, ht, getIntParameter,
      Option.getD_some, htree, hr, hf, assembleModels, hnh, hname, if_true,
      nonhomogeneousProcess, hm, registerProcess, addSubstitutionProcess, hnew1,
      Bool.false_eq_true, htree1, hdist, Bool.not_true, hn]

/-- C7, on `Nonhomogeneous(tree=1, rate=1, model1=1, model2=9)`, whose model 9 is absent. -/
theorem nonhomogeneous_models_checked_witness :
    (addSubstitutionProcessCollectionMember exampleCollection 5
      nonhomogeneousUnknownModel).RefusedFrom exampleCollection :=
  (nonhomogeneous_models_checked exampleCollection 5 nonhomogeneousUnknownModel (Or.inl rfl)
    2 9 (by decide) (by decide) rfl (by decide)).1

/-- The call for `Nonhomogeneous(tree=1, rate=1, model1=1, model2=9)` throws the reference
error of the collection for model 9. -/
theorem nonhomogeneousUnknownModel_refused :
    addSubstitutionProcessCollectionMember exampleCollection 5 nonhomogeneousUnknownModel
      = ⟨exampleCollection, some (Err.reference 9)⟩ := by decide

/-! ### The Homogeneous assignment and the synthesized rate ids -/

theorem vNodes_length (n : Nat) : (vNodes n).length = n := by
  simp [vNodes]

theorem vNodes_nodup (n : Nat) : (vNodes n).Nodup := by
  unfold vNodes
  exact (List.nodup_range n).map (fun a b h => Int.ofNat.inj h)

theorem vNodes_getElem (n i : Nat) (h : i < n) : (vNodes n)[i]? = some (i : Int) := by
  simp [vNodes, List.getElem?_range h]

/-- C10: for a Homogeneous description whose tree, rate, root frequencies and model are
accepted, the call ends with `addSubstitutionProcess` on a model assignment of exactly one
entry, from the model number to the list `0, 1, ..., n-1`, `n` being the number of branches
of the tree: the list has length `n`, holds no id twice and its entry `i` is `i`; a returning
call has registered the process with this assignment. -/
theorem homogeneous_assignment (c : SubstitutionProcessCollection) (procNum : Nat)
    (d : Description) (hname : d.name = "Homogeneous") (t : Int) (tree : ParametrizableTree)
    (c1 : SubstitutionProcessCollection) (numRate : Nat) (nFreq : Option Nat) (m : Int)
    (ht : d.args.tree = some t) (htree : mapFind (toSizeT t) c.treeColl = some tree)
    (hr : readRate c d.args = .ok (c1, numRate)) (hf : readRootFreq c1 d.args = .ok nFreq)
    (hm : d.args.model = some m) (hmodel : c.hasModelNumber (toSizeT m) = true) :
    addSubstitutionProcessCollectionMember c procNum d
        = registerProcess c1 procNum [(toSizeT m, vNodes tree.getNumberOfBranches)]
            (toSizeT t) numRate nFreq ∧
      (vNodes tree.getNumberOfBranches).length = tree.getNumberOfBranches ∧
      (vNodes tree.getNumberOfBranches).Nodup ∧
      (∀ i, i < tree.getNumberOfBranches →
        (vNodes tree.getNumberOfBranches)[i]? = some (i : Int)) ∧
      ((addSubstitutionProcessCollectionMember c procNum d).thrown = none →
        mapFind procNum (addSubstitutionProcessCollectionMember c procNum d).coll.mSubProcess
          = some ⟨[(toSizeT m, vNodes tree.getNumberOfBranches)], toSizeT t, numRate,
              nFreq⟩) := by
  have hrec : ¬ (d.name ≠ "OnePerBranch" ∧ d.name ≠ "Homogeneous" ∧
      d.name ≠ "Nonhomogeneous" ∧ d.name ≠ "NonHomogeneous") := by
    simp [hname]
  have hmodel1 : c1.hasModelNumber (toSizeT m) = true := by
    have := (readRate_frame _ _ _ _ hr).2.1
    simpa [SubstitutionProcessCollection.hasModelNumber, this] using hmodel
  have heq : addSubstitutionProcessCollectionMember c procNum d
      = registerProcess c1 procNum [(toSizeT m, vNodes tree.getNumberOfBranches)]
          (toSizeT t) numRate nFreq := by
    rw [addSubstitutionProcessCollectionMember, if_neg hrec]
    simp only [ht, getIntParameter, Option.getD_some, htree, hr, hf, assembleModels, hname,
      if_true, homogeneousProcess, hm, hmodel1, Bool.not_true, Bool.false_eq_true, if_false,
      mapSet]
  refine ⟨heq, vNodes_length _, vNodes_nodup _, fun i hi => vNodes_getElem _ i hi, ?_⟩
  intro hret
  rw [heq] at hret ⊢
  rw [(registerProcess_returns _ _ _ _ _ _ hret).1]
  simp [mapFind_mapSet]

/-- C10, on `Homogeneous(tree=1, rate=1, model=2)`: the process 5 is registered with model 2
on the branches 0 and 1. -/
theorem homogeneous_assignment_witness :
    mapFind 5 (addSubstitutionProcessCollectionMember exampleCollection 5
        homogeneousValid).coll.mSubProcess
      = some ⟨[(toSizeT 2, vNodes (ParametrizableTree.getNumberOfBranches ⟨[0, 1]⟩))],
          toSizeT 1, 1, none⟩ :=
  (homogeneous_assignment exampleCollection 5 homogeneousValid rfl 1 ⟨[0, 1]⟩
    exampleCollection 1 none 2 rfl (by decide) (by decide) (by decide) rfl
    (by decide)).2.2.2.2 (by decide)

theorem toSizeT_natCast (n : Nat) (h : n < 2 ^ 64) : toSizeT (n : Int) = n := by
  unfold toSizeT
  have h1 : ((n : Int) % 2 ^ 64) = (n : Int) :=
    Int.emod_eq_of_lt (Int.ofNat_nonneg n) (by exact_mod_cast h)
  rw [h1]
  simp

theorem synthesizedRateId_natCast (n k : Nat) (hn : n < 2 ^ 31) (hk : k < 10000) :
    synthesizedRateId (toSizeT (n : Int)) (toSizeT (k : Int)) = 10000 * (n + 1) + k := by
  have h31 : (2 : Nat) ^ 31 = 2147483648 := by norm_num
  have h64 : (2 : Nat) ^ 64 = 18446744073709551616 := by norm_num
  rw [toSizeT_natCast n (by omega), toSizeT_natCast k (by omega)]
  unfold synthesizedRateId wrapSizeT
  apply Nat.mod_eq_of_lt
  omega

/-- C9, counterexample: the references `0.10000` and `1.0` receive the same id 20000, and
with a user-declared rate distribution 20000 the reference `1.0` receives the number of that
distribution, so that the collection refuses the derived distribution. -/
theorem synthesized_id_collides :
    readRate collectionManyCategories { rate := some ⟨0, some 10000⟩ }
        = .ok (⟨[(1, ⟨[0, 1]⟩)],
            [(0, DiscreteDistribution.declared 10001), (1, DiscreteDistribution.declared 1),
              (20000, DiscreteDistribution.constantOfCategory
                (DiscreteDistribution.declared 10001) 10000)],
            [1, 2], [1], []⟩, 20000) ∧
      readRate collectionManyCategories { rate := some ⟨1, some 0⟩ }
        = .ok (⟨[(1, ⟨[0, 1]⟩)],
            [(0, DiscreteDistribution.declared 10001), (1, DiscreteDistribution.declared 1),
              (20000, DiscreteDistribution.constantOfCategory
                (DiscreteDistribution.declared 1) 0)],
            [1, 2], [1], []⟩, 20000) ∧
      collectionRate20000.hasDistributionNumber 20000 = true ∧
      addSubstitutionProcessCollectionMember collectionRate20000 1 homogeneousRate1Cat0
        = ⟨collectionRate20000, some (Err.duplicateId 20000)⟩ := by
  refine ⟨by rfl, by rfl, by rfl, by rfl⟩

/-- C9 (amended): for a rate reference `r.c` with `0 ≤ r < 2^31` and `0 ≤ c < 10000`, the
synthesized id is `10000*(r+1)+c`; it is at least 10000, hence differs from every number
below 10000; two such references with the same id are the same reference; and when the tree
is accepted, `r` is registered and the id is not yet in use, the call leaves the derived
distribution of category `c` registered under that id, next to the distributions that were
there. -/
theorem synthesized_id_bounded (r cat : Int) (hr0 : 0 ≤ r) (hr1 : r < 2 ^ 31)
    (hc0 : 0 ≤ cat) (hc1 : cat < 10000) :
    synthesizedRateId (toSizeT r) (toSizeT cat) = 10000 * (r.toNat + 1) + cat.toNat ∧
    10000 ≤ synthesizedRateId (toSizeT r) (toSizeT cat) ∧
    (∀ r1 cat1 : Int, 0 ≤ r1 → r1 < 2 ^ 31 → 0 ≤ cat1 → cat1 < 10000 →
      synthesizedRateId (toSizeT r1) (toSizeT cat1)
        = synthesizedRateId (toSizeT r) (toSizeT cat) → r1 = r ∧ cat1 = cat) ∧
    (∀ (c : SubstitutionProcessCollection) (procNum : Nat) (d : Description) (t : Int)
      (tree : ParametrizableTree) (dist : DiscreteDistribution),
      IsProcessName d.name → d.args.rate = some ⟨r, some cat⟩ → d.args.tree = some t →
      mapFind (toSizeT t) c.treeColl = some tree →
      mapFind (toSizeT r) c.distColl = some dist →
      c.hasDistributionNumber (synthesizedRateId (toSizeT r) (toSizeT cat)) = false →
      (addSubstitutionProcessCollectionMember c procNum d).coll.distColl
        = mapSet (synthesizedRateId (toSizeT r) (toSizeT cat))
            (DiscreteDistribution.constantOfCategory dist (toSizeT cat)) c.distColl) := by
  obtain ⟨n, rfl⟩ := Int.eq_ofNat_of_zero_le hr0
  obtain ⟨k, rfl⟩ := Int.eq_ofNat_of_zero_le hc0
  have hn : n < 2 ^ 31 := by exact_mod_cast hr1
  have hk : k < 10000 := by exact_mod_cast hc1
  rw [synthesizedRateId_natCast n k hn hk]
  refine ⟨by simp, by omega, ?_, ?_⟩
  · intro r1 cat1 a1 a2 a3 a4 heq
    obtain ⟨n1, rfl⟩ := Int.eq_ofNat_of_zero_le a1
    obtain ⟨k1, rfl⟩ := Int.eq_ofNat_of_zero_le a3
    have hn1 : n1 < 2 ^ 31 := by exact_mod_cast a2
    have hk1 : k1 < 10000 := by exact_mod_cast a4
    rw [synthesizedRateId_natCast n1 k1 hn1 hk1] at heq
    have : n1 = n ∧ k1 = k := by omega
    exact ⟨by rw [this.1], by rw [this.2]⟩
  · intro c procNum d t tree dist hname hrate ht htree hdist hfresh
    rw [← synthesizedRateId_natCast n k hn hk] at hfresh ⊢
    have hread : readRate c d.args
        = .ok ({ c with
            distColl := mapSet (synthesizedRateId (toSizeT (n : Int)) (toSizeT (k : Int)))
              (DiscreteDistribution.constantOfCategory dist (toSizeT (k : Int))) c.distColl },
          synthesizedRateId (toSizeT (n : Int)) (toSizeT (k : Int))) := by
      simp [readRate, hrate, hdist, addDistribution, hfresh]
    have hgen : ∀ (c1 : SubstitutionProcessCollection) (tree1 : ParametrizableTree)
        (numTree numRate : Nat) (nFreq : Option Nat),
        c1.distColl
          = (assembleModels c1 procNum d tree1 numTree numRate nFreq).coll.distColl := by
      intro c1 tree1 numTree numRate nFreq
      by_cases hth : (assembleModels c1 procNum d tree1 numTree numRate nFreq).thrown = none
      · obtain ⟨mModBr, b1, -⟩ := assembleModels_returns _ _ _ _ _ _ _ hth
        rw [b1]
      · rw [assembleModels_thrown _ _ _ _ _ _ _ hth]
    rcases member_inv c procNum d hname with ⟨a, -⟩ | ⟨t1, a1, a2, -⟩ |
      ⟨t1, tree1, -, -, ⟨e, a, -⟩ | ⟨c1, numRate, hr, ⟨e, -, ho⟩ | ⟨nFreq, -, ho⟩⟩⟩
    · rw [ht] at a; cases a
    · rw [ht] at a1; cases a1
      rw [htree] at a2; cases a2
    · rw [hread] at a; cases a
    · rw [hread] at hr; cases hr
      rw [ho]
    · rw [hread] at hr; cases hr
      rw [ho]
      exact (hgen _ _ _ _ _).symm

/-- C9 (amended), on the reference `1.2`: the id is `10000*(1+1)+2`. -/
theorem synthesized_id_bounded_witness :
    synthesizedRateId (toSizeT 1) (toSizeT 2) = 10000 * ((1 : Int).toNat + 1) + (2 : Int).toNat :=
  (synthesized_id_bounded 1 2 (by decide) (by decide) (by decide) (by decide)).1

/-! ### Branch partitions and the OnePerBranch branch -/

theorem addSubstitutionProcess_cases (c : SubstitutionProcessCollection) (procNum : Nat)
    (mModBr : List (Nat × List Int)) (nTree nRate : Nat) (nFreq : Option Nat)
    (tree : ParametrizableTree)
    (hnew : c.hasSubstitutionProcessNumber procNum = false)
    (htree : mapFind nTree c.treeColl = some tree)
    (hrate : c.hasDistributionNumber nRate = true)
    (hmodels : firstUnknownModel c mModBr = none)
    (hfreq : ∀ f, nFreq = some f → c.hasFrequenciesNumber f = true) :
    addSubstitutionProcess c procNum mModBr nTree nRate nFreq
      = if PartitionsBranches mModBr tree then
          .ok { c with
            mSubProcess := mapSet procNum ⟨mModBr, nTree, nRate, nFreq⟩ c.mSubProcess }
        else .error Err.structural := by
  have hf : nFreq.filter (fun f => !c.hasFrequenciesNumber f) = none := by
    cases nFreq with
    | none => rfl
    | some f => simp [Option.filter, hfreq f rfl]
  unfold addSubstitutionProcess
  simp only [hnew, Bool.false_eq_true, if_false, htree, hrate, Bool.not_true, hmodels, hf]
  by_cases hp : PartitionsBranches mModBr tree
  · rw [if_pos hp]
    unfold PartitionsBranches at hp
    rw [if_pos hp]
  · rw [if_neg hp]
    unfold PartitionsBranches at hp
    rw [if_neg hp]

theorem addSubstitutionProcess_ok_partition (c c1 : SubstitutionProcessCollection)
    (procNum : Nat) (mModBr : List (Nat × List Int)) (nTree nRate : Nat) (nFreq : Option Nat)
    (h : addSubstitutionProcess c procNum mModBr nTree nRate nFreq = .ok c1) :
    ∃ tree, mapFind nTree c.treeColl = some tree ∧ PartitionsBranches mModBr tree := by
  unfold addSubstitutionProcess at h
  by_cases h1 : c.hasSubstitutionProcessNumber procNum = true
  · simp [h1] at h
  · cases h2 : mapFind nTree c.treeColl with
    | none => simp [h1, h2] at h
    | some tree =>
      refine ⟨tree, rfl, ?_⟩
      by_cases h3 : c.hasDistributionNumber nRate = true
      · cases h4 : firstUnknownModel c mModBr with
        | some n => simp [h1, h2, h3, h4] at h
        | none =>
          cases h5 : nFreq.filter (fun f => !c.hasFrequenciesNumber f) with
          | some f => simp [h1, h2, h3, h4, h5] at h
          | none =>
            simp only [h1, h2, h3, h4, h5] at h
            simp only [Bool.not_true, Bool.false_eq_true, if_false] at h
            by_contra hp
            unfold PartitionsBranches at hp
            rw [if_neg hp] at h
            cases h
      · simp [h1, h2, h3] at h

theorem registerProcess_returns_partition (c : SubstitutionProcessCollection) (procNum : Nat)
    (mModBr : List (Nat × List Int)) (numTree numRate : Nat) (nFreq : Option Nat)
    (h : (registerProcess c procNum mModBr numTree numRate nFreq).thrown = none) :
    ∃ tree, mapFind numTree c.treeColl = some tree ∧ PartitionsBranches mModBr tree := by
  unfold registerProcess at h
  cases hc : addSubstitutionProcess c procNum mModBr numTree numRate nFreq with
  | error e => simp [hc] at h
  | ok c1 => exact addSubstitutionProcess_ok_partition _ _ _ _ _ _ _ hc

theorem assembleModels_returns_partition (c1 : SubstitutionProcessCollection) (procNum : Nat)
    (d : Description) (tree : ParametrizableTree) (numTree numRate : Nat) (nFreq : Option Nat)
    (h : (assembleModels c1 procNum d tree numTree numRate nFreq).thrown = none) :
    ∃ mModBr tree1,
      (assembleModels c1 procNum d tree numTree numRate nFreq).coll
        = { c1 with
            mSubProcess :=
              mapSet procNum ⟨mModBr, numTree, numRate, nFreq⟩ c1.mSubProcess } ∧
      mapFind numTree c1.treeColl = some tree1 ∧ PartitionsBranches mModBr tree1 := by
  unfold assembleModels at h ⊢
  by_cases h1 : d.name = "Homogeneous"
  · simp only [h1, if_true] at h ⊢
    unfold homogeneousProcess at h ⊢
    cases hv : d.args.model with
    | none => simp [hv] at h
    | some m =>
      by_cases hm : c1.hasModelNumber (toSizeT m) = true
      · simp only [hv, getIntParameter, Option.getD_some, hm, Bool.not_true,
          Bool.false_eq_true, if_false] at h ⊢
        obtain ⟨tree1, a1, a2⟩ := registerProcess_returns_partition _ _ _ _ _ _ h
        exact ⟨_, tree1, (registerProcess_returns _ _ _ _ _ _ h).1, a1, a2⟩
      · simp [hv, getIntParameter, hm] at h
  · by_cases h2 : d.name = "Nonhomogeneous" ∨ d.name = "NonHomogeneous"
    · simp only [h1, h2, if_true, if_false] at h ⊢
      unfold nonhomogeneousProcess at h ⊢
      cases hm : readModels d.args (d.args.modelN.length + 1) 1 [] with
      | error e => simp [hm] at h
      | ok mModBr =>
        simp only [hm] at h ⊢
        obtain ⟨tree1, a1, a2⟩ := registerProcess_returns_partition _ _ _ _ _ _ h
        exact ⟨_, tree1, (registerProcess_returns _ _ _ _ _ _ h).1, a1, a2⟩
    · simp only [h1, h2, if_false] at h
      exact absurd h (onePerBranchProcess_coll _ _).2

theorem readRate_hasDistribution (c c1 : SubstitutionProcessCollection) (args : Args)
    (numRate : Nat) (hr : readRate c args = .ok (c1, numRate)) :
    c1.hasDistributionNumber numRate = true := by
  obtain ⟨sRate, dist, -, hd, hcase⟩ := readRate_ok _ _ _ _ hr
  rcases hcase with ⟨-, h1, h2⟩ | ⟨cat, -, -, -, h1⟩
  · rw [h1, h2]
    simp [SubstitutionProcessCollection.hasDistributionNumber, hd]
  · rw [h1]
    simp [SubstitutionProcessCollection.hasDistributionNumber, mapFind_mapSet]

theorem readRootFreq_ok_known (c1 : SubstitutionProcessCollection) (args : Args)
    (nFreq : Option Nat) (hf : readRootFreq c1 args = .ok nFreq) :
    ∀ f, nFreq = some f → c1.hasFrequenciesNumber f = true := by
  intro f hnf
  unfold readRootFreq at hf
  cases hv : args.root_freq with
  | none =>
    simp only [hv, Except.ok.injEq] at hf
    rw [hnf] at hf
    cases hf
  | some value =>
    simp only [hv, getIntParameter, Option.getD_some] at hf
    by_cases hh : c1.hasFrequenciesNumber (toSizeT value) = true
    · simp only [hh, Bool.not_true, Bool.false_eq_true, if_false, Except.ok.injEq] at hf
      rw [hnf] at hf
      cases hf
      exact hh
    · simp [hh] at hf

theorem firstUnknownModel_congr (c c1 : SubstitutionProcessCollection)
    (h : c1.modelColl = c.modelColl) (m : List (Nat × List Int)) :
    firstUnknownModel c1 m = firstUnknownModel c m := by
  induction m with
  | nil => rfl
  | cons hd tl ih =>
    obtain ⟨k, v⟩ := hd
    simp only [firstUnknownModel, SubstitutionProcessCollection.hasModelNumber, h, ih]

/-- What the Nonhomogeneous branch does once the tree, the rate, the root frequencies and the
model blocks are read, the process number is new and all model numbers are registered. -/
theorem nonhomogeneous_member_eq (c : SubstitutionProcessCollection) (procNum : Nat)
    (d : Description) (hname : d.name = "Nonhomogeneous" ∨ d.name = "NonHomogeneous")
    (t : Int) (tree : ParametrizableTree) (c1 : SubstitutionProcessCollection)
    (numRate : Nat) (nFreq : Option Nat) (mModBr : List (Nat × List Int))
    (ht : d.args.tree = some t) (htree : mapFind (toSizeT t) c.treeColl = some tree)
    (hr : readRate c d.args = .ok (c1, numRate)) (hf : readRootFreq c1 d.args = .ok nFreq)
    (hm : readModels d.args (d.args.modelN.length + 1) 1 [] = .ok mModBr)
    (hnew : c.hasSubstitutionProcessNumber procNum = false)
    (hmodels : firstUnknownModel c mModBr = none) :
    addSubstitutionProcessCollectionMember c procNum d
      = if PartitionsBranches mModBr tree then
          ⟨{ c1 with
              mSubProcess :=
                mapSet procNum ⟨mModBr, toSizeT t, numRate, nFreq⟩ c1.mSubProcess }, none⟩
        else ⟨c1, some Err.structural⟩ := by
  have hnh : d.name ≠ "Homogeneous" := by
    rcases hname with h | h <;> rw [h] <;> decide
  have hrec : ¬ (d.name ≠ "OnePerBranch" ∧ d.name ≠ "Homogeneous" ∧
      d.name ≠ "Nonhomogeneous" ∧ d.name ≠ "NonHomogeneous") := by
    tauto
  obtain ⟨f1, f2, -, f4⟩ := readRate_frame _ _ _ _ hr
  have hnew1 : c1.hasSubstitutionProcessNumber procNum = false := by
    simpa [SubstitutionProcessCollection.hasSubstitutionProcessNumber, f4] using hnew
  have htree1 : mapFind (toSizeT t) c1.treeColl = some tree := by rw [f1]; exact htree
  have hmodels1 : firstUnknownModel c1 mModBr = none := by
    rw [firstUnknownModel_congr c c1 f2]; exact hmodels
  have hadd := addSubstitutionProcess_cases c1 procNum mModBr (toSizeT t) numRate nFreq tree
    hnew1 htree1 (readRate_hasDistribution _ _ _ _ hr) hmodels1
    (readRootFreq_ok_known _ _ _ hf)
  rw [addSubstitutionProcessCollectionMember, if_neg hrec]
  simp only [ht, getIntParameter, Option.getD_some, htree, hr, hf, assembleModels, hnh,
    hname, if_true, if_false, nonhomogeneousProcess, hm, registerProcess, hadd]
  by_cases hp : PartitionsBranches mModBr tree
  · simp only [hp, if_true]
  · simp only [hp, if_false]

/-- C11: every process that `addSubstitutionProcessCollectionMember` registers has a model
assignment whose branch lists hold each branch id of the referenced tree exactly once; and a
Nonhomogeneous description with registered model numbers in which a branch id is claimed
twice, or a branch is claimed by no block, is refused with the structural error of the
collection and no process is registered. -/
theorem registered_assignment_partitions (c : SubstitutionProcessCollection) (procNum : Nat)
    (d : Description) :
    (IsProcessName d.name →
      (addSubstitutionProcessCollectionMember c procNum d).thrown = none →
      ∃ member tree,
        mapFind procNum (addSubstitutionProcessCollectionMember c procNum d).coll.mSubProcess
          = some member ∧
        mapFind member.nTree c.treeColl = some tree ∧
        ((member.mModBr.map Prod.snd).flatten).Nodup ∧
        (∀ b ∈ (member.mModBr.map Prod.snd).flatten, b ∈ tree.branchIds) ∧
        (∀ b ∈ tree.branchIds, ((member.mModBr.map Prod.snd).flatten).count b = 1)) ∧
    (d.name = "Nonhomogeneous" ∨ d.name = "NonHomogeneous" →
      ∀ t tree c1 numRate nFreq mModBr, d.args.tree = some t →
        mapFind (toSizeT t) c.treeColl = some tree → readRate c d.args = .ok (c1, numRate) →
        readRootFreq c1 d.args = .ok nFreq →
        readModels d.args (d.args.modelN.length + 1) 1 [] = .ok mModBr →
        c.hasSubstitutionProcessNumber procNum = false →
        firstUnknownModel c mModBr = none →
        ¬ (((mModBr.map Prod.snd).flatten).Nodup ∧
            (∀ b ∈ (mModBr.map Prod.snd).flatten, b ∈ tree.branchIds) ∧
            (∀ b ∈ tree.branchIds, b ∈ (mModBr.map Prod.snd).flatten)) →
        addSubstitutionProcessCollectionMember c procNum d = ⟨c1, some Err.structural⟩ ∧
          (addSubstitutionProcessCollectionMember c procNum d).RefusedFrom c) := by
  constructor
  · intro hname hret
    obtain ⟨t, tree, c1, numRate, nFreq, -, -, a3, -, a5, a6⟩ :=
      member_returns_inv c procNum d hname hret
    obtain ⟨mModBr, tree1, b1, b2, b3, b4, b5⟩ :=
      assembleModels_returns_partition _ _ _ _ _ _ _ a6
    rw [(readRate_frame _ _ _ _ a3).1] at b2
    refine ⟨⟨mModBr, toSizeT t, numRate, nFreq⟩, tree1, ?_, b2, b3, b4, ?_⟩
    · rw [a5, b1]
      simp [mapFind_mapSet]
    · intro b hb
      exact List.count_eq_one_of_mem b3 (b5 b hb)
  · intro hname t tree c1 numRate nFreq mModBr ht htree hr hf hm hnew hmodels hnot
    have heq := nonhomogeneous_member_eq c procNum d hname t tree c1 numRate nFreq mModBr
      ht htree hr hf hm hnew hmodels
    have hnp : ¬ PartitionsBranches mModBr tree := hnot
    rw [if_neg hnp] at heq
    refine ⟨heq, ?_⟩
    apply refusedFrom_of_thrown
    rw [heq]
    simp

/-- C11, on `Nonhomogeneous(tree=1, rate=1, model1=1, model1.nodes_id=(0,1), model2=2,
model2.nodes_id=(1))`, in which branch 1 is claimed twice: the call is refused with the
structural error. -/
theorem registered_assignment_partitions_witness :
    addSubstitutionProcessCollectionMember exampleCollection 5 nonhomogeneousOverlap
        = ⟨exampleCollection, some Err.structural⟩ ∧
      (addSubstitutionProcessCollectionMember exampleCollection 5
        nonhomogeneousOverlap).RefusedFrom exampleCollection :=
  (registered_assignment_partitions exampleCollection 5 nonhomogeneousOverlap).2 (Or.inl rfl)
    1 ⟨[0, 1]⟩ exampleCollection 1 none [(1, [0, 1]), (2, [1])] rfl (by decide) (by decide)
    (by decide) (by decide) (by decide) (by decide) (by decide)

/-- The description in which branch 1 is claimed by no block is refused with the structural
error. -/
theorem nonhomogeneousUncovered_refused :
    addSubstitutionProcessCollectionMember exampleCollection 5 nonhomogeneousUncovered
      = ⟨exampleCollection, some Err.structural⟩ := by decide

/-- C12, counterexample: for `OnePerBranch(tree=1, rate=1, model=1)`, whose tree, rate and
model all exist, the call throws "OnePerBranch option not implemented yet" and registers
nothing. -/
theorem onePerBranch_not_built :
    addSubstitutionProcessCollectionMember exampleCollection 5 onePerBranchValid
        = ⟨exampleCollection, some Err.onePerBranchNotImplemented⟩ ∧
      exampleCollection.hasTreeNumber 1 = true ∧
      exampleCollection.hasDistributionNumber 1 = true ∧
      exampleCollection.hasModelNumber 1 = true := by decide

/-- C12 (amended): every OnePerBranch description is refused and no process is registered;
when its tree, rate, root frequencies and model are accepted, what is thrown is "OnePerBranch
option not implemented yet" (line 1190). -/
theorem onePerBranch_refused (c : SubstitutionProcessCollection) (procNum : Nat)
    (d : Description) (hname : d.name = "OnePerBranch") :
    (addSubstitutionProcessCollectionMember c procNum d).RefusedFrom c ∧
    (∀ t tree c1 numRate nFreq m, d.args.tree = some t →
      mapFind (toSizeT t) c.treeColl = some tree → readRate c d.args = .ok (c1, numRate) →
      readRootFreq c1 d.args = .ok nFreq → d.args.model = some m →
      c.hasModelNumber (toSizeT m) = true →
      addSubstitutionProcessCollectionMember c procNum d
        = ⟨c1, some Err.onePerBranchNotImplemented⟩) := by
  have hproc : IsProcessName d.name := Or.inl hname
  have h1 : d.name ≠ "Homogeneous" := by rw [hname]; decide
  have h2 : ¬ (d.name = "Nonhomogeneous" ∨ d.name = "NonHomogeneous") := by
    rw [hname]; decide
  constructor
  · apply refusedFrom_of_thrown
    intro hret
    obtain ⟨t, tree, c1, numRate, nFreq, -, -, -, -, -, a6⟩ :=
      member_returns_inv c procNum d hproc hret
    unfold assembleModels at a6
    simp only [h1, h2, if_false] at a6
    exact (onePerBranchProcess_coll _ _).2 a6
  · intro t tree c1 numRate nFreq m ht htree hr hf hm hmodel
    have hrec : ¬ (d.name ≠ "OnePerBranch" ∧ d.name ≠ "Homogeneous" ∧
        d.name ≠ "Nonhomogeneous" ∧ d.name ≠ "NonHomogeneous") := by
      simp [hname]
    have hmodel1 : c1.hasModelNumber (toSizeT m) = true := by
      have := (readRate_frame _ _ _ _ hr).2.1
      simpa [SubstitutionProcessCollection.hasModelNumber, this] using hmodel
    rw [addSubstitutionProcessCollectionMember, if_neg hrec]
    simp only [ht, getIntParameter, Option.getD_some, htree, hr, hf, assembleModels, h1, h2,
      if_false, onePerBranchProcess, hm, hmodel1, Bool.not_true, Bool.false_eq_true]

/-- C12 (amended), on `OnePerBranch(tree=1, rate=1, model=1)`. -/
theorem onePerBranch_refused_witness :
    (addSubstitutionProcessCollectionMember exampleCollection 5
      onePerBranchValid).RefusedFrom exampleCollection :=
  (onePerBranch_refused exampleCollection 5 onePerBranchValid rfl).1

/-! ### The numbered loaders -/

theorem getRateDistributionsLoop_find {D : Type} (entries : List (RateEntry D)) :
    ∀ (mDist : List (Nat × D)) (n : Nat),
      mapFind n (getRateDistributionsLoop entries mDist)
        = match entries.reverse.find? (fun e => decide (entryNumber e.suffixNumber 0 = n)) with
          | some e => some e.dist
          | none => mapFind n mDist := by
  induction entries with
  | nil => intro mDist n; rfl
  | cons e rest ih =>
    intro mDist n
    simp only [getRateDistributionsLoop, List.reverse_cons, List.find?_append]
    rw [ih]
    cases hf : rest.reverse.find? (fun e => decide (entryNumber e.suffixNumber 0 = n)) with
    | some e1 => simp
    | none =>
      by_cases hn : entryNumber e.suffixNumber 0 = n
      · simp [List.find?, hn, mapFind_mapSet]
      · have hn1 : ¬ n = entryNumber e.suffixNumber 0 := fun h => hn h.symm
        simp [List.find?, hn, hn1, mapFind_mapSet]

theorem getRateDistributionsLoop_length {D : Type} (entries : List (RateEntry D)) :
    ∀ (mDist : List (Nat × D)), entries ≠ [] ∨ mDist ≠ [] →
      (getRateDistributionsLoop entries mDist).length ≠ 0 := by
  induction entries with
  | nil =>
    intro mDist h
    rcases h with h | h
    · exact absurd rfl h
    · simpa [getRateDistributionsLoop, List.length_eq_zero] using h
  | cons e rest ih =>
    intro mDist _
    simp only [getRateDistributionsLoop]
    apply ih
    right
    intro hnil
    have : mapFind (entryNumber e.suffixNumber 0)
        (mapSet (entryNumber e.suffixNumber 0) e.dist mDist) = some e.dist := by
      simp [mapFind_mapSet]
    rw [hnil] at this
    cases this

theorem getSubstitutionModelsLoop_find {M : Type} (read : Nat → M) (modelsNum : List Nat) :
    ∀ (mModel : List (Nat × M)) (n : Nat),
      mapFind n (getSubstitutionModelsLoop read modelsNum mModel)
        = if n ∈ modelsNum then some (read n) else mapFind n mModel := by
  induction modelsNum with
  | nil => intro mModel n; simp [getSubstitutionModelsLoop]
  | cons k rest ih =>
    intro mModel n
    simp only [getSubstitutionModelsLoop]
    rw [ih, mapFind_mapSet]
    by_cases h1 : n ∈ rest
    · simp [h1]
    · by_cases h2 : n = k
      · simp [h2]
      · simp [h1, h2]

theorem assignFileTrees_find {T : Type} (trees : List T) :
    ∀ (i2 : Nat) (mTree : List (Nat × T)) (k : Nat),
      mapFind k (assignFileTrees trees i2 mTree)
        = if i2 < k ∧ k ≤ i2 + trees.length then trees[k - i2 - 1]? else mapFind k mTree := by
  induction trees with
  | nil =>
    intro i2 mTree k
    have : ¬ (i2 < k ∧ k ≤ i2 + ([] : List T).length) := by
      simp only [List.length_nil]
      omega
    rw [if_neg this]
    rfl
  | cons t rest ih =>
    intro i2 mTree k
    simp only [assignFileTrees, List.length_cons]
    rw [ih, mapFind_mapSet]
    by_cases h1 : i2 + 1 < k ∧ k ≤ i2 + 1 + rest.length
    · have h2 : i2 < k ∧ k ≤ i2 + (rest.length + 1) := by omega
      have h3 : k - i2 - 1 = (k - (i2 + 1) - 1) + 1 := by omega
      rw [if_pos h1, if_pos h2, h3, List.getElem?_cons_succ]
    · rw [if_neg h1]
      by_cases h4 : k = i2 + 1
      · have h2 : i2 < k ∧ k ≤ i2 + (rest.length + 1) := by omega
        have h3 : k - i2 - 1 = 0 := by omega
        rw [if_pos h4, if_pos h2, h3]
        simp
      · have h2 : ¬ (i2 < k ∧ k ≤ i2 + (rest.length + 1)) := by omega
        rw [if_neg h4, if_neg h2]

/-- C13, counterexample: two `tree*` entries, two `rate_distribution*` entries and two
`model*` keys that resolve to the number 1 are loaded without any failure, and the map holds
the later tree and the later distribution under 1. -/
theorem loaders_accept_duplicates :
    getTrees [⟨some 1, TreeSource.user true ["first"], false⟩,
        ⟨some 1, TreeSource.user true ["second"], false⟩] = .ok [(1, "second")] ∧
      getRateDistributions [⟨some 1, "first"⟩, ⟨some 1, "second"⟩] "default"
        = [(1, "second")] ∧
      getSubstitutionModels false [1, 1] (fun n => (n, "read")) = .ok [(1, (1, "read"))] := by
  decide

/-- C13 (amended): an entry that resolves to a number already held in the map being built
does not make the load fail: the new object is stored under that number in place of the
earlier one, and the objects under other numbers are kept. For `getTrees` this is the case
of a numbered `user` entry with one tree, of a `random` entry, and of an unnumbered `user`
entry, whose trees go under 1, 2, ...; for `getRateDistributions` the last entry of a number
is the one in the result; for `getSubstitutionModels` every number found holds the model
read from its key. -/
theorem loaders_replace {T D M : Type} :
    (∀ (mTree : List (Nat × T)) (z : Int) (t : T) (k : Nat),
      ∃ m1, getTreesEntry mTree ⟨some z, TreeSource.user true [t], false⟩ = .ok m1 ∧
        mapFind k m1 = if k = toSizeT z then some t else mapFind k mTree) ∧
    (∀ (mTree : List (Nat × T)) (z : Int) (t : T) (k : Nat),
      ∃ m1, getTreesEntry mTree ⟨some z, TreeSource.random true t, false⟩ = .ok m1 ∧
        mapFind k m1 = if k = toSizeT z then some t else mapFind k mTree) ∧
    (∀ (mTree : List (Nat × T)) (trees : List T) (k : Nat),
      ∃ m1, getTreesEntry mTree ⟨none, TreeSource.user true trees, false⟩ = .ok m1 ∧
        mapFind k m1
          = if 0 < k ∧ k ≤ 0 + trees.length then trees[k - 0 - 1]? else mapFind k mTree) ∧
    (∀ (entries : List (RateEntry D)) (defaultDist : D) (n : Nat), entries ≠ [] →
      mapFind n (getRateDistributions entries defaultDist)
        = (entries.reverse.find? (fun e => decide (entryNumber e.suffixNumber 0 = n))).map
            (fun e => e.dist)) ∧
    (∀ (modelsNum : List Nat) (read : Nat → M) (n : Nat),
      ∃ m, getSubstitutionModels false modelsNum read = .ok m ∧
        mapFind n m = if n ∈ modelsNum then some (read n) else none) := by
  refine ⟨?_, ?_, ?_, ?_, ?_⟩
  · intro mTree z t k
    exact ⟨mapSet (toSizeT z) t mTree, by simp [getTreesEntry, entryNumber],
      mapFind_mapSet _ _ _ _⟩
  · intro mTree z t k
    exact ⟨mapSet (toSizeT z) t mTree, by simp [getTreesEntry, entryNumber],
      mapFind_mapSet _ _ _ _⟩
  · intro mTree trees k
    exact ⟨assignFileTrees trees 0 mTree, by simp [getTreesEntry],
      assignFileTrees_find trees 0 mTree k⟩
  · intro entries defaultDist n hne
    unfold getRateDistributions
    simp only [getRateDistributionsLoop_length entries [] (Or.inl hne), if_false]
    rw [getRateDistributionsLoop_find]
    cases entries.reverse.find? (fun e => decide (entryNumber e.suffixNumber 0 = n)) <;> rfl
  · intro modelsNum read n
    refine ⟨getSubstitutionModelsLoop read modelsNum [], by simp [getSubstitutionModels], ?_⟩
    rw [getSubstitutionModelsLoop_find]
    rfl

/-- C13 (amended), on two rate distributions numbered 1: the later one is in the result. -/
theorem loaders_replace_witness :
    mapFind 1 (getRateDistributions [⟨some 1, "first"⟩, ⟨some 1, "second"⟩] "default")
      = ([(⟨some 1, "first"⟩ : RateEntry String), ⟨some 1, "second"⟩].reverse.find?
          (fun e => decide (entryNumber e.suffixNumber 0 = 1))).map (fun e => e.dist) :=
  (@loaders_replace String String String).2.2.2.1 [⟨some 1, "first"⟩, ⟨some 1, "second"⟩]
    "default" 1 (by decide)

/-! ### Alias directives -/

theorem startsWith_iff (pat s : List Char) :
    startsWith pat s = true ↔ ∃ rest, s = pat ++ rest := by
  induction pat generalizing s with
  | nil => simp [startsWith]
  | cons p ps ih =>
    cases s with
    | nil => simp [startsWith]
    | cons c cs =>
      simp only [startsWith, Bool.and_eq_true, decide_eq_true_eq, ih, List.cons_append,
        List.cons.injEq]
      constructor
      · rintro ⟨hpc, rest, hrest⟩
        exact ⟨rest, hpc.symm, hrest⟩
      · rintro ⟨rest, hpc, hrest⟩
        exact ⟨hpc.symm, rest, hrest⟩

/-- What `strFind` answers: `none` exactly when `pat` does not occur, and otherwise the length
of the shortest text that stands before an occurrence. -/
theorem strFind_spec (pat s : List Char) :
    match strFind pat s with
    | none => ∀ pre post, s ≠ pre ++ pat ++ post
    | some i => (∃ post, s = s.take i ++ pat ++ post ∧ i ≤ s.length) ∧
        ∀ pre post, s = pre ++ pat ++ post → i ≤ pre.length := by
  induction s with
  | nil =>
    by_cases hp : pat = []
    · simp [strFind, hp]
    · simp only [strFind, if_neg hp]
      intro pre post h
      have := congrArg List.length h
      simp only [List.length_nil, List.length_append] at this
      have hl : 0 < pat.length := List.length_pos.mpr hp
      omega
  | cons c cs ih =>
    by_cases hs : startsWith pat (c :: cs) = true
    · simp only [strFind, if_pos hs]
      obtain ⟨rest, hrest⟩ := (startsWith_iff pat (c :: cs)).mp hs
      exact ⟨⟨rest, by simpa using hrest, Nat.zero_le _⟩, fun _ _ _ => Nat.zero_le _⟩
    · simp only [strFind, if_neg hs]
      have hnot : ∀ post, c :: cs ≠ pat ++ post := fun post h =>
        hs ((startsWith_iff pat (c :: cs)).mpr ⟨post, h⟩)
      cases hf : strFind pat cs with
      | none =>
        rw [hf] at ih
        simp only [Option.map_none']
        intro pre post h
        cases pre with
        | nil => exact hnot post (by simpa using h)
        | cons a pre1 =>
          simp only [List.cons_append, List.cons.injEq] at h
          exact ih pre1 post (by simpa using h.2)
      | some i =>
        rw [hf] at ih
        simp only [Option.map_some']
        obtain ⟨⟨post, hpost, hle⟩, hmin⟩ := ih
        refine ⟨⟨post, ?_, by simpa using hle⟩, ?_⟩
        · simp only [List.take_succ_cons, List.cons_append, List.cons.injEq, true_and]
          simpa using hpost
        · intro pre post1 h
          cases pre with
          | nil => exact absurd (by simpa using h) (hnot post1)
          | cons a pre1 =>
            simp only [List.cons_append, List.cons.injEq] at h
            have := hmin pre1 post1 (by simpa using h.2)
            simpa using this

theorem smapFind_smapSet (k k1 v : String) (m : List (String × String)) :
    smapFind k (smapSet k1 v m) = if k = k1 then some v else smapFind k m := by
  induction m with
  | nil => simp [smapSet, smapFind]
  | cons e rest ih =>
    obtain ⟨k2, v2⟩ := e
    by_cases h12 : k1 = k2
    · subst h12
      by_cases hk : k = k1
      · simp [smapSet, smapFind, hk]
      · simp [smapSet, smapFind, hk]
    · by_cases hk2 : k = k2
      · subst hk2
        have : ¬ k = k1 := fun h => h12 h.symm
        simp [smapSet, smapFind, h12, this]
      · simp [smapSet, smapFind, h12, hk2, ih]

/-- The two parts of a token that `splitAlias` accepts: the token is the first part, the
characters `->` and the second part, and no occurrence of `->` starts earlier. -/
theorem splitAlias_some (t p1 p2 : String) (h : splitAlias t = some (p1, p2)) :
    t.data = p1.data ++ ['-', '>'] ++ p2.data ∧
      ∀ pre post, t.data = pre ++ ['-', '>'] ++ post → p1.data.length ≤ pre.length := by
  unfold splitAlias at h
  have hspec := strFind_spec ['-', '>'] t.data
  cases hf : strFind ['-', '>'] t.data with
  | none => rw [hf] at h; simp at h
  | some i =>
    rw [hf] at h hspec
    simp only [Option.some.injEq, Prod.mk.injEq] at h
    obtain ⟨⟨post, hpost, hle⟩, hmin⟩ := hspec
    obtain ⟨h1, h2⟩ := h
    subst h1 h2
    have hlen : (t.data.take i).length = i := by
      rw [List.length_take]; exact Nat.min_eq_left hle
    refine ⟨?_, ?_⟩
    · have hdrop : t.data.drop (i + 2) = post := by
        have h3 : t.data.drop (i + 2)
            = (List.take i t.data ++ ['-', '>'] ++ post).drop (i + 2) := by
          rw [← hpost]
        rw [h3]
        exact List.drop_left' (by simp [hlen])
      show t.data = t.data.take i ++ ['-', '>'] ++ t.data.drop (i + 2)
      rw [hdrop]
      exact hpost
    · intro pre post1 hp
      show (t.data.take i).length ≤ pre.length
      rw [hlen]
      exact hmin pre post1 hp

theorem splitAlias_none (t : String) :
    splitAlias t = none ↔ ∀ pre post, t.data ≠ pre ++ ['-', '>'] ++ post := by
  unfold splitAlias
  have hspec := strFind_spec ['-', '>'] t.data
  cases hf : strFind ['-', '>'] t.data with
  | none => rw [hf] at hspec; simpa using hspec
  | some i =>
    rw [hf] at hspec
    obtain ⟨⟨post, hpost, _⟩, _⟩ := hspec
    simp only [reduceCtorEq, false_iff, not_forall, not_not]
    exact ⟨_, post, hpost⟩

theorem readAliases_error_iff (tokens : List String) (m : List (String × String)) :
    (∃ e, readAliases tokens m = .error e) ↔ ∃ t ∈ tokens, splitAlias t = none := by
  induction tokens generalizing m with
  | nil => simp [readAliases]
  | cons t rest ih =>
    cases hs : splitAlias t with
    | none => simp [readAliases, hs]
    | some p =>
      obtain ⟨p1, p2⟩ := p
      simp only [readAliases, hs, ih, List.mem_cons, exists_eq_or_imp, reduceCtorEq, false_or]

theorem readAliases_ok_find (tokens : List String) (m m1 : List (String × String))
    (h : readAliases tokens m = .ok m1) (key : String) :
    smapFind key m1
      = match tokens.reverse.find? (fun t => decide ((splitAlias t).map Prod.fst = some key)) with
        | some t => (splitAlias t).map Prod.snd
        | none => smapFind key m := by
  induction tokens generalizing m with
  | nil =>
    simp only [readAliases, Except.ok.injEq] at h
    subst h
    rfl
  | cons t rest ih =>
    cases hs : splitAlias t with
    | none => simp [readAliases, hs] at h
    | some p =>
      obtain ⟨p1, p2⟩ := p
      simp only [readAliases, hs] at h
      rw [ih _ h, List.reverse_cons, List.find?_append]
      cases hf : rest.reverse.find?
          (fun t => decide ((splitAlias t).map Prod.fst = some key)) with
      | some t1 => rfl
      | none =>
        simp only [Option.none_or, List.find?_cons, List.find?_nil, hs, Option.map_some',
          Option.some.injEq, smapFind_smapSet]
        by_cases hk : p1 = key
        · simp [hk, hs]
        · have hk1 : ¬ key = p1 := fun h1 => hk h1.symm
          simp [hk, hk1, hs]

/-- C14: the alias loop fails exactly when some token does not contain `->`. When it
returns, every token is its source, the characters `->` and its target, with no `->` starting
before the end of the source; the map that is handed on holds, under every key, the target of
the last token whose source is that key, and what it held before under a key that is the
source of no token. The token `model2.kappa->model1.kappa` has source `model2.kappa` and
target `model1.kappa`. -/
theorem alias_directives (tokens : List String) (unparsedParams : List (String × String)) :
    ((∃ e, readAliases tokens unparsedParams = .error e)
        ↔ ∃ t ∈ tokens, ∀ pre post, t.data ≠ pre ++ ['-', '>'] ++ post) ∧
      (∀ m1, readAliases tokens unparsedParams = .ok m1 →
        (∀ t ∈ tokens, ∃ source target, splitAlias t = some (source, target) ∧
          t.data = source.data ++ ['-', '>'] ++ target.data ∧
          ∀ pre post, t.data = pre ++ ['-', '>'] ++ post → source.data.length ≤ pre.length) ∧
        ∀ key, smapFind key m1
          = match tokens.reverse.find?
                (fun t => decide ((splitAlias t).map Prod.fst = some key)) with
            | some t => (splitAlias t).map Prod.snd
            | none => smapFind key unparsedParams) ∧
      splitAlias "model2.kappa->model1.kappa" = some ("model2.kappa", "model1.kappa") ∧
      readAliases ["model2.kappa->model1.kappa"] [] = .ok [("model2.kappa", "model1.kappa")] := by
  refine ⟨?_, ?_, by decide, by decide⟩
  · rw [readAliases_error_iff]
    constructor
    · rintro ⟨t, ht, hs⟩
      exact ⟨t, ht, (splitAlias_none t).mp hs⟩
    · rintro ⟨t, ht, hs⟩
      exact ⟨t, ht, (splitAlias_none t).mpr hs⟩
  · intro m1 h
    refine ⟨?_, readAliases_ok_find tokens unparsedParams m1 h⟩
    intro t ht
    cases hs : splitAlias t with
    | none =>
      have : ∃ e, readAliases tokens unparsedParams = .error e :=
        (readAliases_error_iff tokens unparsedParams).mpr ⟨t, ht, hs⟩
      obtain ⟨e, he⟩ := this
      rw [he] at h
      exact absurd h (by simp)
    | some p =>
      obtain ⟨p1, p2⟩ := p
      exact ⟨p1, p2, rfl, splitAlias_some t p1 p2 hs⟩

/-- C14 on the tokens `a->b`, `c->d`, `a->e` read into a map that holds `x`: the loop returns,
and under `a` the result holds the target of the last token whose source is `a`. -/
theorem alias_directives_witness :
    readAliases ["a->b", "c->d", "a->e"] [("x", "y")]
        = .ok [("x", "y"), ("a", "e"), ("c", "d")] ∧
      smapFind "a" [("x", "y"), ("a", "e"), ("c", "d")]
        = match ["a->b", "c->d", "a->e"].reverse.find?
              (fun t => decide ((splitAlias t).map Prod.fst = some "a")) with
          | some t => (splitAlias t).map Prod.snd
          | none => smapFind "a" [("x", "y")] :=
  ⟨by decide,
    ((alias_directives ["a->b", "c->d", "a->e"] [("x", "y")]).2.1
      [("x", "y"), ("a", "e"), ("c", "d")] (by decide)).2 "a"⟩

/-! ### Explicit paths of a mixed model set -/

theorem strFind_single_none (c : Char) (s : List Char) (h : strFind [c] s = none) : c ∉ s := by
  have hspec := strFind_spec [c] s
  rw [h] at hspec
  intro hmem
  obtain ⟨pre, post, hs⟩ := List.append_of_mem hmem
  exact hspec pre post (by simpa using hs)

theorem strFind_single_some (c : Char) (s : List Char) (i : Nat) (h : strFind [c] s = some i) :
    c ∈ s := by
  have hspec := strFind_spec [c] s
  rw [h] at hspec
  obtain ⟨⟨post, hpost, _⟩, _⟩ := hspec
  rw [hpost]
  simp

theorem addToHyperNode_frame (set : MixedSubstitutionModelSet) (nM : Nat) (vnS : List Int) :
    (addToHyperNode set nM vnS).models = set.models ∧
      (addToHyperNode set nM vnS).hyperNodes.length = set.hyperNodes.length := by
  simp [addToHyperNode]

/-- What one element leaves behind: the models and the number of hypernodes are kept, and
when no exception is thrown the element holds both brackets and names a mixed model. -/
theorem addPathElement_inv (toInt : String → Int)
    (getSubmodelNumbers : Nat → String → Option (List Int))
    (set : MixedSubstitutionModelSet) (submodel : String) :
    (addPathElement toInt getSubmodelNumbers set submodel).1.models = set.models ∧
      (addPathElement toInt getSubmodelNumbers set submodel).1.hyperNodes.length
        = set.hyperNodes.length ∧
      ((addPathElement toInt getSubmodelNumbers set submodel).2 = none →
        '[' ∈ submodel.data ∧ ']' ∈ submodel.data ∧
          NamesMixedModel toInt set.models submodel) := by
  unfold addPathElement
  cases ho : strFind ['['] submodel.data with
  | none => simp
  | some indexo =>
    cases hf : strFind [']'] submodel.data with
    | none => simp
    | some indexf =>
      simp only []
      cases h5 : substr submodel.data 5 (subSizeT indexo 5) with
      | none => simp
      | some numText =>
        simp only []
        cases hp : substr submodel.data (indexo + 1) (subSizeT (subSizeT indexf indexo) 1) with
        | none => simp
        | some p2 =>
          simp only []
          cases hm : set.models[toSizeT (toInt (String.mk numText) - 1)]? with
          | none => simp
          | some model =>
            cases model with
            | none => simp
            | some weights =>
              simp only []
              cases hg : getSubmodelNumbers (toSizeT (toInt (String.mk numText) - 1))
                  (String.mk p2) with
              | none => simp
              | some submodnb =>
                refine ⟨(addToHyperNode_frame _ _ _).1, (addToHyperNode_frame _ _ _).2, ?_⟩
                intro _
                exact ⟨strFind_single_some _ _ _ ho, strFind_single_some _ _ _ hf,
                  indexo, numText, weights, ho, h5, hm⟩

theorem addPathElements_inv (toInt : String → Int)
    (getSubmodelNumbers : Nat → String → Option (List Int))
    (tokens : List String) (set : MixedSubstitutionModelSet) :
    (addPathElements toInt getSubmodelNumbers tokens set).1.models = set.models ∧
      (addPathElements toInt getSubmodelNumbers tokens set).1.hyperNodes.length
        = set.hyperNodes.length ∧
      ((addPathElements toInt getSubmodelNumbers tokens set).2 = none →
        ∀ submodel ∈ tokens, '[' ∈ submodel.data ∧ ']' ∈ submodel.data ∧
          NamesMixedModel toInt set.models submodel) := by
  induction tokens generalizing set with
  | nil => simp [addPathElements]
  | cons t rest ih =>
    have h1 := addPathElement_inv toInt getSubmodelNumbers set t
    rw [addPathElements]
    cases hr : addPathElement toInt getSubmodelNumbers set t with
    | mk set1 thrown =>
      rw [hr] at h1
      cases thrown with
      | some e => exact ⟨h1.1, h1.2.1, fun h => by simp at h⟩
      | none =>
        simp only []
        have h2 := ih set1
        simp only [] at h1
        rw [h1.1, h1.2.1] at h2
        refine ⟨h2.1, h2.2.1, fun hnone submodel hmem => ?_⟩
        rcases List.mem_cons.mp hmem with heq | hin
        · subst heq
          exact h1.2.2 trivial
        · exact h2.2.2 hnone submodel hin

theorem addPaths_append (toInt : String → Int)
    (getSubmodelNumbers : Nat → String → Option (List Int)) (st : String → List String)
    (before rest : List String) (set : MixedSubstitutionModelSet) :
    addPaths toInt getSubmodelNumbers st (before ++ rest) set
      = match addPaths toInt getSubmodelNumbers st before set with
        | (set1, some e) => (set1, some e)
        | (set1, none) => addPaths toInt getSubmodelNumbers st rest set1 := by
  induction before generalizing set with
  | nil => simp [addPaths]
  | cons d ds ih =>
    simp only [List.cons_append, addPaths]
    cases hr : addPathElements toInt getSubmodelNumbers (st d) (addEmptyHyperNode set) with
    | mk set1 thrown =>
      cases thrown with
      | some e => rfl
      | none =>
        simp only []
        by_cases hc : lastIsComplete set1 = true
        · simp only [hc, if_true]
          exact ih set1
        · simp only [hc]
          rfl

/-- A path that throws ends the loop: what follows it is not read. -/
theorem addPaths_thrown_first (toInt : String → Int)
    (getSubmodelNumbers : Nat → String → Option (List Int)) (st : String → List String)
    (desc : String) (rest : List String) (set : MixedSubstitutionModelSet)
    (h : (addPaths toInt getSubmodelNumbers st [desc] set).2 ≠ none) :
    addPaths toInt getSubmodelNumbers st (desc :: rest) set
      = addPaths toInt getSubmodelNumbers st [desc] set := by
  simp only [addPaths] at h ⊢
  cases hr : addPathElements toInt getSubmodelNumbers (st desc) (addEmptyHyperNode set) with
  | mk set1 thrown =>
    rw [hr] at h
    cases thrown with
    | some e => rfl
    | none =>
      simp only [] at h ⊢
      by_cases hc : lastIsComplete set1 = true
      · simp [hc] at h
      · simp [hc]

theorem addPaths_single (toInt : String → Int)
    (getSubmodelNumbers : Nat → String → Option (List Int)) (st : String → List String)
    (desc : String) (set : MixedSubstitutionModelSet) :
    addPaths toInt getSubmodelNumbers st [desc] set
      = match addPathElements toInt getSubmodelNumbers (st desc) (addEmptyHyperNode set) with
        | (set1, some e) => (set1, some e)
        | (set1, none) =>
          if lastIsComplete set1 then (set1, none)
          else (set1, some (MixedErr.incompletePath desc)) := by
  simp only [addPaths]

theorem addPaths_inv (toInt : String → Int)
    (getSubmodelNumbers : Nat → String → Option (List Int)) (st : String → List String)
    (descs : List String) (set : MixedSubstitutionModelSet) :
    (addPaths toInt getSubmodelNumbers st descs set).1.models = set.models ∧
      ((addPaths toInt getSubmodelNumbers st descs set).2 = none →
        (addPaths toInt getSubmodelNumbers st descs set).1.hyperNodes.length
          = set.hyperNodes.length + descs.length) := by
  induction descs generalizing set with
  | nil => simp [addPaths]
  | cons d ds ih =>
    have h1 := addPathElements_inv toInt getSubmodelNumbers (st d) (addEmptyHyperNode set)
    rw [addPaths]
    cases hr : addPathElements toInt getSubmodelNumbers (st d) (addEmptyHyperNode set) with
    | mk set1 thrown =>
      rw [hr] at h1
      have hm : set1.models = set.models := h1.1
      have hl : set1.hyperNodes.length = set.hyperNodes.length + 1 := by
        rw [h1.2.1]; simp [addEmptyHyperNode]
      cases thrown with
      | some e => exact ⟨hm, fun h => by simp at h⟩
      | none =>
        simp only []
        by_cases hc : lastIsComplete set1 = true
        · simp only [hc, if_true]
          have h2 := ih set1
          refine ⟨h2.1.trans hm, fun hn => ?_⟩
          rw [h2.2 hn, hl, List.length_cons]
          omega
        · simp only [hc]
          exact ⟨hm, fun h => by simp at h⟩

/-- The call from the path at which the loop stands: when the earlier paths were read
without an exception and this one throws, the call ends as the reading of this path ends. -/
theorem completeMixed_thrown_at (toInt : String → Int)
    (getSubmodelNumbers : Nat → String → Option (List Int)) (st : String → List String)
    (numberOfPaths : Option Nat) (sitePath : Nat → String)
    (mixedModelSet set : MixedSubstitutionModelSet)
    (before : List String) (desc : String) (after : List String)
    (hv : vdesc sitePath (numberOfPaths.getD 0) = before ++ desc :: after)
    (hb : addPaths toInt getSubmodelNumbers st before mixedModelSet = (set, none))
    (h : (addPaths toInt getSubmodelNumbers st [desc] set).2 ≠ none) :
    completeMixedSubstitutionModelSet toInt getSubmodelNumbers st numberOfPaths sitePath
        mixedModelSet
      = addPaths toInt getSubmodelNumbers st [desc] set := by
  unfold completeMixedSubstitutionModelSet
  simp only [hv]
  have hlen : ¬ (before ++ desc :: after).length = 0 := by simp
  rw [if_neg hlen, addPaths_append, hb]
  simp only []
  rw [addPaths_thrown_first toInt getSubmodelNumbers st desc after set h]
  cases hr : addPaths toInt getSubmodelNumbers st [desc] set with
  | mk set1 thrown =>
    rw [hr] at h
    cases thrown with
    | some e => rfl
    | none => exact absurd rfl h

/-- C15: let the path `desc` be read after the paths `before`, themselves read without an
exception. When some element of `desc` lacks a bracket or names no mixed model of the set,
the call throws. When all its elements are added and the new hypernode is not complete, the
call throws the exception of line 1952. When the reading of `desc` throws, the call ends in
the state and with the exception of that reading, whatever the later paths `after` are, and
the set holds one hypernode for each path read so far and none for a later path. -/
theorem explicit_path_checked (toInt : String → Int)
    (getSubmodelNumbers : Nat → String → Option (List Int)) (st : String → List String)
    (numberOfPaths : Option Nat) (sitePath : Nat → String)
    (mixedModelSet set : MixedSubstitutionModelSet)
    (before : List String) (desc : String) (after : List String)
    (hv : vdesc sitePath (numberOfPaths.getD 0) = before ++ desc :: after)
    (hb : addPaths toInt getSubmodelNumbers st before mixedModelSet = (set, none)) :
    ((∃ submodel ∈ st desc, ¬ ('[' ∈ submodel.data ∧ ']' ∈ submodel.data ∧
          NamesMixedModel toInt mixedModelSet.models submodel)) →
        (completeMixedSubstitutionModelSet toInt getSubmodelNumbers st numberOfPaths sitePath
          mixedModelSet).2 ≠ none) ∧
      (∀ set1, addPathElements toInt getSubmodelNumbers (st desc) (addEmptyHyperNode set)
            = (set1, none) →
          lastIsComplete set1 = false →
          completeMixedSubstitutionModelSet toInt getSubmodelNumbers st numberOfPaths sitePath
              mixedModelSet = (set1, some (MixedErr.incompletePath desc))) ∧
      ((addPaths toInt getSubmodelNumbers st [desc] set).2 ≠ none →
        completeMixedSubstitutionModelSet toInt getSubmodelNumbers st numberOfPaths sitePath
            mixedModelSet = addPaths toInt getSubmodelNumbers st [desc] set ∧
          (completeMixedSubstitutionModelSet toInt getSubmodelNumbers st numberOfPaths
              sitePath mixedModelSet).1.hyperNodes.length
            = mixedModelSet.hyperNodes.length + before.length + 1) := by
  have hat := completeMixed_thrown_at toInt getSubmodelNumbers st numberOfPaths sitePath
    mixedModelSet set before desc after hv hb
  have hbefore := addPaths_inv toInt getSubmodelNumbers st before mixedModelSet
  rw [hb] at hbefore
  have hmodels : set.models = mixedModelSet.models := hbefore.1
  have hcount : set.hyperNodes.length = mixedModelSet.hyperNodes.length + before.length :=
    hbefore.2 rfl
  have helems := addPathElements_inv toInt getSubmodelNumbers (st desc) (addEmptyHyperNode set)
  have hsingle := addPaths_single toInt getSubmodelNumbers st desc set
  refine ⟨?_, ?_, ?_⟩
  · rintro ⟨submodel, hmem, hbad⟩
    have hthrown : (addPaths toInt getSubmodelNumbers st [desc] set).2 ≠ none := by
      rw [hsingle]
      cases hr : addPathElements toInt getSubmodelNumbers (st desc) (addEmptyHyperNode set) with
      | mk set1 thrown =>
        rw [hr] at helems
        cases thrown with
        | some e => simp
        | none =>
          have := helems.2.2 rfl submodel hmem
          rw [show (addEmptyHyperNode set).models = set.models from rfl, hmodels] at this
          exact absurd this hbad
    rw [hat hthrown]
    exact hthrown
  · intro set1 hr hc
    have hthrown : (addPaths toInt getSubmodelNumbers st [desc] set).2 ≠ none := by
      rw [hsingle, hr]
      simp [hc]
    rw [hat hthrown, hsingle, hr]
    simp [hc]
  · intro hthrown
    refine ⟨hat hthrown, ?_⟩
    rw [hat hthrown, hsingle]
    cases hr : addPathElements toInt getSubmodelNumbers (st desc) (addEmptyHyperNode set) with
    | mk set1 thrown =>
      rw [hr] at helems
      have hl : set1.hyperNodes.length = set.hyperNodes.length + 1 := by
        rw [helems.2.1]; simp [addEmptyHyperNode]
      cases thrown with
      | some e =>
        show set1.hyperNodes.length = _
        rw [hl, hcount]
      | none =>
        simp only []
        by_cases hc : lastIsComplete set1 = true
        · simp only [hc, if_true]
          rw [hl, hcount]
        · simp only [hc]
          show set1.hyperNodes.length = _
          rw [hl, hcount]

/-- C15 on three paths over a mixed and a plain model: the second path read names the plain
model, and the call ends as the reading of that path ends, the third path being left
unread. -/
theorem explicit_path_checked_witness :
    vdesc examplePaths 3 = ["model1[a]"] ++ "model2[a]" :: ["model1[b]"] ∧
      completeMixedSubstitutionModelSet digitsToInt exampleSubmodelNumbers splitAmpersand
          (some 3) examplePaths mixedAndPlain
        = addPaths digitsToInt exampleSubmodelNumbers splitAmpersand ["model2[a]"]
            ⟨[some [1/2, 1/2], none], [⟨[[0], []], 1⟩]⟩ :=
  ⟨by decide,
    ((explicit_path_checked digitsToInt exampleSubmodelNumbers splitAmpersand (some 3)
      examplePaths mixedAndPlain ⟨[some [1/2, 1/2], none], [⟨[[0], []], 1⟩]⟩
      ["model1[a]"] "model2[a]" ["model1[b]"] (by decide) rfl).2.2 (by decide)).1⟩

/-! ### A mixed model set without explicit paths -/

theorem vdesc_eq_nil (sitePath : Nat → String) (numd : Nat) :
    vdesc sitePath numd = [] ↔ numd = 0 ∨ (sitePath numd).data = [] := by
  cases numd with
  | zero => simp [vdesc]
  | succ n =>
    by_cases h : (sitePath (n + 1)).data = []
    · simp [vdesc, h]
    · have hl : ¬ (sitePath (n + 1)).data.length = 0 := fun hl => h (List.length_eq_zero.mp hl)
      simp only [vdesc, if_neg hl]
      simp [h]

/-- C16: when `site.number_of_paths` is absent or zero, or the first description looked for
is empty, the call completes the set as it was handed over, computes the probabilities and
returns without an exception. For two mixed models of three and of two submodels, none of
weight zero, and no hypernode yet, the set then holds exactly one hypernode: it holds all
three submodels of the first model and both of the second, and its probability is 1. -/
theorem zero_paths_completion (toInt : String → Int)
    (getSubmodelNumbers : Nat → String → Option (List Int)) (st : String → List String)
    (numberOfPaths : Option Nat) (sitePath : Nat → String)
    (mixedModelSet : MixedSubstitutionModelSet)
    (h0 : numberOfPaths = none ∨ numberOfPaths = some 0 ∨
      (sitePath (numberOfPaths.getD 0)).data = []) :
    completeMixedSubstitutionModelSet toInt getSubmodelNumbers st numberOfPaths sitePath
        mixedModelSet
      = (computeHyperNodesProbabilities (complete mixedModelSet).1, none) ∧
      (∀ a b c d e : ℚ, a ≠ 0 → b ≠ 0 → c ≠ 0 → d ≠ 0 → e ≠ 0 →
        mixedModelSet = ⟨[some [a, b, c], some [d, e]], []⟩ →
        (completeMixedSubstitutionModelSet toInt getSubmodelNumbers st numberOfPaths sitePath
          mixedModelSet).1.hyperNodes = [⟨[[0, 1, 2], [0, 1]], 1⟩]) := by
  have hnil : vdesc sitePath (numberOfPaths.getD 0) = [] := by
    rw [vdesc_eq_nil]
    rcases h0 with h | h | h
    · left; rw [h]; rfl
    · left; rw [h]; rfl
    · right; exact h
  have hcall : completeMixedSubstitutionModelSet toInt getSubmodelNumbers st numberOfPaths
      sitePath mixedModelSet
        = (computeHyperNodesProbabilities (complete mixedModelSet).1, none) := by
    unfold completeMixedSubstitutionModelSet
    simp only [hnil, List.length_nil, if_true]
  refine ⟨hcall, ?_⟩
  intro a b c d e ha hb hc hd he hset
  rw [hcall, hset]
  have hcomplete : (complete ⟨[some [a, b, c], some [d, e]], []⟩).1
      = ⟨[some [a, b, c], some [d, e]], [⟨[[0, 1, 2], [0, 1]], 1⟩]⟩ := rfl
  rw [hcomplete]
  have hne : a * (b * c) * (d * e) ≠ 0 :=
    mul_ne_zero (mul_ne_zero ha (mul_ne_zero hb hc)) (mul_ne_zero hd he)
  simp [computeHyperNodesProbabilities, chosenWeight]
  exact div_self hne

/-- C16 on two mixed models of weights 1/2, 1/4, 1/4 and 1/3, 2/3 when
`site.number_of_paths` is absent: one hypernode of probability 1 holding every submodel. -/
theorem zero_paths_completion_witness :
    (completeMixedSubstitutionModelSet digitsToInt exampleSubmodelNumbers splitAmpersand none
        examplePaths twoMixedModels).1.hyperNodes = [⟨[[0, 1, 2], [0, 1]], 1⟩] :=
  (zero_paths_completion digitsToInt exampleSubmodelNumbers splitAmpersand none examplePaths
    twoMixedModels (Or.inl rfl)).2 (1/2) (1/4) (1/4) (1/3) (2/3)
    (by simp) (by simp) (by simp) (by simp) (by simp) rfl

/-! ### The ignore and constrain loops -/

theorem strFind_single_not_mem (c : Char) (s : List Char) (h : c ∉ s) :
    strFind [c] s = none := by
  cases hf : strFind [c] s with
  | none => rfl
  | some i => exact absurd (strFind_single_some c s i hf) h

theorem strFind_single_append (c : Char) (pre post : List Char) (h : c ∉ pre) :
    strFind [c] (pre ++ c :: post) = some pre.length := by
  induction pre with
  | nil => simp [strFind, startsWith]
  | cons a rest ih =>
    have hac : ¬ c = a := fun hca => h (by simp [hca])
    have hrest : c ∉ rest := fun hmem => h (List.mem_cons_of_mem a hmem)
    simp [strFind, startsWith, hac, ih hrest]

theorem deleteParameter_none_iff {I V : Type} (name : String) (pl : ParameterList I V) :
    deleteParameter name pl = none ↔ getParameter name pl = none := by
  induction pl with
  | nil => simp [deleteParameter, getParameter]
  | cons p rest ih =>
    by_cases hp : p.name = name
    · simp [deleteParameter, getParameter, hp]
    · have hget : getParameter name (p :: rest) = getParameter name rest := by
        simp [getParameter, hp]
      rw [hget, ← ih]
      simp only [deleteParameter, if_neg hp]
      cases deleteParameter name rest <;> simp

/-- A name that stands for itself in a directive: none of the three group names, and without
the character `*`. -/
theorem ignoreDirective_literal {I V : Type} (variant : Variant) (lik : LikelihoodNames)
    (parNames : List String) (param : String) (pl : ParameterList I V)
    (h1 : param ≠ "BrLen") (h2 : param ≠ "Ancient") (h3 : param ≠ "Model")
    (h4 : '*' ∉ param.data) :
    ignoreDirective variant lik parNames param pl
      = match deleteParameter param pl with
        | none => (pl, some param)
        | some pl1 => (pl1, none) := by
  have hstar : (strFind ['*'] param.data).isSome = false := by
    rw [strFind_single_not_mem _ _ h4]; rfl
  unfold ignoreDirective
  rw [if_neg h1, if_neg h2]
  cases variant <;> simp [h3, hstar]

theorem ignoreLoop_append {I V : Type} (variant : Variant) (lik : LikelihoodNames)
    (parNames : List String) (before rest : List String) (pl : ParameterList I V) :
    ignoreLoop variant lik parNames (before ++ rest) pl
      = ((ignoreLoop variant lik parNames rest (ignoreLoop variant lik parNames before pl).1).1,
          (ignoreLoop variant lik parNames before pl).2
            ++ (ignoreLoop variant lik parNames rest
                (ignoreLoop variant lik parNames before pl).1).2) := by
  induction before generalizing pl with
  | nil => simp [ignoreLoop]
  | cons d ds ih =>
    simp only [List.cons_append, ignoreLoop]
    cases hr : ignoreDirective variant lik parNames d pl with
    | mk pl1 thrown =>
      cases thrown with
      | none => simp only []; exact ih pl1
      | some notFound =>
        have h := ih pl1
        simp only [List.append_eq] at h ⊢
        simp only [h, List.cons_append]

theorem constrainLoop_append {I V : Type} (ops : ConstraintOps I V) (variant : Variant)
    (lik : LikelihoodNames) (parNames parToEstNames : List String)
    (before rest : List String) (pl : ParameterList I V) :
    constrainLoop ops variant lik parNames parToEstNames (before ++ rest) pl
      = match constrainLoop ops variant lik parNames parToEstNames before pl with
        | (pl1, warnings, some e) => (pl1, warnings, some e)
        | (pl1, warnings, none) =>
          ((constrainLoop ops variant lik parNames parToEstNames rest pl1).1,
            warnings ++ (constrainLoop ops variant lik parNames parToEstNames rest pl1).2.1,
            (constrainLoop ops variant lik parNames parToEstNames rest pl1).2.2) := by
  induction before generalizing pl with
  | nil => simp [constrainLoop]
  | cons d ds ih =>
    simp only [List.cons_append, constrainLoop]
    cases hr : constrainDirective ops variant lik parNames parToEstNames d pl with
    | mk pl1 thrown =>
      cases thrown with
      | none => simp only []; exact ih pl1
      | some t =>
        cases t with
        | parameterNotFound notFound =>
          have h := ih pl1
          cases hb : constrainLoop ops variant lik parNames parToEstNames ds pl1 with
          | mk pl2 r =>
            obtain ⟨w, e⟩ := r
            rw [hb] at h
            cases e <;> simp [h, hb]
        | constraintException => rfl
        | exception e => rfl

theorem parNames2_literal (variant : Variant) (lik : LikelihoodNames)
    (parToEstNames : List String) (param : String)
    (h1 : param ≠ "BrLen") (h2 : param ≠ "Ancient") (h3 : param ≠ "Model")
    (h4 : '*' ∉ param.data) :
    parNames2 variant lik parToEstNames param = [param] := by
  have hstar : (strFind ['*'] param.data).isSome = false := by
    rw [strFind_single_not_mem _ _ h4]; rfl
  unfold parNames2
  rw [if_neg h1, if_neg h2, if_neg h3]
  simp [hstar]

theorem constrainDirective_split {I V : Type} (ops : ConstraintOps I V) (variant : Variant)
    (lik : LikelihoodNames) (parNames parToEstNames : List String)
    (pc param constraint : String) (ic : I) (pl : ParameterList I V)
    (heq : '=' ∉ param.data) (hpc : pc.data = param.data ++ '=' :: constraint.data)
    (hread : ops.read constraint = some ic) :
    constrainDirective ops variant lik parNames parToEstNames pc pl
      = constrainEach ops parNames ic (parNames2 variant lik parToEstNames param) 0 pl := by
  have hfind : strFind ['='] pc.data = some param.data.length := by
    rw [hpc]; exact strFind_single_append '=' param.data constraint.data heq
  have htake : String.mk (pc.data.take param.data.length) = param := by
    rw [hpc, List.take_left']
    rfl
  have hdrop : String.mk (pc.data.drop (param.data.length + 1)) = constraint := by
    rw [hpc]
    have : (param.data ++ '=' :: constraint.data).drop (param.data.length + 1)
        = constraint.data := by
      rw [show param.data ++ '=' :: constraint.data = (param.data ++ ['=']) ++ constraint.data
        by simp]
      exact List.drop_left' (by simp)
    rw [this]
  unfold constrainDirective
  simp only [hfind, htake, hdrop, hread]

/-- C19: let `param` be a name that stands for itself (none of `BrLen`, `Ancient`, `Model`,
and without `*`). In an ignore list, when `param` names no parameter of the list that the
directives before it have left, the loop ends with the list that it ends with when the
directive is taken out, the directives after it being applied to the same list, and `param`
is among the names reported as not found. In a constrain list, for a directive `param=I`
whose interval is read, the same holds: the list of parameters with their constraints and
the exception thrown, if any, are those of the loop without the directive. -/
theorem unresolved_literal_recoverable {I V : Type} (ops : ConstraintOps I V)
    (variant : Variant) (lik : LikelihoodNames) (parNames parToEstNames : List String)
    (before after : List String) (param constraint pc : String) (ic : I)
    (pl : ParameterList I V)
    (h1 : param ≠ "BrLen") (h2 : param ≠ "Ancient") (h3 : param ≠ "Model")
    (h4 : '*' ∉ param.data) :
    (getParameter param (ignoreLoop variant lik parNames before pl).1 = none →
      (ignoreLoop variant lik parNames (before ++ param :: after) pl).1
          = (ignoreLoop variant lik parNames (before ++ after) pl).1 ∧
        (ignoreLoop variant lik parNames (before ++ param :: after) pl).1
          = (ignoreLoop variant lik parNames after
              (ignoreLoop variant lik parNames before pl).1).1 ∧
        param ∈ (ignoreLoop variant lik parNames (before ++ param :: after) pl).2) ∧
      (variant ≠ Variant.clockTreeLikelihood → '=' ∉ param.data →
        pc.data = param.data ++ '=' :: constraint.data → ops.read constraint = some ic →
        getParameter param
            (constrainLoop ops variant lik parNames parToEstNames before pl).1 = none →
        (constrainLoop ops variant lik parNames parToEstNames (before ++ pc :: after) pl).1
            = (constrainLoop ops variant lik parNames parToEstNames (before ++ after) pl).1 ∧
          (constrainLoop ops variant lik parNames parToEstNames (before ++ pc :: after) pl).2.2
            = (constrainLoop ops variant lik parNames parToEstNames (before ++ after)
                pl).2.2) := by
  constructor
  · intro hnone
    have hdir : ignoreDirective variant lik parNames param
        (ignoreLoop variant lik parNames before pl).1
          = ((ignoreLoop variant lik parNames before pl).1, some param) := by
      rw [ignoreDirective_literal variant lik parNames param _ h1 h2 h3 h4,
        (deleteParameter_none_iff param _).mpr hnone]
    rw [ignoreLoop_append, ignoreLoop_append]
    simp only [ignoreLoop, hdir]
    refine ⟨trivial, trivial, ?_⟩
    simp
  · intro _ heq hpc hread hnone
    have hdir : constrainDirective ops variant lik parNames parToEstNames pc
        (constrainLoop ops variant lik parNames parToEstNames before pl).1
          = ((constrainLoop ops variant lik parNames parToEstNames before pl).1,
              some (Thrown.parameterNotFound param)) := by
      rw [constrainDirective_split ops variant lik parNames parToEstNames pc param constraint
        ic _ heq hpc hread, parNames2_literal variant lik parToEstNames param h1 h2 h3 h4]
      simp only [constrainEach, hnone]
    rw [constrainLoop_append, constrainLoop_append]
    cases hb : constrainLoop ops variant lik parNames parToEstNames before pl with
    | mk pl1 r =>
      obtain ⟨w, e⟩ := r
      rw [hb] at hdir
      cases e with
      | some e => simp
      | none =>
        simp only [constrainLoop, hdir]
        simp

/-- C19 on the parameters `kappa` and `alpha`: the name `zz` names neither, and the lists
`kappa, zz, alpha` end as the lists `kappa, alpha` do. -/
theorem unresolved_literal_recoverable_witness :
    (ignoreLoop Variant.treeLikelihood fourParametersLikelihood ["kappa", "alpha"]
        (["kappa"] ++ "zz" :: ["alpha"]) twoParameters).1
      = (ignoreLoop Variant.treeLikelihood fourParametersLikelihood ["kappa", "alpha"]
        (["kappa"] ++ ["alpha"]) twoParameters).1 ∧
      (constrainLoop intIntervals Variant.treeLikelihood fourParametersLikelihood
        ["kappa", "alpha"] ["kappa", "alpha"]
        (["kappa=[0;10]"] ++ "zz=[0;10]" :: ["alpha=[5;20]"]) twoParameters).1
      = (constrainLoop intIntervals Variant.treeLikelihood fourParametersLikelihood
        ["kappa", "alpha"] ["kappa", "alpha"]
        (["kappa=[0;10]"] ++ ["alpha=[5;20]"]) twoParameters).1 :=
  ⟨((unresolved_literal_recoverable intIntervals Variant.treeLikelihood
      fourParametersLikelihood ["kappa", "alpha"] ["kappa", "alpha"] ["kappa"] ["alpha"]
      "zz" "[0;10]" "zz=[0;10]" ⟨0, 10⟩ twoParameters (by decide) (by decide) (by decide)
      (by decide)).1 (by decide)).1,
    ((unresolved_literal_recoverable intIntervals Variant.treeLikelihood
      fourParametersLikelihood ["kappa", "alpha"] ["kappa", "alpha"] ["kappa=[0;10]"]
      ["alpha=[5;20]"] "zz" "[0;10]" "zz=[0;10]" ⟨0, 10⟩ twoParameters (by decide)
      (by decide) (by decide) (by decide)).2 (by decide) (by decide) (by decide) (by decide)
      (by decide)).1⟩

/-! ### What a constrain directive does to the parameters it names -/

theorem getParameter_mem {I V : Type} (pl : ParameterList I V) (p : Parameter I V)
    (hnodup : (getParameterNames pl).Nodup) (hp : p ∈ pl) :
    getParameter p.name pl = some p := by
  induction pl with
  | nil => simp at hp
  | cons q rest ih =>
    simp only [getParameterNames, List.map_cons, List.nodup_cons, List.mem_map, not_exists,
      not_and] at hnodup
    rcases List.mem_cons.mp hp with heq | hin
    · subst heq
      simp [getParameter]
    · have hne : ¬ q.name = p.name := fun h => hnodup.1 p hin h.symm
      simp only [getParameter, List.find?_cons, hne, decide_False]
      exact ih hnodup.2 hin

theorem getParameter_some {I V : Type} (pl : ParameterList I V) (name : String)
    (par : Parameter I V) (h : getParameter name pl = some par) :
    par ∈ pl ∧ par.name = name := by
  unfold getParameter at h
  exact ⟨List.mem_of_find?_eq_some h, by simpa using List.find?_some h⟩

theorem getParameter_putParameter_ne {I V : Type} (par : Parameter I V) (name : String)
    (pl : ParameterList I V) (hne : par.name ≠ name) :
    getParameter name (putParameter par pl) = getParameter name pl := by
  induction pl with
  | nil => rfl
  | cons q rest ih =>
    simp only [putParameter, getParameter, List.map_cons, List.find?_cons] at ih ⊢
    by_cases hq : q.name = par.name
    · have hqn : ¬ q.name = name := fun h => hne (hq ▸ h)
      simp only [hq, if_true, hne, hqn, decide_False]
      exact ih
    · simp only [hq, if_false]
      by_cases hqn : q.name = name
      · simp [hqn]
      · simp only [hqn, decide_False]
        exact ih

theorem setConstraint_some {I V : Type} (ops : ConstraintOps I V) (par par1 : Parameter I V)
    (c : I) (h : setConstraint ops par c = some par1) :
    par1 = { par with constraint := some c } ∧ ops.isCorrect c par.value = true := by
  unfold setConstraint at h
  by_cases hc : ops.isCorrect c par.value = true
  · rw [if_pos hc] at h
    exact ⟨(Option.some.inj h).symm, hc⟩
  · rw [if_neg hc] at h
    exact absurd h (by simp)

/-- A directive changes no parameter that it does not name. -/
theorem constrainEach_frame {I V : Type} (ops : ConstraintOps I V) (parNames : List String)
    (ic : I) (names : List String) (i : Nat) (pl : ParameterList I V) (name : String)
    (hname : name ∉ names) :
    getParameter name (constrainEach ops parNames ic names i pl).1 = getParameter name pl := by
  induction names generalizing i pl with
  | nil => rfl
  | cons n rest ih =>
    have hn : n ≠ name := fun h => hname (by simp [h])
    have hrest : name ∉ rest := fun h => hname (List.mem_cons_of_mem n h)
    rw [constrainEach]
    cases hg : getParameter n pl with
    | none => rfl
    | some par =>
      have hpar := (getParameter_some pl n par hg).2
      simp only []
      cases hc : par.constraint with
      | some c =>
        simp only []
        cases hs : setConstraint ops par (ops.inter ic c) with
        | none => rfl
        | some par1 =>
          have h1 : par1.name ≠ name := by
            rw [(setConstraint_some ops par par1 _ hs).1]; exact hpar ▸ hn
          simp only []
          cases he : ops.isEmpty (ops.inter ic c) with
          | true =>
            simp only [if_true]
            exact getParameter_putParameter_ne par1 name pl h1
          | false =>
            simp only [Bool.false_eq_true, if_false]
            rw [ih (i + 1) _ hrest]
            exact getParameter_putParameter_ne par1 name pl h1
      | none =>
        simp only []
        cases hs : setConstraint ops par ic with
        | none => rfl
        | some par1 =>
          have h1 : par1.name ≠ name := by
            rw [(setConstraint_some ops par par1 _ hs).1]; exact hpar ▸ hn
          simp only []
          rw [ih (i + 1) _ hrest]
          exact getParameter_putParameter_ne par1 name pl h1

theorem getParameterNames_putParameter {I V : Type} (par : Parameter I V)
    (pl : ParameterList I V) :
    getParameterNames (putParameter par pl) = getParameterNames pl := by
  simp only [getParameterNames, putParameter, List.map_map]
  apply List.map_congr_left
  intro p _
  by_cases h : p.name = par.name
  · simp [h]
  · simp [h]

theorem mem_unique {I V : Type} (pl : ParameterList I V) (p q : Parameter I V)
    (hnodup : (getParameterNames pl).Nodup) (hp : p ∈ pl) (hq : q ∈ pl)
    (hname : p.name = q.name) : p = q := by
  have h1 := getParameter_mem pl p hnodup hp
  have h2 := getParameter_mem pl q hnodup hq
  rw [hname, h2] at h1
  exact (Option.some.inj h1).symm

/-- One step of a directive, on a parameter of the list that takes the constraint: the list
goes on with that parameter constrained. -/
theorem constrained_cons {I V : Type} (ops : ConstraintOps I V) (ic : I) (n : String)
    (rest : List String) (pl : ParameterList I V) (par : Parameter I V)
    (hnodup : (getParameterNames pl).Nodup) (hpar : par ∈ pl) (hn : par.name = n)
    (hrest : n ∉ rest) :
    constrained ops ic rest
        (putParameter { par with constraint := some (newConstraint ops ic par) } pl)
      = constrained ops ic (n :: rest) pl := by
  simp only [constrained, putParameter, List.map_map]
  apply List.map_congr_left
  intro p hp
  by_cases hpn : p.name = par.name
  · have hpp : p = par := mem_unique pl p par hnodup hp hpar hpn
    subst hpp
    have h1 : ¬ n ∈ rest := hrest
    simp [hn, h1]
  · have hne : ¬ p.name = n := fun h => hpn (h.trans hn.symm)
    simp [hpn, hne]

/-- What a directive does when every name it stands for is in the list: it goes through
exactly when every named parameter can take its constraint, and then leaves the list with
these parameters constrained; otherwise it throws, and not the exception of a name that is
not found. -/
theorem constrainEach_spec {I V : Type} (ops : ConstraintOps I V) (parNames : List String)
    (ic : I) (names : List String) (i : Nat) (pl : ParameterList I V)
    (hnames : names.Nodup) (hnodup : (getParameterNames pl).Nodup)
    (hall : ∀ n ∈ names, ∃ p ∈ pl, p.name = n) :
    ((∀ p ∈ pl, p.name ∈ names → accepts ops ic p = true) →
        constrainEach ops parNames ic names i pl = (constrained ops ic names pl, none)) ∧
      ((∃ p ∈ pl, p.name ∈ names ∧ accepts ops ic p = false) →
        ∃ t, (constrainEach ops parNames ic names i pl).2 = some t ∧
          ∀ notFound, t ≠ Thrown.parameterNotFound notFound) := by
  induction names generalizing i pl with
  | nil =>
    refine ⟨fun _ => ?_, ?_⟩
    · simp [constrainEach, constrained]
    · rintro ⟨p, _, hmem, _⟩
      simp at hmem
  | cons n rest ih =>
    obtain ⟨hnrest, hrestnodup⟩ := List.nodup_cons.mp hnames
    obtain ⟨par, hparmem, hparname⟩ := hall n (List.mem_cons_self n rest)
    have hget : getParameter n pl = some par := by
      rw [← hparname]; exact getParameter_mem pl par hnodup hparmem
    -- the list after the step on `par`, when `par` takes its constraint
    have hstep : accepts ops ic par = true →
        constrainEach ops parNames ic (n :: rest) i pl
          = constrainEach ops parNames ic rest (i + 1)
              (putParameter { par with constraint := some (newConstraint ops ic par) } pl) := by
      intro hacc
      rw [constrainEach, hget]
      simp only [accepts, newConstraint, Bool.and_eq_true, Bool.not_eq_true'] at hacc ⊢
      cases hc : par.constraint with
      | some c =>
        rw [hc] at hacc
        simp only [Option.isSome_some, Bool.true_and] at hacc
        simp [setConstraint, hacc.1, hacc.2]
      | none =>
        rw [hc] at hacc
        simp only [Option.isSome_none, Bool.false_and] at hacc
        simp [setConstraint, hacc.1]
    have hfail : accepts ops ic par = false →
        ∃ t, (constrainEach ops parNames ic (n :: rest) i pl).2 = some t ∧
          ∀ notFound, t ≠ Thrown.parameterNotFound notFound := by
      intro hacc
      rw [constrainEach, hget]
      simp only [accepts, newConstraint] at hacc ⊢
      cases hc : par.constraint with
      | some c =>
        rw [hc] at hacc
        simp only [Option.isSome_some, Bool.true_and] at hacc
        cases hcorrect : ops.isCorrect (ops.inter ic c) par.value with
        | false => exact ⟨Thrown.constraintException, by simp [setConstraint, hcorrect], by simp⟩
        | true =>
          rw [hcorrect] at hacc
          have hempty : ops.isEmpty (ops.inter ic c) = true := by simpa using hacc
          exact ⟨Thrown.exception (OptErr.emptyInterval parNames[i]?),
            by simp [setConstraint, hcorrect, hempty], by simp⟩
      | none =>
        rw [hc] at hacc
        simp only [Option.isSome_none, Bool.false_and, Bool.not_false, Bool.and_true] at hacc
        exact ⟨Thrown.constraintException, by simp [setConstraint, hacc], by simp⟩
    -- the facts that the rest of the names needs on the list after the step
    have hnodup1 : (getParameterNames
        (putParameter { par with constraint := some (newConstraint ops ic par) } pl)).Nodup := by
      rw [getParameterNames_putParameter]; exact hnodup
    have hall1 : ∀ m ∈ rest, ∃ p ∈
        putParameter { par with constraint := some (newConstraint ops ic par) } pl,
        p.name = m := by
      intro m hm
      obtain ⟨p, hp, hpm⟩ := hall m (List.mem_cons_of_mem n hm)
      have hne : ¬ p.name = par.name := by
        rw [hpm, hparname]; intro h; exact hnrest (h ▸ hm)
      refine ⟨p, ?_, hpm⟩
      simp only [putParameter, List.mem_map]
      exact ⟨p, hp, by simp [hne]⟩
    have hback : ∀ p ∈ putParameter { par with constraint := some (newConstraint ops ic par) } pl,
        p.name ∈ rest → p ∈ pl := by
      intro p hp hprest
      simp only [putParameter, List.mem_map] at hp
      obtain ⟨q, hq, hqp⟩ := hp
      by_cases hqn : q.name = par.name
      · rw [if_pos hqn] at hqp
        rw [← hqp] at hprest
        exact absurd (hparname ▸ hprest) hnrest
      · rw [if_neg hqn] at hqp
        exact hqp ▸ hq
    have ih1 := ih (i + 1)
      (putParameter { par with constraint := some (newConstraint ops ic par) } pl)
      hrestnodup hnodup1 hall1
    constructor
    · intro hacc
      rw [hstep (hacc par hparmem (by simp [hparname])), ih1.1
        (fun p hp hprest => hacc p (hback p hp hprest) (List.mem_cons_of_mem n hprest)),
        constrained_cons ops ic n rest pl par hnodup hparmem hparname hnrest]
    · rintro ⟨p, hp, hpmem, hpacc⟩
      cases hacc : accepts ops ic par with
      | false => exact hfail hacc
      | true =>
        rw [hstep hacc]
        apply ih1.2
        have hne : ¬ p.name = par.name := by
          intro h
          rw [mem_unique pl p par hnodup hp hparmem h, hacc] at hpacc
          exact absurd hpacc (by simp)
        have hprest : p.name ∈ rest := by
          rcases List.mem_cons.mp hpmem with h | h
          · exact absurd (h.trans hparname.symm) hne
          · exact h
        refine ⟨p, ?_, hprest, hpacc⟩
        simp only [putParameter, List.mem_map]
        exact ⟨p, hp, by simp [hne]⟩

theorem constrainDirective_frame {I V : Type} (ops : ConstraintOps I V) (variant : Variant)
    (lik : LikelihoodNames) (parNames parToEstNames : List String) (pc : String)
    (pl : ParameterList I V) (name : String)
    (hname : name ∉ parNames2 variant lik parToEstNames (directiveParam pc).1) :
    getParameter name (constrainDirective ops variant lik parNames parToEstNames pc pl).1
      = getParameter name pl := by
  unfold constrainDirective
  unfold directiveParam at hname
  cases hf : strFind ['='] pc.data with
  | none => rfl
  | some index =>
    rw [hf] at hname
    simp only [] at hname ⊢
    cases hr : ops.read (String.mk (pc.data.drop (index + 1))) with
    | none => rfl
    | some ic => exact constrainEach_frame ops parNames ic _ 0 pl name hname

theorem constrainLoop_frame {I V : Type} (ops : ConstraintOps I V) (variant : Variant)
    (lik : LikelihoodNames) (parNames parToEstNames : List String) (tokens : List String)
    (pl : ParameterList I V) (name : String)
    (hname : ∀ pc ∈ tokens, name ∉ parNames2 variant lik parToEstNames (directiveParam pc).1) :
    getParameter name (constrainLoop ops variant lik parNames parToEstNames tokens pl).1
      = getParameter name pl := by
  induction tokens generalizing pl with
  | nil => rfl
  | cons pc rest ih =>
    have hdir := constrainDirective_frame ops variant lik parNames parToEstNames pc pl name
      (hname pc (List.mem_cons_self pc rest))
    have hrest := fun pl1 => ih pl1 (fun q hq => hname q (List.mem_cons_of_mem pc hq))
    rw [constrainLoop]
    cases hr : constrainDirective ops variant lik parNames parToEstNames pc pl with
    | mk pl1 thrown =>
      rw [hr] at hdir
      cases thrown with
      | none => simp only []; rw [hrest pl1]; exact hdir
      | some t =>
        cases t with
        | parameterNotFound notFound => simp only []; rw [hrest pl1]; exact hdir
        | constraintException => exact hdir
        | exception e => exact hdir

/-- C20, counterexample: the directive `kappa=[30;40]` names the parameter `kappa`,
which has no constraint and the value 7. The constraint of `kappa` does not become the
interval from 30 to 40: the call throws, and `kappa` is left without constraint. -/
theorem constrain_value_outside_fails :
    constrainLoop intIntervals Variant.treeLikelihood fourParametersLikelihood
        ["kappa", "alpha"] ["kappa", "alpha"] ["kappa=[30;40]"] twoParameters
      = (twoParameters, [], some (OptErr.doesNotFit "kappa" "[30;40]")) := by
  decide

/-- C20 (amended): let `param=I` be a constrain directive whose interval is read and whose
names are all in the list of parameters to estimate. When every named parameter can take its
constraint (its value fits `I`, or fits the intersection of `I` with the constraint it has,
and that intersection is not empty), the loop goes on with the list in which each named
parameter has the constraint `I`, or that intersection, and the other parameters are as they
were. When some named parameter cannot, in particular when its intersection is empty, the
call throws. Whatever the directives of a list are, a parameter named by none of them has
in the end the value and the constraint it had. -/
theorem constrain_directive_effect {I V : Type} (ops : ConstraintOps I V)
    (variant : Variant) (lik : LikelihoodNames) (parNames parToEstNames : List String)
    (pc param constraint : String) (ic : I) (rest : List String) (pl : ParameterList I V)
    (heq : '=' ∉ param.data) (hpc : pc.data = param.data ++ '=' :: constraint.data)
    (hread : ops.read constraint = some ic)
    (hnames : (parNames2 variant lik parToEstNames param).Nodup)
    (hnodup : (getParameterNames pl).Nodup)
    (hall : ∀ n ∈ parNames2 variant lik parToEstNames param, ∃ p ∈ pl, p.name = n) :
    ((∀ p ∈ pl, p.name ∈ parNames2 variant lik parToEstNames param →
          accepts ops ic p = true) →
        constrainLoop ops variant lik parNames parToEstNames (pc :: rest) pl
          = constrainLoop ops variant lik parNames parToEstNames rest
              (constrained ops ic (parNames2 variant lik parToEstNames param) pl)) ∧
      ((∃ p ∈ pl, p.name ∈ parNames2 variant lik parToEstNames param ∧
          accepts ops ic p = false) →
        (constrainLoop ops variant lik parNames parToEstNames (pc :: rest) pl).2.2 ≠ none) ∧
      (∀ p ∈ pl, p.name ∈ parNames2 variant lik parToEstNames param →
        ∀ c, p.constraint = some c → ops.isEmpty (ops.inter ic c) = true →
        (constrainLoop ops variant lik parNames parToEstNames (pc :: rest) pl).2.2 ≠ none) ∧
      (∀ (tokens : List String) (name : String),
        (∀ q ∈ tokens, name ∉ parNames2 variant lik parToEstNames (directiveParam q).1) →
        getParameter name (constrainLoop ops variant lik parNames parToEstNames tokens pl).1
          = getParameter name pl) := by
  have hdir := constrainDirective_split ops variant lik parNames parToEstNames pc param
    constraint ic pl heq hpc hread
  have hspec := constrainEach_spec ops parNames ic (parNames2 variant lik parToEstNames param)
    0 pl hnames hnodup hall
  have hfails : (∃ p ∈ pl, p.name ∈ parNames2 variant lik parToEstNames param ∧
      accepts ops ic p = false) →
      (constrainLoop ops variant lik parNames parToEstNames (pc :: rest) pl).2.2 ≠ none := by
    intro hbad
    obtain ⟨t, ht, hnot⟩ := hspec.2 hbad
    rw [constrainLoop, hdir]
    cases hr : constrainEach ops parNames ic (parNames2 variant lik parToEstNames param) 0 pl with
    | mk pl1 thrown =>
      rw [hr] at ht
      simp only [] at ht
      subst ht
      cases t with
      | parameterNotFound notFound => exact absurd rfl (hnot notFound)
      | constraintException => simp
      | exception e => simp
  refine ⟨?_, hfails, ?_, ?_⟩
  · intro hacc
    rw [constrainLoop, hdir, hspec.1 hacc]
  · intro p hp hpmem c hc hempty
    apply hfails
    refine ⟨p, hp, hpmem, ?_⟩
    simp [accepts, newConstraint, hc, hempty]
  · intro tokens name hname
    exact constrainLoop_frame ops variant lik parNames parToEstNames tokens pl name hname

/-- C20 (amended) on the directive `alpha=[5;20]`: the parameter `alpha`, of value 7 and
constrained to the interval from 0 to 10, ends with the interval from 5 to 10, and `kappa` is
as it was. -/
theorem constrain_directive_effect_witness :
    constrainLoop intIntervals Variant.treeLikelihood fourParametersLikelihood
        ["kappa", "alpha"] ["kappa", "alpha"] ("alpha=[5;20]" :: []) twoParameters
      = constrainLoop intIntervals Variant.treeLikelihood fourParametersLikelihood
          ["kappa", "alpha"] ["kappa", "alpha"] []
          (constrained intIntervals ⟨5, 20⟩
            (parNames2 Variant.treeLikelihood fourParametersLikelihood ["kappa", "alpha"]
              "alpha") twoParameters) :=
  (constrain_directive_effect intIntervals Variant.treeLikelihood fourParametersLikelihood
    ["kappa", "alpha"] ["kappa", "alpha"] "alpha=[5;20]" "alpha" "[5;20]" ⟨5, 20⟩ []
    twoParameters (by decide) (by decide) (by decide) (by decide) (by decide)
    (by decide)).1 (by decide)

/-! ### Topology search under a molecular clock -/

theorem andThen_thrown {L : Type} (s : Session L) (f : L → List Stage → Session L)
    (h : s.thrown ≠ none) : s.andThen f = s := by
  unfold Session.andThen
  cases hs : s.thrown with
  | none => exact absurd hs h
  | some e => rfl

theorem andThen_returned {L : Type} (s : Session L) (f : L → List Stage → Session L)
    (h : s.thrown = none) : s.andThen f = f s.tl s.stages := by
  unfold Session.andThen
  rw [h]

theorem restoreStep_stages {L I V : Type} (svc : Optimizers L I V)
    (opts : OptimizationOptions) (tl : L) (stages : List Stage) :
    (restoreStep svc opts tl stages).stages = stages := by
  unfold restoreStep
  by_cases h : opts.backupFile = "none"
  · rw [if_pos h]
  · rw [if_neg h]
    cases svc.restore opts.backupFile tl <;> rfl

theorem restoreStep_returned {L I V : Type} (svc : Optimizers L I V)
    (opts : OptimizationOptions) (tl : L) (stages : List Stage)
    (h : opts.backupFile = "none" ∨ ∃ tl2, svc.restore opts.backupFile tl = .ok tl2) :
    (restoreStep svc opts tl stages).thrown = none := by
  unfold restoreStep
  by_cases hb : opts.backupFile = "none"
  · rw [if_pos hb]
  · rw [if_neg hb]
    rcases h with h | ⟨tl2, h⟩
    · exact absurd h hb
    · rw [h]

/-- With a topology search asked for under a global clock, a known NNI method and a known
order of derivatives, the reading of the options of the search for a `TreeLikelihood`
throws the exception of line 2377. -/
theorem optimizeFrom_topologyWithClock {L I V : Type} (svc : Optimizers L I V)
    (opts : OptimizationOptions) (pl : ParameterList I V) (tl : L) (stages : List Stage)
    (htopo : opts.optimizeTopo = true) (hclock : opts.clock = "Global")
    (hnni : opts.nniMethod = "fast" ∨ opts.nniMethod = "better" ∨ opts.nniMethod = "phyml")
    (hord : opts.order = "Gradient" ∨ opts.order = "Newton" ∨ opts.order = "BFGS") :
    optimizeFrom svc opts pl tl stages = ⟨tl, stages, some OptErr.topologyWithClock⟩ := by
  unfold optimizeFrom
  have hc : ¬ (opts.clock ≠ "None" ∧ opts.clock ≠ "Global") := fun h => h.2 hclock
  rw [if_neg (not_not_intro hnni), if_neg (not_not_intro hord), if_neg hc,
    if_pos ⟨hclock, htopo⟩]

/-- With a topology search asked for under a global clock, the reading of the options of
the search throws before any stage is invoked. -/
theorem optimizeFrom_refused {L I V : Type} (svc : Optimizers L I V)
    (opts : OptimizationOptions) (pl : ParameterList I V) (tl : L) (stages : List Stage)
    (htopo : opts.optimizeTopo = true) (hclock : opts.clock = "Global") :
    (optimizeFrom svc opts pl tl stages).thrown ≠ none ∧
      (optimizeFrom svc opts pl tl stages).stages = stages ∧
      (optimizeFromPhylo svc opts pl tl stages).thrown = some OptErr.topologyNotImplemented ∧
      (optimizeFromPhylo svc opts pl tl stages).stages = stages := by
  have hphylo : optimizeFromPhylo svc opts pl tl stages
      = ⟨tl, stages, some OptErr.topologyNotImplemented⟩ := by
    unfold optimizeFromPhylo
    rw [if_pos htopo]
  rw [hphylo]
  refine ⟨?_, ?_, rfl, rfl⟩
  all_goals
    unfold optimizeFrom
    by_cases hnni : ¬ (opts.nniMethod = "fast" ∨ opts.nniMethod = "better" ∨
      opts.nniMethod = "phyml")
    · rw [if_pos hnni] <;> simp
    · rw [if_neg hnni]
      by_cases hord : ¬ (opts.order = "Gradient" ∨ opts.order = "Newton" ∨ opts.order = "BFGS")
      · rw [if_pos hord] <;> simp
      · rw [if_neg hord]
        have hc : ¬ (opts.clock ≠ "None" ∧ opts.clock ≠ "Global") := fun h => h.2 hclock
        rw [if_neg hc, if_pos ⟨hclock, htopo⟩] <;> simp

/-- C17, counterexample: with `optimization=None`, a topology search asked for and a
global clock, both functions return without an exception. -/
theorem topology_with_clock_returns :
    noneWithTopologyAndClock.optimizeTopo = true ∧ noneWithTopologyAndClock.clock = "Global" ∧
      (optimizeParameters countingOptimizers intIntervals noneWithTopologyAndClock 0
        fourParameters).thrown = none ∧
      (optimizeParametersPhylo countingOptimizers intIntervals noneWithTopologyAndClock 0
        fourParameters).thrown = none := by
  decide

/-- C17 (amended): let a topology search be asked for under a global clock. When
`optimization` is `None` both functions return the likelihood as it is, no stage being
invoked. Otherwise both throw, and neither a topology search nor a numerical or final
optimization is invoked; the function for a `PhyloLikelihood` invokes no stage at all. The
exception of the function for a `TreeLikelihood` is the one of line 2377 when no earlier
step throws: the branch prescale, when asked for, returns, the constrain loop throws
nothing, the restoring, when a backup file is named, returns, and the NNI method and the
order of derivatives are known ones. That of the function for a `PhyloLikelihood` is the one
of line 2715 when no earlier step throws: `optimization.scale_first` is off, neither
deprecated key is given, the constrain loop throws nothing and the restoring returns. -/
theorem topology_with_clock_refused {L I V : Type} (svc : Optimizers L I V)
    (ops : ConstraintOps I V) (opts : OptimizationOptions) (tl : L)
    (parameters : ParameterList I V)
    (htopo : opts.optimizeTopo = true) (hclock : opts.clock = "Global") :
    (opts.optimization = "None" →
        optimizeParameters svc ops opts tl parameters = ⟨tl, [], none⟩ ∧
          optimizeParametersPhylo svc ops opts tl parameters = ⟨tl, [], none⟩) ∧
      (opts.optimization ≠ "None" →
        (optimizeParameters svc ops opts tl parameters).thrown ≠ none ∧
          (optimizeParameters svc ops opts tl parameters).stages
            = (if opts.scaleFirst then [Stage.branchPrescale] else []) ∧
          (optimizeParametersPhylo svc ops opts tl parameters).thrown ≠ none ∧
          (optimizeParametersPhylo svc ops opts tl parameters).stages = []) ∧
      (opts.optimization ≠ "None" →
        (∀ tl1,
          (if opts.scaleFirst then svc.optimizeTreeScale tl else Except.ok tl) = Except.ok tl1 →
          (selectParameters ops Variant.treeLikelihood (svc.names tl1) opts parameters).2
            = none →
          (opts.backupFile = "none" ∨ ∃ tl2, svc.restore opts.backupFile tl1 = .ok tl2) →
          (opts.nniMethod = "fast" ∨ opts.nniMethod = "better" ∨ opts.nniMethod = "phyml") →
          (opts.order = "Gradient" ∨ opts.order = "Newton" ∨ opts.order = "BFGS") →
          (optimizeParameters svc ops opts tl parameters).thrown
            = some OptErr.topologyWithClock) ∧
        (opts.scaleFirst = false → opts.ignoreDeprecated = false →
          opts.constrainDeprecated = false →
          (selectParameters ops Variant.phyloLikelihood (svc.names tl) opts parameters).2
            = none →
          (opts.backupFile = "none" ∨ ∃ tl2, svc.restore opts.backupFile tl = .ok tl2) →
          (optimizeParametersPhylo svc ops opts tl parameters).thrown
            = some OptErr.topologyNotImplemented)) := by
  refine ⟨?_, ?_, ?_⟩
  · intro hnone
    simp [optimizeParameters, optimizeParametersPhylo, hnone]
  · intro hopt
    -- the function for a `TreeLikelihood`, from the list of parameters on
    have htree : ∀ (tl1 : L) (stages1 : List Stage),
        ((match selectParameters ops Variant.treeLikelihood (svc.names tl1) opts parameters with
          | (_, some e) => (⟨tl1, stages1, some e⟩ : Session L)
          | (parametersToEstimate, none) =>
            (restoreStep svc opts tl1 stages1).andThen
              (optimizeFrom svc opts parametersToEstimate)).thrown ≠ none) ∧
        ((match selectParameters ops Variant.treeLikelihood (svc.names tl1) opts parameters with
          | (_, some e) => (⟨tl1, stages1, some e⟩ : Session L)
          | (parametersToEstimate, none) =>
            (restoreStep svc opts tl1 stages1).andThen
              (optimizeFrom svc opts parametersToEstimate)).stages = stages1) := by
      intro tl1 stages1
      cases hsel : selectParameters ops Variant.treeLikelihood (svc.names tl1) opts parameters with
      | mk pl thrown =>
        cases thrown with
        | some e => simp
        | none =>
          simp only []
          cases hr : (restoreStep svc opts tl1 stages1).thrown with
          | some e =>
            rw [andThen_thrown _ _ (by rw [hr]; simp)]
            exact ⟨by rw [hr]; simp, restoreStep_stages svc opts tl1 stages1⟩
          | none =>
            rw [andThen_returned _ _ hr, restoreStep_stages]
            exact ⟨(optimizeFrom_refused svc opts pl _ stages1 htopo hclock).1,
              (optimizeFrom_refused svc opts pl _ stages1 htopo hclock).2.1⟩
    have hphylo : (optimizeParametersPhylo svc ops opts tl parameters).thrown ≠ none ∧
        (optimizeParametersPhylo svc ops opts tl parameters).stages = [] := by
      unfold optimizeParametersPhylo
      rw [if_neg hopt]
      cases opts.scaleFirst with
      | true => simp
      | false =>
        cases opts.ignoreDeprecated with
        | true => simp
        | false =>
          cases opts.constrainDeprecated with
          | true => simp
          | false =>
            simp only [Bool.false_eq_true, if_false]
            cases hsel : selectParameters ops Variant.phyloLikelihood (svc.names tl) opts
                parameters with
            | mk pl thrown =>
              cases thrown with
              | some e => simp
              | none =>
                simp only []
                cases hr : (restoreStep svc opts tl []).thrown with
                | some e =>
                  rw [andThen_thrown _ _ (by rw [hr]; simp)]
                  exact ⟨by rw [hr]; simp, restoreStep_stages svc opts tl []⟩
                | none =>
                  rw [andThen_returned _ _ hr, restoreStep_stages]
                  have h := optimizeFrom_refused svc opts pl
                    (restoreStep svc opts tl []).tl [] htopo hclock
                  exact ⟨by rw [h.2.2.1]; simp, h.2.2.2⟩
    refine ⟨?_, ?_, hphylo.1, hphylo.2⟩
    all_goals
      unfold optimizeParameters
      rw [if_neg hopt]
      cases hscale : opts.scaleFirst with
      | false =>
        simp only [Bool.false_eq_true, if_false]
        rw [andThen_returned _ _ rfl]
        first
          | exact (htree tl []).1
          | exact (htree tl []).2
      | true =>
        simp only [if_true]
        cases hsvc : svc.optimizeTreeScale tl with
        | error message => simp [invoke, Session.andThen]
        | ok tl1 =>
          rw [andThen_returned _ _ (by simp [invoke])]
          first
            | exact (htree _ _).1
            | (rw [(htree _ _).2]; simp [invoke])
  · intro hopt
    constructor
    · intro tl1 hpre hsel hrest hnni hord
      have hselect : ∀ (stages1 : List Stage),
          (match selectParameters ops Variant.treeLikelihood (svc.names tl1) opts
              parameters with
            | (_, some e) => (⟨tl1, stages1, some e⟩ : Session L)
            | (parametersToEstimate, none) =>
              (restoreStep svc opts tl1 stages1).andThen
                (optimizeFrom svc opts parametersToEstimate)).thrown
            = some OptErr.topologyWithClock := by
        intro stages1
        cases hs : selectParameters ops Variant.treeLikelihood (svc.names tl1) opts
            parameters with
        | mk pl thrown =>
          rw [hs] at hsel
          simp only [] at hsel
          subst hsel
          simp only []
          rw [andThen_returned _ _ (restoreStep_returned svc opts tl1 stages1 hrest),
            optimizeFrom_topologyWithClock svc opts pl _ _ htopo hclock hnni hord]
      unfold optimizeParameters
      rw [if_neg hopt]
      cases hscale : opts.scaleFirst with
      | false =>
        rw [hscale] at hpre
        simp only [Bool.false_eq_true, if_false, Except.ok.injEq] at hpre
        subst hpre
        simp only [Bool.false_eq_true, if_false]
        rw [andThen_returned _ _ rfl]
        exact hselect []
      | true =>
        rw [hscale] at hpre
        simp only [if_true] at hpre
        simp only [if_true]
        rw [hpre, andThen_returned _ _ (by simp [invoke])]
        exact hselect _
    · intro hscale hign hcon hsel hrest
      unfold optimizeParametersPhylo
      rw [if_neg hopt, hscale, hign, hcon]
      simp only [Bool.false_eq_true, if_false]
      cases hs : selectParameters ops Variant.phyloLikelihood (svc.names tl) opts
          parameters with
      | mk pl thrown =>
        rw [hs] at hsel
        simp only [] at hsel
        subst hsel
        simp only []
        rw [andThen_returned _ _ (restoreStep_returned svc opts tl [] hrest)]
        unfold optimizeFromPhylo
        rw [if_pos htopo]

/-- C17 (amended) on a topology search under a global clock, with a branch prescale, a
constrain list and a backup file: the function for a `TreeLikelihood` throws after the
branch prescale, and the exception is the one of line 2377. -/
theorem topology_with_clock_refused_witness :
    (optimizeParameters countingOptimizers intIntervals topologyAndClockScaled 0
        fourParameters).stages = [Stage.branchPrescale] ∧
      (optimizeParameters countingOptimizers intIntervals topologyAndClockScaled 0
        fourParameters).thrown = some OptErr.topologyWithClock :=
  ⟨((topology_with_clock_refused countingOptimizers intIntervals topologyAndClockScaled 0
      fourParameters (by decide) (by decide)).2.1 (by decide)).2.1,
    ((topology_with_clock_refused countingOptimizers intIntervals topologyAndClockScaled 0
      fourParameters (by decide) (by decide)).2.2 (by decide)).1 1 rfl (by decide)
      (Or.inr ⟨1, rfl⟩) (by decide) (by decide)⟩

/-! ### The ignore list and the wildcard patterns -/

/-- C18, the failing input: on the parameters `a1`, `a2`, `a3`, `b` and the ignore list
`a1`, `a*`, the loop of either function leaves `a2` and `a3` in the list of parameters to
estimate, though the
pattern `a*` matches them: the pattern is matched against the names of the list that was
handed over, `a1` is no longer found, and the exception ends the directive. Without the
directive `a1` all three are taken out. -/
theorem ignore_wildcard_leaves_matching :
    getParameterNames (ignoreLoop Variant.treeLikelihood fourParametersLikelihood
        (getParameterNames fourParameters) ["a1", "a*"] fourParameters).1
      = ["a2", "a3", "b"] ∧
      getParameterNames (ignoreLoop Variant.phyloLikelihood fourParametersLikelihood
        (getParameterNames fourParameters) ["a1", "a*"] fourParameters).1
      = ["a2", "a3", "b"] ∧
      matchingParameters "a*" ["a2", "a3", "b"] = ["a2", "a3"] ∧
      (ignoreLoop Variant.treeLikelihood fourParametersLikelihood
        (getParameterNames fourParameters) ["a1", "a*"] fourParameters).2 = ["a1"] ∧
      getParameterNames (ignoreLoop Variant.treeLikelihood fourParametersLikelihood
        (getParameterNames fourParameters) ["a*"] fourParameters).1 = ["b"] := by
  decide

/-! ### The group `Model` in the constrain list of a `PhyloLikelihood` -/

/-- C21, the failing input: for a `PhyloLikelihood` whose substitution model parameters are
`a1`, `a2`, `a3` and whose branch length is `b`, all four in the list of parameters to
estimate, the directive `Model=[0;10]` leaves every parameter without constraint and reports
nothing, whereas `BrLen=[0;10]` constrains `b`, and the same directive `Model=[0;10]`
constrains `a1`, `a2`, `a3` in the function for a `TreeLikelihood`. Whatever the likelihood
is, the directive `Model` stands for no name at all in the function for a
`PhyloLikelihood`. -/
theorem phylo_model_group_not_constrained :
    constrainLoop intIntervals Variant.phyloLikelihood fourParametersLikelihood
        (getParameterNames fourParameters) (getParameterNames fourParameters)
        ["Model=[0;10]"] fourParameters = (fourParameters, [], none) ∧
      constrainLoop intIntervals Variant.phyloLikelihood fourParametersLikelihood
        (getParameterNames fourParameters) (getParameterNames fourParameters)
        ["BrLen=[0;10]"] fourParameters
        = ([⟨"a1", 7, none⟩, ⟨"a2", 7, none⟩, ⟨"a3", 7, none⟩, ⟨"b", 7, some ⟨0, 10⟩⟩],
            [], none) ∧
      constrainLoop intIntervals Variant.treeLikelihood fourParametersLikelihood
        (getParameterNames fourParameters) (getParameterNames fourParameters)
        ["Model=[0;10]"] fourParameters
        = ([⟨"a1", 7, some ⟨0, 10⟩⟩, ⟨"a2", 7, some ⟨0, 10⟩⟩, ⟨"a3", 7, some ⟨0, 10⟩⟩,
            ⟨"b", 7, none⟩], [], none) ∧
      (∀ (lik : LikelihoodNames) (parToEstNames : List String),
        parNames2 Variant.phyloLikelihood lik parToEstNames "Model" = []) := by
  refine ⟨by decide, by decide, by decide, ?_⟩
  intro lik parToEstNames
  simp [parNames2]

/-! ### The restoring from a backup file -/

theorem whichParameterHasName_mem {I V : Type} (pname : String) (pl : ParameterList I V)
    (h : pname ∈ getParameterNames pl) : ∃ p, whichParameterHasName pname pl = some p := by
  induction pl with
  | nil => simp [getParameterNames] at h
  | cons par rest ih =>
    by_cases hp : par.name = pname
    · exact ⟨0, by simp [whichParameterHasName, hp]⟩
    · have hrest : pname ∈ getParameterNames rest := by
        simp only [getParameterNames, List.map_cons, List.mem_cons] at h
        rcases h with h | h
        · exact absurd h.symm hp
        · exact h
      obtain ⟨p, hp1⟩ := ih hrest
      exact ⟨p + 1, by simp [whichParameterHasName, hp, hp1]⟩

theorem setValueAt_eq_map {I V : Type} (pname : String) (v : V) (pl : ParameterList I V)
    (p : Nat) (hnodup : (getParameterNames pl).Nodup)
    (h : whichParameterHasName pname pl = some p) :
    setValueAt p v pl
      = pl.map (fun par => if par.name = pname then { par with value := v } else par) := by
  induction pl generalizing p with
  | nil => simp [whichParameterHasName] at h
  | cons par rest ih =>
    simp only [getParameterNames, List.map_cons, List.nodup_cons, List.mem_map, not_exists,
      not_and] at hnodup
    by_cases hp : par.name = pname
    · simp only [whichParameterHasName, if_pos hp, Option.some.injEq] at h
      subst h
      have hrest : rest.map (fun q => if q.name = pname then { q with value := v } else q)
          = rest := by
        conv_rhs => rw [← List.map_id rest]
        apply List.map_congr_left
        intro q hq
        have : ¬ q.name = pname := fun hqn => hnodup.1 q hq (hqn.trans hp.symm)
        simp [this]
      simp [setValueAt, hp, hrest]
    · simp only [whichParameterHasName, if_neg hp] at h
      cases hw : whichParameterHasName pname rest with
      | none => rw [hw] at h; simp at h
      | some p1 =>
        rw [hw] at h
        simp only [Option.some.injEq] at h
        subst h
        have := ih p1 hnodup.2 hw
        simp only [setValueAt] at this
        simp [setValueAt, hp, this]

theorem whichParameterHasName_none {I V : Type} (pname : String) (pl : ParameterList I V)
    (h : pname ∉ getParameterNames pl) : whichParameterHasName pname pl = none := by
  induction pl with
  | nil => rfl
  | cons par rest ih =>
    simp only [getParameterNames, List.map_cons, List.mem_cons, not_or] at h
    have hp : ¬ par.name = pname := fun hp => h.1 hp.symm
    have hrest : whichParameterHasName pname rest = none := ih h.2
    simp [whichParameterHasName, hp, hrest]

theorem getParameterNames_setValueAt {I V : Type} (pname : String) (v : V)
    (pl : ParameterList I V) (p : Nat) (hnodup : (getParameterNames pl).Nodup)
    (h : whichParameterHasName pname pl = some p) :
    getParameterNames (setValueAt p v pl) = getParameterNames pl := by
  rw [setValueAt_eq_map pname v pl p hnodup h]
  simp only [getParameterNames, List.map_map]
  apply List.map_congr_left
  intro par _
  by_cases hp : par.name = pname <;> simp [hp]

theorem lastValueFor_cons {D : Type} (st : String → List String) (toDouble : String → D)
    (name line : String) (rest : List String) :
    lastValueFor st toDouble name (line :: rest)
      = match lastValueFor st toDouble name rest with
        | some v => some v
        | none =>
          if isEmptyText line = false ∧ (st line).head? = some name then
            some (toDouble ((st line).getD 1 ""))
          else none := by
  unfold lastValueFor
  rw [List.reverse_cons, List.find?_append]
  cases hf : rest.reverse.find?
      (fun line => !isEmptyText line && decide ((st line).head? = some name)) with
  | some found => rfl
  | none =>
    simp only [Option.none_or, List.find?_cons, List.find?_nil]
    by_cases hline : isEmptyText line = false ∧ (st line).head? = some name
    · simp [hline.1, hline.2]
    · rw [if_neg hline]
      have : (!isEmptyText line && decide ((st line).head? = some name)) = false := by
        by_cases h1 : isEmptyText line = false
        · have h2 : ¬ (st line).head? = some name := fun h2 => hline ⟨h1, h2⟩
          simp [h1, h2]
        · simp at h1
          simp [h1]
      simp only [this]

/-- The loop over the lines of a file in which every line after the first is empty or starts
with the name of a parameter followed by a value: no exception, and every parameter has the
value that the lines hold for it. -/
theorem restoreLines_ok {I D : Type} (st : String → List String) (toDouble : String → D)
    (lines : List String) (l : Nat) (pl : ParameterList I D) (corrupted : List Nat)
    (hnodup : (getParameterNames pl).Nodup)
    (hlines : ∀ line ∈ lines, isEmptyText line = true ∨
      ∃ pname pvalue more, st line = pname :: pvalue :: more ∧ pname ∈ getParameterNames pl) :
    (restoreLines st toDouble lines l pl corrupted).thrown = none ∧
      (restoreLines st toDouble lines l pl corrupted).pl
        = restoredParameters st toDouble lines pl := by
  induction lines generalizing l pl corrupted with
  | nil =>
    refine ⟨rfl, ?_⟩
    simp [restoreLines, restoredParameters, lastValueFor]
  | cons line rest ih =>
    have hrest : ∀ q ∈ rest, isEmptyText q = true ∨
        ∃ pname pvalue more, st q = pname :: pvalue :: more ∧ pname ∈ getParameterNames pl :=
      fun q hq => hlines q (List.mem_cons_of_mem line hq)
    rcases hlines line (List.mem_cons_self line rest) with hblank | ⟨pname, pvalue, more, hst, hmem⟩
    · rw [restoreLines, if_pos hblank]
      refine ⟨(ih (l + 1) pl corrupted hnodup hrest).1, ?_⟩
      rw [(ih (l + 1) pl corrupted hnodup hrest).2]
      simp only [restoredParameters]
      apply List.map_congr_left
      intro par _
      rw [lastValueFor_cons]
      cases lastValueFor st toDouble par.name rest with
      | some v => rfl
      | none => simp [hblank]
    · obtain ⟨p, hp⟩ := whichParameterHasName_mem pname pl hmem
      have hmap := setValueAt_eq_map pname (toDouble pvalue) pl p hnodup hp
      have hnames : getParameterNames (setValueAt p (toDouble pvalue) pl)
          = getParameterNames pl := by
        rw [hmap]
        simp only [getParameterNames, List.map_map]
        apply List.map_congr_left
        intro par _
        by_cases h : par.name = pname <;> simp [h]
      have hnonblank : isEmptyText line = false ∨ isEmptyText line = true := by
        cases isEmptyText line <;> simp
      rcases hnonblank with hnb | hb
      · have ih1 := ih (l + 1) (setValueAt p (toDouble pvalue) pl)
          (if (st line).length ≠ 2 then corrupted ++ [l] else corrupted)
          (by rw [hnames]; exact hnodup) (by rw [hnames]; exact hrest)
        have hstep : restoreLines st toDouble (line :: rest) l pl corrupted
            = restoreLines st toDouble rest (l + 1) (setValueAt p (toDouble pvalue) pl)
                (if (st line).length ≠ 2 then corrupted ++ [l] else corrupted) := by
          rw [restoreLines]
          simp only [hnb, Bool.false_eq_true, if_false, hst, hp]
        rw [hstep]
        refine ⟨ih1.1, ?_⟩
        rw [ih1.2, hmap]
        simp only [restoredParameters, List.map_map]
        apply List.map_congr_left
        intro par _
        simp only [Function.comp]
        rw [lastValueFor_cons]
        by_cases hpar : par.name = pname
        · simp only [hpar, if_true]
          cases lastValueFor st toDouble pname rest with
          | some v => rfl
          | none => simp [hnb, hst]
        · simp only [hpar, if_false]
          cases lastValueFor st toDouble par.name rest with
          | some v => rfl
          | none =>
            have : ¬ (isEmptyText line = false ∧ (st line).head? = some par.name) := by
              rintro ⟨_, h⟩
              rw [hst] at h
              simp only [List.head?_cons, Option.some.injEq] at h
              exact hpar h.symm
            simp [this]
      · rw [restoreLines, if_pos hb]
        refine ⟨(ih (l + 1) pl corrupted hnodup hrest).1, ?_⟩
        rw [(ih (l + 1) pl corrupted hnodup hrest).2]
        simp only [restoredParameters]
        apply List.map_congr_left
        intro par _
        rw [lastValueFor_cons]
        cases lastValueFor st toDouble par.name rest with
        | some v => rfl
        | none => simp [hb]

/-- The loop over the lines of a file in which a line names no parameter of the likelihood,
the lines before it being empty or starting with the name of a parameter followed by a
value: the exception is the one of `whichParameterHasName` for that name. -/
theorem restoreLines_unknown {I D : Type} (st : String → List String)
    (toDouble : String → D) (before : List String) (line : String) (after : List String)
    (l : Nat) (pl : ParameterList I D) (corrupted : List Nat) (pname pvalue : String)
    (more : List String) (hnodup : (getParameterNames pl).Nodup)
    (hbefore : ∀ q ∈ before, isEmptyText q = true ∨
      ∃ qname qvalue qmore, st q = qname :: qvalue :: qmore ∧ qname ∈ getParameterNames pl)
    (hline : isEmptyText line = false) (hst : st line = pname :: pvalue :: more)
    (hunknown : pname ∉ getParameterNames pl) :
    (restoreLines st toDouble (before ++ line :: after) l pl corrupted).thrown
      = some (RestoreErr.parameterNotFound pname) := by
  induction before generalizing l pl corrupted with
  | nil =>
    rw [List.nil_append, restoreLines]
    simp only [hline, Bool.false_eq_true, if_false, hst,
      whichParameterHasName_none pname pl hunknown]
  | cons q rest ih =>
    have hrest : ∀ q1 ∈ rest, isEmptyText q1 = true ∨
        ∃ qname qvalue qmore, st q1 = qname :: qvalue :: qmore ∧
          qname ∈ getParameterNames pl :=
      fun q1 hq1 => hbefore q1 (List.mem_cons_of_mem q hq1)
    rw [List.cons_append, restoreLines]
    cases hq : isEmptyText q with
    | true =>
      simp only [if_true]
      exact ih (l + 1) pl corrupted hnodup hrest hunknown
    | false =>
      rcases hbefore q (List.mem_cons_self q rest) with hblank | ⟨qname, qvalue, qmore, hqst, hmem⟩
      · rw [hq] at hblank
        cases hblank
      · obtain ⟨p, hp⟩ := whichParameterHasName_mem qname pl hmem
        have hnames := getParameterNames_setValueAt qname (toDouble qvalue) pl p hnodup hp
        simp only [Bool.false_eq_true, if_false, hqst, hp]
        exact ih (l + 1) (setValueAt p (toDouble qvalue) pl) _ (by rw [hnames]; exact hnodup)
          (by rw [hnames]; exact hrest) (by rw [hnames]; exact hunknown)

/-- The loop over the lines of a file in which a line that is not empty holds fewer than two
tokens, the lines before it being empty or starting with the name of a parameter followed by
a value: the exception is the one of `nextToken`, at that line. -/
theorem restoreLines_short {I D : Type} (st : String → List String)
    (toDouble : String → D) (before : List String) (line : String) (after : List String)
    (l : Nat) (pl : ParameterList I D) (corrupted : List Nat)
    (hnodup : (getParameterNames pl).Nodup)
    (hbefore : ∀ q ∈ before, isEmptyText q = true ∨
      ∃ qname qvalue qmore, st q = qname :: qvalue :: qmore ∧ qname ∈ getParameterNames pl)
    (hline : isEmptyText line = false) (hst : (st line).length < 2) :
    (restoreLines st toDouble (before ++ line :: after) l pl corrupted).thrown
      = some (RestoreErr.noMoreToken (l + before.length)) := by
  induction before generalizing l pl corrupted with
  | nil =>
    rw [List.nil_append, restoreLines]
    simp only [hline, Bool.false_eq_true, if_false, List.length_nil, Nat.add_zero]
    cases hs : st line with
    | nil => rfl
    | cons t ts =>
      cases ts with
      | nil => rfl
      | cons t1 ts1 =>
        rw [hs] at hst
        simp only [List.length_cons] at hst
        omega
  | cons q rest ih =>
    have hrest : ∀ q1 ∈ rest, isEmptyText q1 = true ∨
        ∃ qname qvalue qmore, st q1 = qname :: qvalue :: qmore ∧
          qname ∈ getParameterNames pl :=
      fun q1 hq1 => hbefore q1 (List.mem_cons_of_mem q hq1)
    have hlen : l + (q :: rest).length = l + 1 + rest.length := by
      simp only [List.length_cons]
      omega
    rw [List.cons_append, restoreLines, hlen]
    cases hq : isEmptyText q with
    | true =>
      simp only [if_true]
      exact ih (l + 1) pl corrupted hnodup hrest
    | false =>
      rcases hbefore q (List.mem_cons_self q rest) with hblank | ⟨qname, qvalue, qmore, hqst, hmem⟩
      · rw [hq] at hblank
        cases hblank
      · obtain ⟨p, hp⟩ := whichParameterHasName_mem qname pl hmem
        have hnames := getParameterNames_setValueAt qname (toDouble qvalue) pl p hnodup hp
        simp only [Bool.false_eq_true, if_false, hqst, hp]
        exact ih (l + 1) (setValueAt p (toDouble qvalue) pl) _ (by rw [hnames]; exact hnodup)
          (by rw [hnames]; exact hrest)

/-- C22, the failing input: the backup file holds the lines `f(x)=9`, an empty line and
`kappa=2=3`, for a likelihood of parameters `kappa` and `alpha`, both of value 7, whose
value is their sum. The third line has three fields. It is reported as corrupted, its second
field is taken as the value of `kappa` all the same, and the restoring ends without an
exception. -/
theorem corrupted_line_is_read :
    (splitEquals "kappa=2=3").length = 3 ∧
      restoreLines splitEquals digitsToRat ["", "kappa=2=3"] 1 kappaAlpha []
        = ⟨[⟨"kappa", 2, none⟩, ⟨"alpha", 7, none⟩], [2], none⟩ ∧
      (restoreFromBackup splitEquals digitsToRat sumOfValues smallDoubles
        (some ["f(x)=9", "", "kappa=2=3"]) kappaAlpha).thrown = none ∧
      (restoreFromBackup splitEquals digitsToRat sumOfValues smallDoubles
        (some ["f(x)=9", "", "kappa=2=3"]) kappaAlpha).pl
        = [⟨"kappa", 2, none⟩, ⟨"alpha", 7, none⟩] := by
  have h : restoreLines splitEquals digitsToRat ["", "kappa=2=3"] 1 kappaAlpha []
    = ⟨[⟨"kappa", 2, none⟩, ⟨"alpha", 7, none⟩], [2], none⟩ := rfl
  have hs : substr "f(x)=9".data 5 (2 ^ 64 - 1) = some ['9'] := by decide
  have hd : digitsToRat (String.mk ['9']) = 9 := by simp [digitsToRat, digitsToInt]
  refine ⟨by decide, h, ?_, ?_⟩
  · simp only [restoreFromBackup, hs, h, hd, smallDoubles]
    norm_num [sumOfValues]
  · simp only [restoreFromBackup, hs, h, hd, smallDoubles]
    norm_num [sumOfValues]

/-- C23, counterexample: the backup file holds the lines `f(x)=14` and `zz=1`, for a
likelihood of parameters `kappa` and `alpha` whose value 14 is the one stored on the first
line. The restoring throws, for `zz` names no parameter, though the value of the likelihood
does not differ from the stored one. -/
theorem restore_fails_on_unknown_name :
    (restoreFromBackup splitEquals digitsToRat sumOfValues smallDoubles
        (some ["f(x)=14", "zz=1"]) kappaAlpha).thrown
        = some (RestoreErr.parameterNotFound "zz") ∧
      (restoreFromBackup splitEquals digitsToRat sumOfValues smallDoubles
        (some ["f(x)=14", "zz=1"]) kappaAlpha).pl = kappaAlpha ∧
      smallDoubles.gt (smallDoubles.abs (smallDoubles.sub (sumOfValues kappaAlpha)
        (digitsToRat "14"))) smallDoubles.tolerance = false := by
  have hd : digitsToInt "14" = 14 := by decide
  refine ⟨rfl, rfl, ?_⟩
  rw [digitsToRat, hd]
  norm_num [sumOfValues, kappaAlpha, smallDoubles]

/-- C23 (amended): let the backup file exist, with a first line of at least five characters,
the names of the parameters of the likelihood being distinct. When every later line is
either empty or made of the name of a parameter of the likelihood followed by a value,
every parameter of the likelihood takes the value that the lines hold for it, the last line
for a name winning, and keeps its value when the lines hold none; the restoring throws
exactly when the test of line 2317 holds, in the arithmetic of doubles, of the value of the
likelihood for these parameters and the value read after the fifth character of the first
line, and the exception is then the one of line 2318. When the first line that is neither
empty nor of this form holds a name that is no parameter of the likelihood, the restoring
throws the exception of `whichParameterHasName` for that name, and when it holds fewer than
two tokens, the exception of `nextToken`; in both cases the parameters of the likelihood
are left as they are, and the value of the likelihood plays no part. When no backup file
exists the parameters are left as they are and nothing is thrown. -/
theorem restore_checks_objective {I D : Type} (st : String → List String)
    (toDouble : String → D) (getValue : ParameterList I D → D) (dbl : DoubleOps D)
    (first : String) (rest : List String) (pl : ParameterList I D)
    (hfirst : 5 ≤ first.data.length)
    (hnodup : (getParameterNames pl).Nodup) :
    ((∀ line ∈ rest, isEmptyText line = true ∨
        ∃ pname pvalue more, st line = pname :: pvalue :: more ∧
          pname ∈ getParameterNames pl) →
      (restoreFromBackup st toDouble getValue dbl (some (first :: rest)) pl).pl
          = restoredParameters st toDouble rest pl ∧
        ((restoreFromBackup st toDouble getValue dbl (some (first :: rest)) pl).thrown ≠ none ↔
          dbl.gt (dbl.abs (dbl.sub (getValue (restoredParameters st toDouble rest pl))
            (toDouble (String.mk ((first.data.drop 5).take (2 ^ 64 - 1)))))) dbl.tolerance
            = true) ∧
        ((restoreFromBackup st toDouble getValue dbl (some (first :: rest)) pl).thrown ≠ none →
          (restoreFromBackup st toDouble getValue dbl (some (first :: rest)) pl).thrown
            = some RestoreErr.incorrectLikelihood)) ∧
      (∀ (before : List String) (line : String) (after : List String)
          (pname pvalue : String) (more : List String),
        rest = before ++ line :: after →
        (∀ q ∈ before, isEmptyText q = true ∨
          ∃ qname qvalue qmore, st q = qname :: qvalue :: qmore ∧
            qname ∈ getParameterNames pl) →
        isEmptyText line = false → st line = pname :: pvalue :: more →
        pname ∉ getParameterNames pl →
        (restoreFromBackup st toDouble getValue dbl (some (first :: rest)) pl).thrown
            = some (RestoreErr.parameterNotFound pname) ∧
          (restoreFromBackup st toDouble getValue dbl (some (first :: rest)) pl).pl = pl ∧
          ∀ (getValue1 : ParameterList I D → D) (dbl1 : DoubleOps D),
            restoreFromBackup st toDouble getValue1 dbl1 (some (first :: rest)) pl
              = restoreFromBackup st toDouble getValue dbl (some (first :: rest)) pl) ∧
      (∀ (before : List String) (line : String) (after : List String),
        rest = before ++ line :: after →
        (∀ q ∈ before, isEmptyText q = true ∨
          ∃ qname qvalue qmore, st q = qname :: qvalue :: qmore ∧
            qname ∈ getParameterNames pl) →
        isEmptyText line = false → (st line).length < 2 →
        (restoreFromBackup st toDouble getValue dbl (some (first :: rest)) pl).thrown
            = some (RestoreErr.noMoreToken (1 + before.length)) ∧
          (restoreFromBackup st toDouble getValue dbl (some (first :: rest)) pl).pl = pl ∧
          ∀ (getValue1 : ParameterList I D → D) (dbl1 : DoubleOps D),
            restoreFromBackup st toDouble getValue1 dbl1 (some (first :: rest)) pl
              = restoreFromBackup st toDouble getValue dbl (some (first :: rest)) pl) ∧
      (restoreFromBackup st toDouble getValue dbl none pl).pl = pl ∧
      (restoreFromBackup st toDouble getValue dbl none pl).thrown = none := by
  have hsub : substr first.data 5 (2 ^ 64 - 1)
      = some ((first.data.drop 5).take (2 ^ 64 - 1)) := by
    unfold substr
    rw [if_neg (by omega)]
  have hfails : ∀ (e : RestoreErr), (restoreLines st toDouble rest 1 pl []).thrown = some e →
      ∀ (getValue1 : ParameterList I D → D) (dbl1 : DoubleOps D),
        restoreFromBackup st toDouble getValue1 dbl1 (some (first :: rest)) pl
          = ⟨pl, (restoreLines st toDouble rest 1 pl []).corrupted, some e⟩ := by
    intro e hloop getValue1 dbl1
    cases hr : restoreLines st toDouble rest 1 pl [] with
    | mk pl1 corrupted thrown =>
      rw [hr] at hloop
      simp only [] at hloop
      subst hloop
      unfold restoreFromBackup
      simp only [hsub, hr]
  refine ⟨?_, ?_, ?_, rfl, rfl⟩
  · intro hlines
    have hloop := restoreLines_ok st toDouble rest 1 pl [] hnodup hlines
    cases hr : restoreLines st toDouble rest 1 pl [] with
    | mk pl1 corrupted thrown =>
      rw [hr] at hloop
      simp only [] at hloop
      obtain ⟨hthrown, hpl⟩ := hloop
      subst hthrown
      subst hpl
      unfold restoreFromBackup
      simp only [hsub, hr]
      cases hdiff : dbl.gt (dbl.abs (dbl.sub (getValue (restoredParameters st toDouble rest pl))
          (toDouble (String.mk ((first.data.drop 5).take (2 ^ 64 - 1)))))) dbl.tolerance with
      | true => simp
      | false => simp
  · intro before line after pname pvalue more hrest hbefore hline hst hunknown
    have hloop := restoreLines_unknown st toDouble before line after 1 pl [] pname pvalue
      more hnodup hbefore hline hst hunknown
    rw [← hrest] at hloop
    have hall := hfails _ hloop
    refine ⟨by rw [hall], by rw [hall], ?_⟩
    intro getValue1 dbl1
    rw [hall, hall]
  · intro before line after hrest hbefore hline hst
    have hloop := restoreLines_short st toDouble before line after 1 pl [] hnodup hbefore
      hline hst
    rw [← hrest] at hloop
    have hall := hfails _ hloop
    refine ⟨by rw [hall], by rw [hall], ?_⟩
    intro getValue1 dbl1
    rw [hall, hall]

/-- C23 (amended) on the backup file of lines `f(x)=9` and `kappa=2`: the parameters of the
likelihood are those that the lines hold. On the file of lines `f(x)=9`, `kappa=2` and
`zz=1` the exception is the one for the name `zz`, and on the file of lines `f(x)=9`,
`kappa=2` and `alpha` the one of `nextToken` at line 2. -/
theorem restore_checks_objective_witness :
    ((restoreFromBackup splitEquals digitsToRat sumOfValues smallDoubles
          (some ("f(x)=9" :: ["kappa=2"])) kappaAlpha).pl
        = restoredParameters splitEquals digitsToRat ["kappa=2"] kappaAlpha ∧
      restoredParameters splitEquals digitsToRat ["kappa=2"] kappaAlpha
        = [⟨"kappa", 2, none⟩, ⟨"alpha", 7, none⟩]) ∧
      (restoreFromBackup splitEquals digitsToRat sumOfValues smallDoubles
          (some ("f(x)=9" :: ["kappa=2", "zz=1"])) kappaAlpha).thrown
        = some (RestoreErr.parameterNotFound "zz") ∧
      (restoreFromBackup splitEquals digitsToRat sumOfValues smallDoubles
          (some ("f(x)=9" :: ["kappa=2", "alpha"])) kappaAlpha).thrown
        = some (RestoreErr.noMoreToken (1 + ["kappa=2"].length)) :=
  ⟨⟨((restore_checks_objective splitEquals digitsToRat sumOfValues smallDoubles "f(x)=9"
      ["kappa=2"] kappaAlpha (by decide) (by decide)).1
      (fun line h => Or.inr ⟨"kappa", "2", [], by simp at h; subst h; decide, by decide⟩)).1,
      rfl⟩,
    ((restore_checks_objective splitEquals digitsToRat sumOfValues smallDoubles "f(x)=9"
      ["kappa=2", "zz=1"] kappaAlpha (by decide) (by decide)).2.1 ["kappa=2"] "zz=1" []
      "zz" "1" [] rfl
      (fun line h => Or.inr ⟨"kappa", "2", [], by simp at h; subst h; decide, by decide⟩)
      (by decide) (by decide) (by decide)).1,
    ((restore_checks_objective splitEquals digitsToRat sumOfValues smallDoubles "f(x)=9"
      ["kappa=2", "alpha"] kappaAlpha (by decide) (by decide)).2.2.1 ["kappa=2"] "alpha" []
      rfl
      (fun line h => Or.inr ⟨"kappa", "2", [], by simp at h; subst h; decide, by decide⟩)
      (by decide) (by decide)).1⟩

/-! ### The order of the stages -/

theorem andThen_none {L : Type} (s : Session L) (f : L → List Stage → Session L)
    (h : (s.andThen f).thrown = none) :
    s.thrown = none ∧ s.andThen f = f s.tl s.stages := by
  cases hs : s.thrown with
  | some e =>
    rw [andThen_thrown s f (by rw [hs]; simp), hs] at h
    exact absurd h (by simp)
  | none => exact ⟨rfl, andThen_returned s f hs⟩

theorem invoke_stages {L : Type} (stage : Stage) (result : Except String L) (tl : L)
    (stages : List Stage) : (invoke stage result tl stages).stages = stages ++ [stage] := by
  cases result <;> rfl

theorem optional_stage {L : Type} (b : Bool) (stage : Stage) (result : Except String L)
    (tl : L) (stages : List Stage) :
    (if b = true then invoke stage result tl stages else (⟨tl, stages, none⟩ : Session L)).stages
      = stages ++ (if b = true then [stage] else []) := by
  cases b
  · simp
  · simp [invoke_stages]

/-- The stages of the numerical and final optimizations when nothing is thrown: the topology
search when it is asked for, the numerical optimization, and the final optimization when a
final method is named. -/
theorem refineAndPolish_stages {L I V : Type} (svc : Optimizers L I V)
    (opts : OptimizationOptions) (searchTopology useClock : Bool) (tl : L)
    (pl : ParameterList I V) (stages : List Stage)
    (h : (refineAndPolish svc opts searchTopology useClock tl pl stages).thrown = none) :
    (refineAndPolish svc opts searchTopology useClock tl pl stages).stages
      = stages ++ (if searchTopology = true then [Stage.topologySearch] else [])
          ++ [Stage.numericRefinement]
          ++ (if opts.finalMethod = "none" then [] else [Stage.finalPolish]) := by
  unfold refineAndPolish at h ⊢
  simp only [] at h ⊢
  obtain ⟨hrefined, heq⟩ := andThen_none _ _ h
  rw [heq] at h ⊢
  -- the stages up to the numerical optimization
  have hnum : ∀ (r : L → Except String L) (topo : Except String L),
      ((if searchTopology = true then invoke Stage.topologySearch topo tl stages
          else (⟨tl, stages, none⟩ : Session L)).andThen
        (fun tl1 stages1 => invoke Stage.numericRefinement (r tl1) tl1 stages1)).thrown = none →
      ((if searchTopology = true then invoke Stage.topologySearch topo tl stages
          else (⟨tl, stages, none⟩ : Session L)).andThen
        (fun tl1 stages1 => invoke Stage.numericRefinement (r tl1) tl1 stages1)).stages
        = stages ++ (if searchTopology = true then [Stage.topologySearch] else [])
            ++ [Stage.numericRefinement] := by
    intro r topo hr
    obtain ⟨_, heq1⟩ := andThen_none _ _ hr
    rw [heq1, invoke_stages, optional_stage]
  have hstages : ∀ s : Session L, s.thrown = none →
      s.stages = stages ++ (if searchTopology = true then [Stage.topologySearch] else [])
        ++ [Stage.numericRefinement] →
      ((if opts.finalMethod = "none" then (⟨s.tl, s.stages, none⟩ : Session L)
        else if opts.finalMethod = "simplex" ∨ opts.finalMethod = "powell" then
          invoke Stage.finalPolish
            (svc.finalOptimizer opts.finalMethod s.tl (svc.matchParametersValues pl s.tl))
            s.tl s.stages
        else ⟨s.tl, s.stages, some (OptErr.unknownFinal opts.finalMethod)⟩).thrown = none) →
      (if opts.finalMethod = "none" then (⟨s.tl, s.stages, none⟩ : Session L)
        else if opts.finalMethod = "simplex" ∨ opts.finalMethod = "powell" then
          invoke Stage.finalPolish
            (svc.finalOptimizer opts.finalMethod s.tl (svc.matchParametersValues pl s.tl))
            s.tl s.stages
        else ⟨s.tl, s.stages, some (OptErr.unknownFinal opts.finalMethod)⟩).stages
        = stages ++ (if searchTopology = true then [Stage.topologySearch] else [])
            ++ [Stage.numericRefinement]
            ++ (if opts.finalMethod = "none" then [] else [Stage.finalPolish]) := by
    intro s _ hs hfinal
    by_cases hnone : opts.finalMethod = "none"
    · simp only [hnone, if_true, List.append_nil]
      exact hs
    · rw [if_neg hnone] at hfinal ⊢
      by_cases hsp : opts.finalMethod = "simplex" ∨ opts.finalMethod = "powell"
      · rw [if_pos hsp, invoke_stages, hs, if_neg hnone]
      · rw [if_neg hsp] at hfinal
        exact absurd hfinal (by simp)
  by_cases hd : opts.optName = "D-Brent" ∨ opts.optName = "D-BFGS"
  · rw [if_pos hd] at hrefined h ⊢
    exact hstages _ hrefined (hnum _ _ hrefined) h
  · rw [if_neg hd] at hrefined h ⊢
    by_cases hf : opts.optName = "FullD"
    · rw [if_pos hf] at hrefined h ⊢
      exact hstages _ hrefined (hnum _ _ hrefined) h
    · rw [if_neg hf] at hrefined
      exact absurd hrefined (by simp)

theorem optimizeFrom_stages {L I V : Type} (svc : Optimizers L I V)
    (opts : OptimizationOptions) (pl : ParameterList I V) (tl : L) (stages : List Stage)
    (h : (optimizeFrom svc opts pl tl stages).thrown = none) :
    (optimizeFrom svc opts pl tl stages).stages
      = stages ++ (if opts.optimizeTopo = true then [Stage.topologySearch] else [])
          ++ [Stage.numericRefinement]
          ++ (if opts.finalMethod = "none" then [] else [Stage.finalPolish]) := by
  unfold optimizeFrom at h ⊢
  by_cases h1 : ¬ (opts.nniMethod = "fast" ∨ opts.nniMethod = "better" ∨
      opts.nniMethod = "phyml")
  · rw [if_pos h1] at h; exact absurd h (by simp)
  · rw [if_neg h1] at h ⊢
    by_cases h2 : ¬ (opts.order = "Gradient" ∨ opts.order = "Newton" ∨ opts.order = "BFGS")
    · rw [if_pos h2] at h; exact absurd h (by simp)
    · rw [if_neg h2] at h ⊢
      by_cases h3 : opts.clock ≠ "None" ∧ opts.clock ≠ "Global"
      · rw [if_pos h3] at h; exact absurd h (by simp)
      · rw [if_neg h3] at h ⊢
        by_cases h4 : opts.clock = "Global" ∧ opts.optimizeTopo = true
        · rw [if_pos h4] at h; exact absurd h (by simp)
        · rw [if_neg h4] at h ⊢
          exact refineAndPolish_stages svc opts _ _ tl pl stages h

theorem optimizeFromPhylo_stages {L I V : Type} (svc : Optimizers L I V)
    (opts : OptimizationOptions) (pl : ParameterList I V) (lik : L) (stages : List Stage)
    (h : (optimizeFromPhylo svc opts pl lik stages).thrown = none) :
    opts.optimizeTopo = false ∧
      (optimizeFromPhylo svc opts pl lik stages).stages
        = stages ++ [Stage.numericRefinement]
            ++ (if opts.finalMethod = "none" then [] else [Stage.finalPolish]) := by
  unfold optimizeFromPhylo at h ⊢
  cases htopo : opts.optimizeTopo with
  | true => rw [htopo] at h; simp at h
  | false =>
    rw [htopo] at h
    simp only [Bool.false_eq_true, if_false, and_false] at h ⊢
    refine ⟨trivial, ?_⟩
    by_cases h2 : ¬ (opts.order = "Gradient" ∨ opts.order = "Newton" ∨ opts.order = "BFGS")
    · rw [if_pos h2] at h; exact absurd h (by simp)
    · rw [if_neg h2] at h ⊢
      by_cases h3 : opts.clock ≠ "None" ∧ opts.clock ≠ "Global"
      · rw [if_pos h3] at h; exact absurd h (by simp)
      · rw [if_neg h3] at h ⊢
        have := refineAndPolish_stages svc opts false _ lik pl stages h
        simpa using this

/-- C24: let `optimization` not be `None`. When the function for a `TreeLikelihood` returns
without an exception, the stages it has invoked are, in this order, the prescaling of the
branches when `optimization.scale_first` is set, the topology search when
`optimization.topology` is set, the numerical optimization, and the final optimization when
`optimization.final` is not `none`: a sublist of the four stages in their order, with the
numerical optimization exactly once. When the function for a `PhyloLikelihood` returns
without an exception, neither option is set and the stages are the numerical optimization
and then the final optimization when one is named. -/
theorem stage_order {L I V : Type} (svc : Optimizers L I V) (ops : ConstraintOps I V)
    (opts : OptimizationOptions) (tl : L) (parameters : ParameterList I V)
    (hopt : opts.optimization ≠ "None") :
    ((optimizeParameters svc ops opts tl parameters).thrown = none →
        (optimizeParameters svc ops opts tl parameters).stages
            = (if opts.scaleFirst = true then [Stage.branchPrescale] else [])
              ++ (if opts.optimizeTopo = true then [Stage.topologySearch] else [])
              ++ [Stage.numericRefinement]
              ++ (if opts.finalMethod = "none" then [] else [Stage.finalPolish]) ∧
          List.Sublist (optimizeParameters svc ops opts tl parameters).stages
            [Stage.branchPrescale, Stage.topologySearch, Stage.numericRefinement,
              Stage.finalPolish] ∧
          (optimizeParameters svc ops opts tl parameters).stages.count
            Stage.numericRefinement = 1) ∧
      ((optimizeParametersPhylo svc ops opts tl parameters).thrown = none →
        opts.scaleFirst = false ∧ opts.optimizeTopo = false ∧
          (optimizeParametersPhylo svc ops opts tl parameters).stages
            = [Stage.numericRefinement]
              ++ (if opts.finalMethod = "none" then [] else [Stage.finalPolish])) := by
  constructor
  · intro hret
    have heq : (optimizeParameters svc ops opts tl parameters).stages
        = (if opts.scaleFirst = true then [Stage.branchPrescale] else [])
          ++ (if opts.optimizeTopo = true then [Stage.topologySearch] else [])
          ++ [Stage.numericRefinement]
          ++ (if opts.finalMethod = "none" then [] else [Stage.finalPolish]) := by
      unfold optimizeParameters at hret ⊢
      rw [if_neg hopt] at hret ⊢
      obtain ⟨_, heq1⟩ := andThen_none _ _ hret
      rw [heq1] at hret ⊢
      rw [optional_stage] at hret ⊢
      simp only [List.nil_append] at hret ⊢
      cases hsel : selectParameters ops Variant.treeLikelihood
          (svc.names (if opts.scaleFirst = true then
            invoke Stage.branchPrescale (svc.optimizeTreeScale tl) tl []
            else (⟨tl, [], none⟩ : Session L)).tl) opts parameters with
      | mk pl thrown =>
        try rw [hsel] at hret
        cases thrown with
        | some e => exact absurd hret (by simp)
        | none =>
          try simp only [] at hret
          try simp only []
          obtain ⟨_, heq2⟩ := andThen_none _ _ hret
          rw [heq2] at hret ⊢
          rw [optimizeFrom_stages svc opts pl _ _ hret, restoreStep_stages]
    refine ⟨heq, ?_, ?_⟩
    · rw [heq]
      cases opts.scaleFirst <;> cases opts.optimizeTopo <;>
        by_cases hf : opts.finalMethod = "none" <;> simp [hf]
    · rw [heq]
      cases opts.scaleFirst <;> cases opts.optimizeTopo <;>
        by_cases hf : opts.finalMethod = "none" <;> simp [hf]
  · intro hret
    unfold optimizeParametersPhylo at hret ⊢
    rw [if_neg hopt] at hret ⊢
    cases hscale : opts.scaleFirst with
    | true => rw [hscale] at hret; simp at hret
    | false =>
      rw [hscale] at hret
      simp only [Bool.false_eq_true, if_false] at hret ⊢
      cases hign : opts.ignoreDeprecated with
      | true => rw [hign] at hret; simp at hret
      | false =>
        rw [hign] at hret
        simp only [Bool.false_eq_true, if_false] at hret ⊢
        cases hcon : opts.constrainDeprecated with
        | true => rw [hcon] at hret; simp at hret
        | false =>
          rw [hcon] at hret
          simp only [Bool.false_eq_true, if_false] at hret ⊢
          cases hsel : selectParameters ops Variant.phyloLikelihood (svc.names tl) opts
              parameters with
          | mk pl thrown =>
            try rw [hsel] at hret
            cases thrown with
            | some e => exact absurd hret (by simp)
            | none =>
              try simp only [] at hret
              try simp only []
              obtain ⟨_, heq2⟩ := andThen_none _ _ hret
              rw [heq2] at hret ⊢
              have h := optimizeFromPhylo_stages svc opts pl _ _ hret
              simp only [restoreStep_stages] at h ⊢
              exact ⟨trivial, h.1, by simpa using h.2⟩

/-- C24 on the default optimization with prescaling, topology search and the final method
`powell`: the four stages in their order. -/
theorem stage_order_witness :
    (optimizeParameters countingOptimizers intIntervals
        { scaleFirst := true, optimizeTopo := true, finalMethod := "powell" } 0
        fourParameters).stages
      = [Stage.branchPrescale, Stage.topologySearch, Stage.numericRefinement,
          Stage.finalPolish] :=
  ((stage_order countingOptimizers intIntervals
    { scaleFirst := true, optimizeTopo := true, finalMethod := "powell" } 0 fourParameters
    (by decide)).1 (by decide)).1

/-! ### Processes, sequence evolutions and the likelihoods that use them -/

theorem getPhyloLikelihood_ok (SPC : SubstitutionProcessCollection)
    (mSeqEvol : List (Nat × SequenceEvolution)) (mData : List (Nat × Bool))
    (usedProc : List Nat) (e : PhyloEntry) (nPL : PhyloLikelihood) (usedProc1 : List Nat)
    (h : getPhyloLikelihood SPC mSeqEvol mData usedProc e = .ok (nPL, usedProc1)) :
    e.nProcess ∉ usedProc ∧ usedProc1 = usedProc ++ [e.nProcess] := by
  unfold getPhyloLikelihood at h
  cases hd : mapFind e.nData mData with
  | none => rw [hd] at h; cases h
  | some aligned =>
    rw [hd] at h
    cases aligned with
    | false => cases h
    | true =>
      simp only [] at h
      by_cases hu : e.nProcess ∈ usedProc
      · rw [if_pos hu] at h; cases h
      · rw [if_neg hu] at h
        refine ⟨hu, ?_⟩
        by_cases hp : SPC.hasSubstitutionProcessNumber e.nProcess = true
        · rw [if_pos hp] at h
          injection h with h
          exact (congrArg Prod.snd h).symm
        · rw [if_neg hp] at h
          cases hm : mapFind e.nProcess mSeqEvol with
          | none => rw [hm] at h; cases h
          | some evol =>
            rw [hm] at h
            injection h with h
            exact (congrArg Prod.snd h).symm

/-- When the loop returns, no entry names a number used before, and no two entries name the
same number. -/
theorem getPhyloLikelihoodsLoop_ok (SPC : SubstitutionProcessCollection)
    (mSeqEvol : List (Nat × SequenceEvolution)) (mData : List (Nat × Bool))
    (entries : List PhyloEntry) (mPhylo m : List (Nat × PhyloLikelihood))
    (usedProc : List Nat)
    (h : getPhyloLikelihoodsLoop SPC mSeqEvol mData entries mPhylo usedProc = .ok m) :
    (∀ e ∈ entries, e.nProcess ∉ usedProc) ∧ (entries.map PhyloEntry.nProcess).Nodup := by
  induction entries generalizing mPhylo usedProc with
  | nil => simp
  | cons e rest ih =>
    rw [getPhyloLikelihoodsLoop] at h
    cases hr : getPhyloLikelihood SPC mSeqEvol mData usedProc e with
    | error err => rw [hr] at h; cases h
    | ok r =>
      obtain ⟨nPL, usedProc1⟩ := r
      rw [hr] at h
      simp only [] at h
      obtain ⟨hnot, hused⟩ := getPhyloLikelihood_ok SPC mSeqEvol mData usedProc e nPL usedProc1 hr
      obtain ⟨h1, h2⟩ := ih _ _ h
      subst hused
      refine ⟨?_, ?_⟩
      · intro e1 he1
        rcases List.mem_cons.mp he1 with heq | hin
        · subst heq; exact hnot
        · intro hmem
          exact h1 e1 hin (List.mem_append_left _ hmem)
      · rw [List.map_cons, List.nodup_cons]
        refine ⟨?_, h2⟩
        intro hmem
        obtain ⟨e1, he1, heq⟩ := List.mem_map.mp hmem
        exact h1 e1 he1 (by rw [heq]; simp)

theorem getSequenceEvolutionsLoop_numbers (SPC : SubstitutionProcessCollection)
    (params : List (Nat × Description)) (mEvol m : List (Nat × SequenceEvolution))
    (h : getSequenceEvolutionsLoop SPC params mEvol = .ok m)
    (hinv : ∀ k evol, mapFind k mEvol = some evol →
      SPC.hasSubstitutionProcessNumber k = false) :
    ∀ k evol, mapFind k m = some evol → SPC.hasSubstitutionProcessNumber k = false := by
  induction params generalizing mEvol with
  | nil =>
    simp only [getSequenceEvolutionsLoop, Except.ok.injEq] at h
    subst h
    exact hinv
  | cons p rest ih =>
    obtain ⟨num, d⟩ := p
    rw [getSequenceEvolutionsLoop] at h
    by_cases hnum : SPC.hasSubstitutionProcessNumber num = true
    · rw [if_pos hnum] at h
      exact ih mEvol h hinv
    · rw [if_neg hnum] at h
      cases hr : getSequenceEvolution SPC d with
      | error e => rw [hr] at h; cases h
      | ok nEvol =>
        rw [hr] at h
        simp only [] at h
        apply ih _ h
        intro k evol hk
        rw [mapFind_mapSet] at hk
        by_cases hkn : k = num
        · subst hkn
          simpa using hnum
        · rw [if_neg hkn] at hk
          exact hinv k evol hk

/-- C25, counterexample: over the collection of the examples, the evolution 3 is the mixture
of the processes 1 and 2, the entry `phylo1` names the process 1 and the entry `phylo2` the
evolution 3. Both functions return: the process 1, consumed by the mixture, is also the
standalone process of the likelihood 1. -/
theorem consumed_process_used_standalone :
    getSequenceEvolutions exampleCollection [(3, mixtureAB)]
        = .ok [(3, SequenceEvolution.mixture [1, 2] (some [1 / 4, 3 / 4]))] ∧
      getPhyloLikelihoods exampleCollection
          [(3, SequenceEvolution.mixture [1, 2] (some [1 / 4, 3 / 4]))] [(1, true)]
          [⟨1, none, some 1, none⟩, ⟨2, none, some 3, none⟩]
        = .ok [(1, ⟨PhyloKind.singleProcess, 1, 1, false⟩),
            (2, ⟨PhyloKind.mixture, 3, 1, false⟩)] :=
  ⟨rfl, by decide⟩

/-- C25 (amended): `getPhyloLikelihoods` throws whenever two of its entries name the same
number of process or of sequence evolution, and the numbers under which
`getSequenceEvolutions` returns evolutions are not numbers of processes of the collection.
Nothing more is checked: a process that a composite evolution is built from may be the
process of a likelihood as well. -/
theorem process_number_used_once (SPC : SubstitutionProcessCollection)
    (mSeqEvol : List (Nat × SequenceEvolution)) (mData : List (Nat × Bool))
    (phylos : List PhyloEntry) (params : List (Nat × Description)) :
    ((∃ (i j : Nat) (e1 e2 : PhyloEntry), i < j ∧ phylos[i]? = some e1 ∧ phylos[j]? = some e2 ∧
          e1.nProcess = e2.nProcess) →
        ∃ err, getPhyloLikelihoods SPC mSeqEvol mData phylos = .error err) ∧
      (∀ m, getSequenceEvolutions SPC params = .ok m →
        ∀ k evol, mapFind k m = some evol → SPC.hasSubstitutionProcessNumber k = false) := by
  constructor
  · rintro ⟨i, j, e1, e2, hij, hi, hj, heq⟩
    cases hr : getPhyloLikelihoods SPC mSeqEvol mData phylos with
    | error err => exact ⟨err, rfl⟩
    | ok m =>
      exfalso
      have hnodup := (getPhyloLikelihoodsLoop_ok SPC mSeqEvol mData phylos [] m [] hr).2
      have hjlt : j < phylos.length := by
        rcases Nat.lt_or_ge j phylos.length with h | h
        · exact h
        · rw [List.getElem?_eq_none h] at hj; cases hj
      have hilt : i < phylos.length := Nat.lt_trans hij hjlt
      have h1 : (phylos.map PhyloEntry.nProcess)[i]? = some e1.nProcess := by
        rw [List.getElem?_map, hi]; rfl
      have h2 : (phylos.map PhyloEntry.nProcess)[j]? = some e1.nProcess := by
        rw [List.getElem?_map, hj, heq]; rfl
      have hne := (List.nodup_iff_getElem?_ne_getElem?.mp hnodup) i j hij
        (by simpa using hjlt)
      exact hne (h1.trans h2.symm)
  · intro m hm
    exact getSequenceEvolutionsLoop_numbers SPC params [] m hm (by intro k evol hk; cases hk)

/-- C25 (amended) on two entries that both name the process 1: the call throws. -/
theorem process_number_used_once_witness :
    ∃ err, getPhyloLikelihoods exampleCollection [] [(1, true)]
      [⟨1, none, some 1, none⟩, ⟨2, none, some 1, none⟩] = .error err :=
  (process_number_used_once exampleCollection [] [(1, true)]
    [⟨1, none, some 1, none⟩, ⟨2, none, some 1, none⟩] []).1
    ⟨0, 1, ⟨1, none, some 1, none⟩, ⟨2, none, some 1, none⟩, by decide, rfl, rfl, rfl⟩

/-! ### Several directives on one parameter -/

theorem getParameterNames_constrained {I V : Type} (ops : ConstraintOps I V) (ic : I)
    (names : List String) (pl : ParameterList I V) :
    getParameterNames (constrained ops ic names pl) = getParameterNames pl := by
  simp only [getParameterNames, constrained, List.map_map]
  apply List.map_congr_left
  intro p _
  by_cases h : p.name ∈ names <;> simp [h]

theorem getParameter_none_of_delete {I V : Type} (name n : String)
    (pl pl1 : ParameterList I V) (h : deleteParameter n pl = some pl1)
    (hnone : getParameter name pl = none) : getParameter name pl1 = none := by
  induction pl generalizing pl1 with
  | nil => simp [deleteParameter] at h
  | cons p rest ih =>
    have hp : ¬ p.name = name := by
      intro hpn
      simp [getParameter, hpn] at hnone
    have hrest : getParameter name rest = none := by
      simpa [getParameter, hp] using hnone
    simp only [deleteParameter] at h
    by_cases hpn : p.name = n
    · rw [if_pos hpn] at h
      rw [← Option.some.inj h]
      exact hrest
    · rw [if_neg hpn] at h
      cases hd : deleteParameter n rest with
      | none => rw [hd] at h; cases h
      | some rest1 =>
        rw [hd] at h
        rw [← Option.some.inj h]
        simp only [getParameter, List.find?_cons, hp, decide_False]
        exact ih rest1 hd hrest

theorem getParameter_none_of_deleteParameters {I V : Type} (name : String)
    (names : List String) (pl : ParameterList I V) (hnone : getParameter name pl = none) :
    getParameter name (deleteParameters names pl).1 = none ∧
      getParameter name (deleteEach names pl).1 = none := by
  induction names generalizing pl with
  | nil => exact ⟨hnone, hnone⟩
  | cons n rest ih =>
    simp only [deleteParameters, deleteEach]
    cases hd : deleteParameter n pl with
    | none => exact ⟨hnone, hnone⟩
    | some pl1 => exact ih pl1 (getParameter_none_of_delete name n pl pl1 hd hnone)

theorem getParameter_none_of_ignoreDirective {I V : Type} (variant : Variant)
    (lik : LikelihoodNames) (parNames : List String) (param name : String)
    (pl : ParameterList I V) (hnone : getParameter name pl = none) :
    getParameter name (ignoreDirective variant lik parNames param pl).1 = none := by
  have hlit : getParameter name
      (match deleteParameter param pl with
        | none => (pl, some param)
        | some pl1 => (pl1, none)).1 = none := by
    cases hd : deleteParameter param pl with
    | none => exact hnone
    | some pl1 => exact getParameter_none_of_delete name param pl pl1 hd hnone
  have hgroup := fun names => getParameter_none_of_deleteParameters name names pl hnone
  unfold ignoreDirective
  by_cases h1 : param = "BrLen"
  · rw [if_pos h1]; exact (hgroup _).1
  · rw [if_neg h1]
    by_cases h2 : param = "Ancient"
    · rw [if_pos h2]
      cases variant
      · by_cases hnh : lik.nonHomogeneous = true
        · simp only [hnh, if_true]; exact (hgroup _).1
        · simp only [hnh]; exact hnone
      · exact (hgroup _).1
      · by_cases hnh : lik.nonHomogeneous = true
        · simp only [hnh, if_true]; exact (hgroup _).1
        · simp only [hnh]; exact hnone
    · rw [if_neg h2]
      cases variant
      · simp only []
        by_cases h3 : param = "Model"
        · rw [if_pos h3]
          by_cases hnh : lik.nonHomogeneous = true
          · simp only [hnh, if_true]; exact (hgroup _).1
          · simp only [hnh]; exact (hgroup _).1
        · rw [if_neg h3]
          by_cases h4 : (strFind ['*'] param.data).isSome = true
          · rw [if_pos h4]; exact (hgroup _).2
          · rw [if_neg h4]; exact hlit
      · simp only []
        by_cases h3 : param = "Model"
        · rw [if_pos h3]; exact (hgroup _).1
        · rw [if_neg h3]
          by_cases h4 : (strFind ['*'] param.data).isSome = true
          · rw [if_pos h4]; exact (hgroup _).2
          · rw [if_neg h4]; exact hlit
      · exact hlit

/-- A parameter that is not in the list is not in the list that the ignore loop leaves. -/
theorem getParameter_none_of_ignoreLoop {I V : Type} (variant : Variant)
    (lik : LikelihoodNames) (parNames tokens : List String) (name : String)
    (pl : ParameterList I V) (hnone : getParameter name pl = none) :
    getParameter name (ignoreLoop variant lik parNames tokens pl).1 = none := by
  induction tokens generalizing pl with
  | nil => exact hnone
  | cons param rest ih =>
    have hdir := getParameter_none_of_ignoreDirective variant lik parNames param name pl hnone
    rw [ignoreLoop]
    cases hr : ignoreDirective variant lik parNames param pl with
    | mk pl1 thrown =>
      rw [hr] at hdir
      cases thrown with
      | none => exact ih pl1 hdir
      | some notFound => exact ih pl1 hdir

/-- C26, counterexample: the parameter `kappa`, of value 7 and without constraint, is named
by the directive `kappa=[0;10]` and then matched by the directive `k*=[5;20]`. It does not
end with the interval from 0 to 10 of the first directive but with the interval from 5 to
10. -/
theorem second_directive_narrows_first :
    matchingParameters "k*" ["kappa", "alpha"] = ["kappa"] ∧
      constrainLoop intIntervals Variant.treeLikelihood fourParametersLikelihood
          ["kappa", "alpha"] ["kappa", "alpha"] ["kappa=[0;10]", "k*=[5;20]"] twoParameters
        = ([⟨"kappa", 7, some ⟨5, 10⟩⟩, ⟨"alpha", 7, some ⟨0, 10⟩⟩], [], none) := by
  decide

/-- C26 (amended): let two constrain directives follow each other, each with an interval
that is read and with names that are all in the list of parameters to estimate, and let
every named parameter be able to take its constraint when its directive is reached. Then
the loop goes on with the list constrained by the first and then by the second directive,
and a parameter named by both ends with the intersection of the interval of the second
directive with the constraint that the first one gave it, not with the latter alone. In the
ignore list a parameter that a directive has taken out of the list stays out, whatever the
later directives are. -/
theorem constrain_directives_intersect {I V : Type} (ops : ConstraintOps I V)
    (variant : Variant) (lik : LikelihoodNames) (parNames parToEstNames : List String)
    (pc1 param1 constraint1 pc2 param2 constraint2 : String) (ic1 ic2 : I)
    (rest : List String) (pl : ParameterList I V)
    (heq1 : '=' ∉ param1.data) (hpc1 : pc1.data = param1.data ++ '=' :: constraint1.data)
    (hread1 : ops.read constraint1 = some ic1)
    (heq2 : '=' ∉ param2.data) (hpc2 : pc2.data = param2.data ++ '=' :: constraint2.data)
    (hread2 : ops.read constraint2 = some ic2)
    (hnodup : (getParameterNames pl).Nodup)
    (hnames1 : (parNames2 variant lik parToEstNames param1).Nodup)
    (hnames2 : (parNames2 variant lik parToEstNames param2).Nodup)
    (hall1 : ∀ n ∈ parNames2 variant lik parToEstNames param1, n ∈ getParameterNames pl)
    (hall2 : ∀ n ∈ parNames2 variant lik parToEstNames param2, n ∈ getParameterNames pl)
    (hacc1 : ∀ p ∈ pl, p.name ∈ parNames2 variant lik parToEstNames param1 →
      accepts ops ic1 p = true)
    (hacc2 : ∀ p ∈ constrained ops ic1 (parNames2 variant lik parToEstNames param1) pl,
      p.name ∈ parNames2 variant lik parToEstNames param2 → accepts ops ic2 p = true) :
    constrainLoop ops variant lik parNames parToEstNames (pc1 :: pc2 :: rest) pl
        = constrainLoop ops variant lik parNames parToEstNames rest
            (constrained ops ic2 (parNames2 variant lik parToEstNames param2)
              (constrained ops ic1 (parNames2 variant lik parToEstNames param1) pl)) ∧
      (∀ par ∈ pl, par.name ∈ parNames2 variant lik parToEstNames param1 →
        par.name ∈ parNames2 variant lik parToEstNames param2 →
        getParameter par.name
            (constrained ops ic2 (parNames2 variant lik parToEstNames param2)
              (constrained ops ic1 (parNames2 variant lik parToEstNames param1) pl))
          = some { par with
              constraint := some (ops.inter ic2 (newConstraint ops ic1 par)) }) ∧
      (∀ (tokens before : List String) (name : String) (pl0 : ParameterList I V),
        getParameter name (ignoreLoop variant lik parNames before pl0).1 = none →
        getParameter name (ignoreLoop variant lik parNames (before ++ tokens) pl0).1
          = none) := by
  have hmem : ∀ (l : ParameterList I V) (n : String),
      n ∈ getParameterNames l → ∃ p ∈ l, p.name = n := by
    intro l n hn
    obtain ⟨p, hp, hpn⟩ := List.mem_map.mp hn
    exact ⟨p, hp, hpn⟩
  have hnodup1 : (getParameterNames
      (constrained ops ic1 (parNames2 variant lik parToEstNames param1) pl)).Nodup := by
    rw [getParameterNames_constrained]; exact hnodup
  have hnodup2 : (getParameterNames
      (constrained ops ic2 (parNames2 variant lik parToEstNames param2)
        (constrained ops ic1 (parNames2 variant lik parToEstNames param1) pl))).Nodup := by
    rw [getParameterNames_constrained]; exact hnodup1
  have hstep1 := (constrainEach_spec ops parNames ic1 _ 0 pl hnames1 hnodup
    (fun n hn => hmem pl n (hall1 n hn))).1 hacc1
  have hstep2 := (constrainEach_spec ops parNames ic2 _ 0
    (constrained ops ic1 (parNames2 variant lik parToEstNames param1) pl) hnames2 hnodup1
    (fun n hn => hmem _ n (by rw [getParameterNames_constrained]; exact hall2 n hn))).1 hacc2
  refine ⟨?_, ?_, ?_⟩
  · rw [constrainLoop, constrainDirective_split ops variant lik parNames parToEstNames pc1
      param1 constraint1 ic1 pl heq1 hpc1 hread1, hstep1]
    simp only []
    rw [constrainLoop, constrainDirective_split ops variant lik parNames parToEstNames pc2
      param2 constraint2 ic2 _ heq2 hpc2 hread2, hstep2]
  · intro par hpar h1 h2
    have hin : ({ par with constraint := some (ops.inter ic2 (newConstraint ops ic1 par)) } :
        Parameter I V) ∈ constrained ops ic2 (parNames2 variant lik parToEstNames param2)
          (constrained ops ic1 (parNames2 variant lik parToEstNames param1) pl) := by
      simp only [constrained, List.map_map, List.mem_map]
      refine ⟨par, hpar, ?_⟩
      simp [h1, h2, newConstraint]
    exact getParameter_mem _ _ hnodup2 hin
  · intro tokens before name pl0 hnone
    rw [ignoreLoop_append]
    exact getParameter_none_of_ignoreLoop variant lik parNames tokens name _ hnone

/-- C26 (amended) on the directives `kappa=[0;10]` and `k*=[5;20]`: the loop ends as on the
list constrained by the one and then by the other. -/
theorem constrain_directives_intersect_witness :
    constrainLoop intIntervals Variant.treeLikelihood fourParametersLikelihood
        ["kappa", "alpha"] ["kappa", "alpha"] ("kappa=[0;10]" :: "k*=[5;20]" :: [])
        twoParameters
      = constrainLoop intIntervals Variant.treeLikelihood fourParametersLikelihood
          ["kappa", "alpha"] ["kappa", "alpha"] []
          (constrained intIntervals ⟨5, 20⟩
            (parNames2 Variant.treeLikelihood fourParametersLikelihood ["kappa", "alpha"] "k*")
            (constrained intIntervals ⟨0, 10⟩
              (parNames2 Variant.treeLikelihood fourParametersLikelihood ["kappa", "alpha"]
                "kappa") twoParameters)) :=
  (constrain_directives_intersect intIntervals Variant.treeLikelihood
    fourParametersLikelihood ["kappa", "alpha"] ["kappa", "alpha"]
    "kappa=[0;10]" "kappa" "[0;10]" "k*=[5;20]" "k*" "[5;20]" ⟨0, 10⟩ ⟨5, 20⟩ []
    twoParameters (by decide) (by decide) (by decide) (by decide) (by decide) (by decide)
    (by decide) (by decide) (by decide) (by decide) (by decide) (by decide) (by decide)).1

/-! ### The path descriptions that are read -/

/-- The descriptions gathered are `site.path<numd>`, `site.path<numd - 1>`, ... down to the
first one that is empty, which is left out with all those below it. -/
theorem vdesc_eq_takeWhile (sitePath : Nat → String) (numd : Nat) :
    vdesc sitePath numd
      = ((List.range numd).map (fun i => sitePath (numd - i))).takeWhile
          (fun desc => decide (desc.data.length ≠ 0)) := by
  induction numd with
  | zero => rfl
  | succ n ih =>
    have hrange : (List.range (n + 1)).map (fun i => sitePath (n + 1 - i))
        = sitePath (n + 1) :: (List.range n).map (fun i => sitePath (n - i)) := by
      rw [List.range_succ_eq_map, List.map_cons, List.map_map]
      congr 1
      apply List.map_congr_left
      intro i _
      simp
    rw [hrange, vdesc, List.takeWhile_cons]
    by_cases h : (sitePath (n + 1)).data.length = 0
    · simp [h]
    · simp [h, ih]

theorem complete_length (set : MixedSubstitutionModelSet) :
    (computeHyperNodesProbabilities (complete set).1).hyperNodes.length
      = set.hyperNodes.length + 1 := by
  simp [computeHyperNodesProbabilities, complete]

/-- C27, counterexample: `site.number_of_paths` is 3 and the descriptions `site.path1` and
`site.path2` are given, `site.path3` is not. No description is read: the call returns with
the one hypernode of the completion, which holds both submodels of the mixed model. -/
theorem paths_below_gap_dropped :
    (gapPaths 1).data ≠ [] ∧ (gapPaths 2).data ≠ [] ∧ vdesc gapPaths 3 = [] ∧
      (completeMixedSubstitutionModelSet digitsToInt exampleSubmodelNumbers splitAmpersand
        (some 3) gapPaths mixedAndPlain).1.hyperNodes = [⟨[[0, 1], []], 1⟩] ∧
      (completeMixedSubstitutionModelSet digitsToInt exampleSubmodelNumbers splitAmpersand
        (some 3) gapPaths mixedAndPlain).2 = none := by
  refine ⟨by decide, by decide, by decide, ?_, ?_⟩
  · have h : vdesc gapPaths 3 = [] := by decide
    simp only [completeMixedSubstitutionModelSet, Option.getD_some, h, List.length_nil,
      if_true]
    have hc : (complete mixedAndPlain).1
        = ⟨[some [1 / 2, 1 / 2], none], [⟨[[0, 1], []], 1⟩]⟩ := rfl
    rw [hc]
    simp [computeHyperNodesProbabilities, chosenWeight]
  · have h : vdesc gapPaths 3 = [] := by decide
    simp only [completeMixedSubstitutionModelSet, Option.getD_some, h, List.length_nil,
      if_true]

/-- C27 (amended): the descriptions read for `site.number_of_paths = numd` are
`site.path<numd>`, `site.path<numd - 1>`, ... down to the first one that is empty; those
below it are not read. When all the descriptions from 1 to `numd` are given, all are read,
in this order. When the call returns without an exception, the set holds one more hypernode
for each description read, and the hypernode of the completion. -/
theorem paths_read_down_to_first_gap (toInt : String → Int)
    (getSubmodelNumbers : Nat → String → Option (List Int)) (st : String → List String)
    (numberOfPaths : Option Nat) (sitePath : Nat → String)
    (mixedModelSet : MixedSubstitutionModelSet) :
    vdesc sitePath (numberOfPaths.getD 0)
        = ((List.range (numberOfPaths.getD 0)).map
            (fun i => sitePath (numberOfPaths.getD 0 - i))).takeWhile
              (fun desc => decide (desc.data.length ≠ 0)) ∧
      ((∀ k, 1 ≤ k → k ≤ numberOfPaths.getD 0 → (sitePath k).data ≠ []) →
        vdesc sitePath (numberOfPaths.getD 0)
          = (List.range (numberOfPaths.getD 0)).map
              (fun i => sitePath (numberOfPaths.getD 0 - i))) ∧
      ((completeMixedSubstitutionModelSet toInt getSubmodelNumbers st numberOfPaths sitePath
          mixedModelSet).2 = none →
        (completeMixedSubstitutionModelSet toInt getSubmodelNumbers st numberOfPaths sitePath
          mixedModelSet).1.hyperNodes.length
          = mixedModelSet.hyperNodes.length
            + (vdesc sitePath (numberOfPaths.getD 0)).length + 1) := by
  refine ⟨vdesc_eq_takeWhile sitePath _, ?_, ?_⟩
  · intro hall
    rw [vdesc_eq_takeWhile]
    apply List.takeWhile_eq_self_iff.mpr
    intro desc hdesc
    obtain ⟨i, hi, hdi⟩ := List.mem_map.mp hdesc
    have hilt : i < numberOfPaths.getD 0 := List.mem_range.mp hi
    have := hall (numberOfPaths.getD 0 - i) (by omega) (by omega)
    rw [hdi] at this
    exact decide_eq_true (fun h => this (List.length_eq_zero.mp h))
  · intro hret
    unfold completeMixedSubstitutionModelSet at hret ⊢
    simp only [] at hret ⊢
    by_cases hlen : (vdesc sitePath (numberOfPaths.getD 0)).length = 0
    · rw [if_pos hlen, hlen]
      exact complete_length mixedModelSet
    · rw [if_neg hlen] at hret ⊢
      have hinv := addPaths_inv toInt getSubmodelNumbers st
        (vdesc sitePath (numberOfPaths.getD 0)) mixedModelSet
      cases hr : addPaths toInt getSubmodelNumbers st (vdesc sitePath (numberOfPaths.getD 0))
          mixedModelSet with
      | mk set1 thrown =>
        rw [hr] at hret hinv
        cases thrown with
        | some e => exact absurd hret (by simp)
        | none =>
          simp only [] at hret ⊢
          have hl := hinv.2 rfl
          simp only [] at hl
          by_cases hex : (!hasExclusivePaths set1) = true
          · rw [if_pos hex] at hret
            exact absurd hret (by simp)
          · rw [if_neg hex] at hret ⊢
            by_cases hlast : (!lastIsComplete
                (computeHyperNodesProbabilities (complete set1).1)) = true
            · rw [if_pos hlast] at hret
              exact absurd hret (by simp)
            · rw [if_neg hlast]
              rw [complete_length, hl]

/-- C27 (amended) on the three descriptions of the examples, all given: all three are read,
from `site.path3` down to `site.path1`. -/
theorem paths_read_down_to_first_gap_witness :
    vdesc examplePaths ((some 3 : Option Nat).getD 0)
      = (List.range ((some 3 : Option Nat).getD 0)).map
          (fun i => examplePaths ((some 3 : Option Nat).getD 0 - i)) :=
  (paths_read_down_to_first_gap digitsToInt exampleSubmodelNumbers splitAmpersand (some 3)
    examplePaths mixedAndPlain).2.1 (by decide)

/-! ### The printing of rate numbers -/

theorem readRate_rateNumber (c c1 : SubstitutionProcessCollection) (args : Args)
    (sRate : RateText) (n : Nat) (hrate : args.rate = some sRate)
    (h : readRate c args = .ok (c1, n)) : n = rateNumber sRate := by
  unfold readRate at h
  rw [hrate] at h
  simp only [] at h
  cases hd : mapFind (toSizeT sRate.intPart) c.distColl with
  | none => rw [hd] at h; cases h
  | some dist =>
    rw [hd] at h
    simp only [] at h
    unfold rateNumber
    cases hc : sRate.category with
    | none =>
      rw [hc] at h
      injection h with h
      exact (congrArg Prod.snd h).symm
    | some cat =>
      rw [hc] at h
      simp only [] at h
      cases ha : addDistribution c
          (DiscreteDistribution.constantOfCategory dist (toSizeT cat))
          (synthesizedRateId (toSizeT sRate.intPart) (toSizeT cat)) with
      | error e => rw [ha] at h; cases h
      | ok c2 =>
        rw [ha] at h
        injection h with h
        exact (congrArg Prod.snd h).symm

/-- C28, counterexample: the rate number of the reference `-1.5` is `2^64 - 1` on `size_t`,
and the id built for it at lines 1082 and 1084 wraps to 5. It is below 10000, its quotient
by 10000 less one is not the rate number, and it is written as `5`, the text of the rate
distribution number 5, not as `-1.5`. -/
theorem negative_rate_id_wraps :
    toSizeT (-1) = 2 ^ 64 - 1 ∧
      readRate collectionNegativeRate { rate := some ⟨-1, some 5⟩ }
        = .ok (⟨[(1, ⟨[0, 1]⟩)],
            [(5, DiscreteDistribution.constantOfCategory (DiscreteDistribution.declared 4) 5),
              (2 ^ 64 - 1, DiscreteDistribution.declared 4)],
            [1, 2], [1], []⟩, 5) ∧
      synthesizedRateId (2 ^ 64 - 1) 5 = 5 ∧
      ¬ 10000 ≤ synthesizedRateId (2 ^ 64 - 1) 5 ∧
      synthesizedRateId (2 ^ 64 - 1) 5 / 10000 - 1 ≠ 2 ^ 64 - 1 ∧
      printRate (synthesizedRateId (2 ^ 64 - 1) 5) = ⟨5, none⟩ ∧
      rateNumber ⟨5, none⟩ = 5 := by
  refine ⟨by decide, by rfl, by decide, by decide, by decide, by decide, by decide⟩

/-- C28 (amended): for a rate number `r` below `2^31`, as `TextTools::toInt` delivers for a
number written without sign, and a category `c` below 10000, the id built at lines 1082 and
1084 is `10000*(r+1)+c`; it is at least 10000, its quotient by 10000 less one is `r` and
its remainder is `c`, so that `r.c` is written for it, and the reading of `r.c` gives the
same id. A number below 10000 is written as itself and read back as itself. The number that
`readRate` returns is the one that the text stands for. -/
theorem rate_id_round_trip (r c : Nat) (hr : r < 2 ^ 31) (hc : c < 10000) :
    synthesizedRateId r c = 10000 * (r + 1) + c ∧
      10000 ≤ synthesizedRateId r c ∧
      synthesizedRateId r c / 10000 - 1 = r ∧
      synthesizedRateId r c % 10000 = c ∧
      printRate (synthesizedRateId r c) = ⟨(r : Int), some (c : Int)⟩ ∧
      rateNumber (printRate (synthesizedRateId r c)) = synthesizedRateId r c ∧
      (∀ d, d < 10000 → printRate d = ⟨(d : Int), none⟩ ∧ rateNumber (printRate d) = d) ∧
      (∀ (coll c1 : SubstitutionProcessCollection) (args : Args) (sRate : RateText) (n : Nat),
        args.rate = some sRate → readRate coll args = .ok (c1, n) →
        n = rateNumber sRate) := by
  have h31 : (2 : Nat) ^ 31 = 2147483648 := by norm_num
  have h64 : (2 : Nat) ^ 64 = 18446744073709551616 := by norm_num
  have hid : synthesizedRateId r c = 10000 * (r + 1) + c := by
    unfold synthesizedRateId wrapSizeT
    apply Nat.mod_eq_of_lt
    omega
  have hdiv : (10000 * (r + 1) + c) / 10000 = r + 1 := by omega
  have hmod : (10000 * (r + 1) + c) % 10000 = c := by omega
  have hprint : printRate (synthesizedRateId r c) = ⟨(r : Int), some (c : Int)⟩ := by
    rw [hid]
    unfold printRate
    rw [if_neg (by omega), hdiv, hmod]
    have hsub : subSizeT (r + 1) 1 = r := by
      unfold subSizeT
      rw [h64]
      omega
    rw [hsub]
  refine ⟨hid, by omega, by omega, by omega, hprint, ?_, ?_, ?_⟩
  · rw [hprint]
    unfold rateNumber
    simp only []
    rw [toSizeT_natCast r (by omega), toSizeT_natCast c (by omega)]
  · intro d hd
    have hp : printRate d = ⟨(d : Int), none⟩ := by
      unfold printRate
      rw [if_pos hd]
    refine ⟨hp, ?_⟩
    rw [hp]
    unfold rateNumber
    simp only []
    exact toSizeT_natCast d (by omega)
  · intro coll c1 args sRate n hrate h
    exact readRate_rateNumber coll c1 args sRate n hrate h

/-- C28 (amended) on the reference `1.2`: the id 20002 is written as `1.2`. -/
theorem rate_id_round_trip_witness :
    printRate (synthesizedRateId 1 2) = ⟨((1 : Nat) : Int), some ((2 : Nat) : Int)⟩ :=
  (rate_id_round_trip 1 2 (by decide) (by decide)).2.2.2.2.1

/-- C29, the failing input: a collection whose models have the numbers 1 and 2 and whose
only rate distribution has the number 3. The distribution is written under the number 1,
for the number written after `rate_distribution` is read in the list of the model numbers.
With the model number 1 and the rate distributions 1 and 2, the second distribution makes
the loop read beyond the end of that list. -/
theorem rate_distribution_key_from_models :
    printRateDistributions [1, 2] [3] 0 = [(3, some 1)] ∧
      printRateDistributions [1] [1, 2] 0 = [(1, some 1), (2, none)] := by
  decide

/-! ### The exception for an empty interval -/

/-- When no interval that `isEmpty` reports empty accepts a value, the loop over `parNames2`
never throws the exception of line 2253 (2646): `setConstraint` throws before the test. -/
theorem constrainEach_no_emptyInterval {I V : Type} (ops : ConstraintOps I V)
    (hempty : ∀ c v, ops.isEmpty c = true → ops.isCorrect c v = false)
    (parNames : List String) (ic : I) (names : List String) (i : Nat)
    (pl : ParameterList I V) (name : Option String) :
    (constrainEach ops parNames ic names i pl).2
      ≠ some (Thrown.exception (OptErr.emptyInterval name)) := by
  induction names generalizing i pl with
  | nil => simp [constrainEach]
  | cons n rest ih =>
    unfold constrainEach
    cases hpar : getParameter n pl with
    | none => simp
    | some par =>
      simp only []
      cases hc : par.constraint with
      | none =>
        simp only []
        cases hset : setConstraint ops par ic with
        | none => simp
        | some par1 => exact ih (i + 1) _
      | some c =>
        simp only []
        cases hset : setConstraint ops par (ops.inter ic c) with
        | none => simp
        | some par1 =>
          simp only []
          have hfit : ops.isCorrect (ops.inter ic c) par.value = true := by
            unfold setConstraint at hset
            by_cases h : ops.isCorrect (ops.inter ic c) par.value = true
            · exact h
            · rw [if_neg h] at hset
              cases hset
          have hnot : ¬ ops.isEmpty (ops.inter ic c) = true := by
            intro h
            rw [hempty _ par.value h] at hfit
            cases hfit
          rw [if_neg hnot]
          exact ih (i + 1) _

/-- When the loop over `parNames2`, entered at index `i`, throws the exception of line 2253
(2646), the name that the exception carries is read in `parNames` at an index of
`parNames2`. -/
theorem constrainEach_emptyInterval_name {I V : Type} (ops : ConstraintOps I V)
    (parNames : List String) (ic : I) (names : List String) (i : Nat)
    (pl : ParameterList I V) (name : Option String)
    (h : (constrainEach ops parNames ic names i pl).2
      = some (Thrown.exception (OptErr.emptyInterval name))) :
    ∃ j, j < names.length ∧ name = parNames[i + j]? := by
  induction names generalizing i pl with
  | nil => simp [constrainEach] at h
  | cons n rest ih =>
    unfold constrainEach at h
    cases hpar : getParameter n pl with
    | none => rw [hpar] at h; simp at h
    | some par =>
      rw [hpar] at h
      simp only [] at h
      cases hc : par.constraint with
      | none =>
        rw [hc] at h
        simp only [] at h
        cases hset : setConstraint ops par ic with
        | none => rw [hset] at h; simp at h
        | some par1 =>
          rw [hset] at h
          obtain ⟨j, hj, hname⟩ := ih (i + 1) _ h
          exact ⟨j + 1, by simp; omega, by rw [hname]; congr 1; omega⟩
      | some c =>
        rw [hc] at h
        simp only [] at h
        cases hset : setConstraint ops par (ops.inter ic c) with
        | none => rw [hset] at h; simp at h
        | some par1 =>
          rw [hset] at h
          simp only [] at h
          by_cases hemp : ops.isEmpty (ops.inter ic c) = true
          · rw [if_pos hemp] at h
            simp only [Option.some.injEq, Thrown.exception.injEq,
              OptErr.emptyInterval.injEq] at h
            exact ⟨0, by simp, by rw [← h]; rfl⟩
          · rw [if_neg hemp] at h
            obtain ⟨j, hj, hname⟩ := ih (i + 1) _ h
            exact ⟨j + 1, by simp; omega, by rw [hname]; congr 1; omega⟩

end PhylogeneticsApplicationTools
